import Mathlib

/-!
Verification of the venue-allocation core of the Student-and-Invigilator
Provisions timetabling system.

The Python source (timetabling_system/services/upload_processor.py,
timetabling_system/services/venue_matching.py, timetabling_system/models.py,
timetabling_system/signals.py) is embedded shallowly:

* datetimes are modelled as integer seconds (Python `datetime` at second
  granularity; `timedelta(minutes=m)` is `m * 60` seconds, `//` is `Int.fdiv`);
* exam lengths are integer minutes, exactly as in the source;
* Python float arithmetic inside `math.ceil(...)` and the per-hour ratio test
  is modelled as exact arithmetic on integers/rationals (the source only ever
  ceils exact quarter/third/half multiples of integer minute counts);
* ORM rows are records in lists kept in primary-key (insertion) order, which
  is the order Django returns them in for the untargeted querysets used here;
* provision codes and capability tags are the literal string values of the
  `ProvisionType` / `ExamVenueProvisionType` / `VenueType` TextChoices.
-/

namespace Timetabling

/-- Floor division on integers, as Python `//` (and `int(total_seconds() // 60)`
on exact second counts). -/
def pydiv (a b : Int) : Int := Int.fdiv a b

/-- Ceiling of the exact fraction `num / den` for positive `den`, the value of
Python `math.ceil` applied to the exact real quotient. -/
def ceilq (num den : Int) : Int := -(pydiv (-num) den)

/-! ### IEEE-754 binary64 model (CPython float semantics)

`_extra_time_minutes` computes `math.ceil(base / 60 * N)` and `math.ceil(base
* 0.25)`, and `_has_small_extra_time` compares `extra_minutes / (base_length /
60) <= 15`, all with Python floats. A float is modelled as a dyadic pair
`(m, k) : Int × Int` of value `m * 2 ^ k`; every operation rounds its exact
rational result to 53 significant bits with round-half-to-even, exactly as
IEEE-754 binary64 arithmetic does in the normal range (no overflow, underflow
or NaN arises at the magnitudes these functions see). -/

/-- Bit length of a natural number (`0` for `0`), by fuel recursion so that
the kernel can evaluate it. -/
def bitLenAux : Nat → Nat → Nat
  | 0, _ => 0
  | f + 1, n => if n = 0 then 0 else 1 + bitLenAux f (n / 2)

def bitLen (n : Nat) : Nat := bitLenAux n n

/-- Round-half-even of the exact rational `a / b` (for `b > 0`) to the
nearest integer: the IEEE-754 default rounding, applied at integer scale. -/
def rhe (a b : Int) : Int :=
  let n := pydiv a b
  let twice := 2 * (a - n * b)
  if twice < b then n
  else if b < twice then n + 1
  else if n % 2 = 0 then n else n + 1

/-- Does `2 ^ d ≤ a / b` hold (for `b > 0`)? Decided inside `Int`. -/
def qpowLe (d a b : Int) : Bool :=
  if 0 ≤ d then decide (b * 2 ^ d.toNat ≤ a) else decide (b ≤ a * 2 ^ (-d).toNat)

/-- The binade of `a / b` for positive `a / b`: the unique `e` with
`2 ^ e ≤ a / b < 2 ^ (e + 1)`. -/
def ilog2 (a b : Int) : Int :=
  let d : Int := (bitLen a.natAbs : Int) - (bitLen b.natAbs : Int)
  if qpowLe d a b then d else d - 1

/-- IEEE-754 binary64 round-to-nearest-even of the exact rational `a / b`
(`b > 0`), as a dyadic pair `(mantissa, exponent)` whose value is
`mantissa * 2 ^ exponent`; this is CPython `int / int` true division (and
`float(n)` is recovered as `floatDiv n 1`). -/
def floatDiv (a b : Int) : Int × Int :=
  if a = 0 then (0, 0)
  else if a < 0 then
    let e := ilog2 (-a) b
    let k := e - 52
    let mant := if 0 ≤ k then rhe (-a) (b * 2 ^ k.toNat)
      else rhe (-a * 2 ^ (-k).toNat) b
    (-mant, k)
  else
    let e := ilog2 a b
    let k := e - 52
    let mant := if 0 ≤ k then rhe a (b * 2 ^ k.toNat)
      else rhe (a * 2 ^ (-k).toNat) b
    (mant, k)

/-- Re-round the exact value `m * 2 ^ k` (an IEEE operation result before
rounding) to binary64. -/
def floatOfScaled (m k : Int) : Int × Int :=
  if 0 ≤ k then floatDiv (m * 2 ^ k.toNat) 1 else floatDiv m (2 ^ (-k).toNat)

/-- IEEE multiplication of a double by a small integer (`base / 60 * 30`):
the exact product, correctly rounded. -/
def floatMulInt (p : Int × Int) (m : Int) : Int × Int :=
  floatOfScaled (p.1 * m) p.2

/-- IEEE division of a double by a positive double
(`extra_minutes / hours` after the int operand is converted by `floatDiv a 1`):
the exact quotient of the two float values, correctly rounded. -/
def floatDivFloat (p q : Int × Int) : Int × Int :=
  if 0 ≤ p.2 - q.2 then floatDiv (p.1 * 2 ^ (p.2 - q.2).toNat) q.1
  else floatDiv p.1 (q.1 * 2 ^ (-(p.2 - q.2)).toNat)

/-- Python `math.ceil` of a double, exact on the dyadic value. -/
def floatCeil (p : Int × Int) : Int :=
  if 0 ≤ p.2 then p.1 * 2 ^ p.2.toNat else ceilq p.1 (2 ^ (-p.2).toNat)

/-- Comparison `double <= c` against an integer `c`, exact in IEEE-754. -/
def floatLeInt (p : Int × Int) (c : Int) : Bool :=
  if 0 ≤ p.2 then decide (p.1 * 2 ^ p.2.toNat ≤ c)
  else decide (p.1 ≤ c * 2 ^ (-p.2).toNat)

/-- The exact rational value of a dyadic pair (proof-side semantics only). -/
def fval (p : Int × Int) : ℚ := (p.1 : ℚ) * 2 ^ p.2

/-! ### Provision and capability codes (models.py TextChoices values) -/

def pExtraTime : String := "extra_time"
def pExtraTime100 : String := "extra_time_100"
def pExtraTime15 : String := "extra_time_15_per_hour"
def pExtraTime20 : String := "extra_time_20_per_hour"
def pExtraTime30 : String := "extra_time_30_per_hour"
def pSepRoomOwn : String := "separate_room_on_own"
def pSepRoomNotOwn : String := "separate_room_not_on_own"
def pUseComputer : String := "use_computer"
def pAccessibleHall : String := "accessible_hall"
def pAssistedEvac : String := "assisted_evacuation_required"
def vtComputerCluster : String := "computer_cluster"
def vtPurpleCluster : String := "purple_cluster"
def vtCoreExamVenue : String := "core_exam_venue"

/-! ### Extra-time calculator (upload_processor.py, `_extra_time_minutes`,
`_apply_extra_time`, `_has_small_extra_time`) -/

/-- Extra-time rule for one provision code, mirroring the if/elif chain of
`_extra_time_minutes`: `base` itself for the 100% code,
`math.ceil(base / 60 * N)` in binary64 for the per-hour tiers, and
`math.ceil(base * 0.25)` (the int converted to float, then multiplied by the
exact power `0.25`) for the generic code; `none` when the code carries no
extra-time rule. -/
def extraTimeRule (base : Int) (prov : String) : Option Int :=
  if prov = pExtraTime100 then some base
  else if prov = pExtraTime30 then
    some (floatCeil (floatMulInt (floatDiv base 60) 30))
  else if prov = pExtraTime20 then
    some (floatCeil (floatMulInt (floatDiv base 60) 20))
  else if prov = pExtraTime15 then
    some (floatCeil (floatMulInt (floatDiv base 60) 15))
  else if prov = pExtraTime then
    some (floatCeil (floatOfScaled (floatDiv base 1).1 ((floatDiv base 1).2 - 2)))
  else none

/-- Maximum of a nonempty list as Python `max(...)`, `0` for the empty list
(the `if extras else 0` guard). -/
def maxOrZero : List Int → Int
  | [] => 0
  | x :: xs => xs.foldl max x

/-- Derive extra time in minutes from provision codes, taking the maximum
applicable rule (`_extra_time_minutes`); `base_length or 0` maps `None` and
`0` to `0`. -/
def extraTimeMinutes (provisions : List String) (baseLength : Option Int) : Int :=
  let base := baseLength.getD 0
  maxOrZero (provisions.filterMap (extraTimeRule base))

/-- Time 09:00 on the same calendar day as second-count `t`
(`base_start.replace(hour=9, minute=0, second=0, microsecond=0)`). -/
def floor9 (t : Int) : Int := pydiv t 86400 * 86400 + 9 * 3600

/-- Shift the start earlier where possible, not before 09:00, adding the whole
allowance to the duration (`_apply_extra_time`). Times in seconds, lengths in
minutes. -/
def applyExtraTime (baseStart baseLength : Option Int) (extraMinutes : Int) :
    Option Int × Option Int :=
  if extraMinutes ≤ 0 then (baseStart, baseLength)
  else
    let newStart :=
      match baseStart with
      | none => none
      | some t =>
        let earliest := floor9 t
        let minutesAvailable := max 0 (pydiv (t - earliest) 60)
        let shift := min extraMinutes minutesAvailable
        if shift ≠ 0 then some (t - shift * 60) else some t
    let newLength :=
      match baseLength with
      | none => if extraMinutes = 0 then none else some extraMinutes
      | some b => some (b + extraMinutes)
    (newStart, newLength)

/-- Whether the allowance is at most 15 minutes per hour
(`_has_small_extra_time`): Python computes `hours = base_length / 60` and
`per_hour = extra_minutes / hours` in binary64 and compares
`per_hour <= 15`, so the test sees the rounded quotient (at
`extra_minutes = 11`, `base_length = 44` it compares
`15.000000000000002 <= 15`, which is false, although the exact ratio is 15). -/
def hasSmallExtraTime (extraMinutes : Int) (baseLength : Option Int) : Bool :=
  match baseLength with
  | none => false
  | some b =>
    if extraMinutes ≤ 0 then false
    else if b = 0 then false
    else
      let hours := floatDiv b 60
      if floatLeInt hours 0 then false
      else floatLeInt (floatDivFloat (floatDiv extraMinutes 1) hours) 15

/-! ### Data model (models.py) — the fields the core reads or writes.
Presentation-only columns (qualifications, accessibility_features,
additional_info, extra_time_custom) are omitted. -/

structure Venue where
  venue_name : String
  capacity : Int
  venuetype : String
  is_accessible : Bool
  availability : List Int
  provision_capabilities : List String
  deriving Repr, DecidableEq

structure Exam where
  exam_id : Nat
  course_code : String
  exam_name : String
  exam_type : String
  no_students : Int
  exam_school : String
  school_contact : String
  deriving Repr, DecidableEq

structure ExamVenue where
  examvenue_id : Nat
  exam_id : Nat
  venue_name : Option String
  start_time : Option Int
  exam_length : Option Int
  core : Bool
  provision_capabilities : List String
  deriving Repr, DecidableEq

structure Student where
  student_id : String
  student_name : String
  deriving Repr, DecidableEq

structure ProvisionsRec where
  student_id : String
  exam_id : Nat
  provisions : List String
  notes : Option String
  deriving Repr, DecidableEq

structure StudentExam where
  se_id : Nat
  student_id : String
  exam_id : Nat
  exam_venue_id : Option Nat
  manual_allocation_override : Bool
  deriving Repr, DecidableEq

/-- Relational state. Lists are in primary-key (insertion) order; the
`next_*` counters model AutoField assignment. `granted_overlap` is ghost
bookkeeping recording the exams for which an allocation ran with
`allow_same_exam_overlap=True` (needed only to state the no-double-booking
property). -/
structure DB where
  exams : List Exam
  venues : List Venue
  examVenues : List ExamVenue
  students : List Student
  provRecs : List ProvisionsRec
  studentExams : List StudentExam
  next_exam_id : Nat
  next_ev_id : Nat
  next_se_id : Nat
  granted_overlap : List Nat
  deriving Repr, DecidableEq

def emptyDB : DB :=
  { exams := [], venues := [], examVenues := [], students := [], provRecs := []
    studentExams := [], next_exam_id := 1, next_ev_id := 1, next_se_id := 1
    granted_overlap := [] }

/-- Truthiness of an optional integer id (Python `if ignore_exam_id:` /
`if student_exam_id:`): `None` and `0` are falsy. -/
def optIdTruthy : Option Nat → Bool
  | none => false
  | some n => n ≠ 0

/-- Truthiness of an optional name set (Python `if avoid_venue_names:`):
`None` and the empty set are falsy. -/
def optListTruthy : Option (List String) → Bool
  | none => false
  | some l => !l.isEmpty

/-! ### Venue matching primitives (venue_matching.py) -/

/-- Does the venue satisfy all required provision capabilities
(`venue_supports_caps`). -/
def venueSupportsCaps (venue : Venue) (requiredCaps : List String) : Bool :=
  requiredCaps.all (fun cap => cap ∈ venue.provision_capabilities)

/-- Loop body of `venue_has_timing_conflict` for one existing `ExamVenue` row:
does `ev` flag a conflict against the supplied slot? -/
def evConflicts (ev : ExamVenue) (start len targetEnd : Int)
    (ignoreExamId : Option Nat) (allowSameExamOverlap : Bool) : Bool :=
  let skip :=
    if optIdTruthy ignoreExamId && (some ev.exam_id == ignoreExamId) then
      if allowSameExamOverlap then true
      else if ev.start_time == some start && ev.exam_length == some len then true
      else false
    else false
  if skip then false
  else
    match ev.start_time, ev.exam_length with
    | some es, some el => decide (start < es + el * 60 ∧ es < targetEnd)
    | _, _ => false

/-- Does the venue already have another `ExamVenue` overlapping the supplied
slot (`venue_has_timing_conflict`)? `venueRows` is the venue's
`examvenue_set` (`none` models a `None` venue); starts are seconds, lengths
minutes. -/
def venueHasTimingConflict (venueRows : Option (List ExamVenue))
    (startTime lengthMinutes : Option Int)
    (ignoreExamId : Option Nat) (allowSameExamOverlap : Bool) : Bool :=
  match venueRows, startTime, lengthMinutes with
  | some rows, some start, some len =>
    rows.any (fun ev => evConflicts ev start len (start + len * 60)
      ignoreExamId allowSameExamOverlap)
  | _, _, _ => false

/-- Is the venue available on the date of `start_time`
(`venue_is_available`, for a non-`None` venue): empty availability or
missing start mean unrestricted. -/
def venueIsAvailable (venue : Venue) (startTime : Option Int) : Bool :=
  match venue.availability with
  | [] => true
  | days =>
    match startTime with
    | none => true
    | some t => pydiv t 86400 ∈ days

end Timetabling

namespace Timetabling

/-! ### Theorems for the pure calculator claims -/

/-- Claim C3 counterexample: with `base_start` at 08:00 (28800 s into day 0),
base length 60 and 30 extra minutes, `_apply_extra_time` returns the start
unchanged at 08:00, which is strictly earlier than 09:00 (32400 s) on the same
calendar day — the claimed universal 09:00 floor is false. -/
theorem apply_extra_time_before_nine_counterexample :
    (applyExtraTime (some 28800) (some 60) 30).1 = some 28800 ∧
      28800 < floor9 28800 := by
  constructor
  · rfl
  · decide

/-- Claim C3 (amended): when `base_start` lies at or after 09:00 of its own
day, `_apply_extra_time` never moves the start before that 09:00 floor; when
`base_start` is already before 09:00 the start is returned unchanged. -/
theorem applyExtraTime_fst_of_pos (t : Int) (bl : Option Int) (e : Int)
    (he : ¬ e ≤ 0) :
    (applyExtraTime (some t) bl e).1 =
      if min e (max 0 (pydiv (t - floor9 t) 60)) ≠ 0 then
        some (t - min e (max 0 (pydiv (t - floor9 t) 60)) * 60)
      else some t := by
  unfold applyExtraTime
  rw [if_neg he]

theorem apply_extra_time_nine_floor (t : Int) (bl : Option Int) (e : Int) :
    (floor9 t ≤ t → ∀ s, (applyExtraTime (some t) bl e).1 = some s →
      floor9 t ≤ s) ∧
    (t < floor9 t → (applyExtraTime (some t) bl e).1 = some t) := by
  by_cases he : e ≤ 0
  · have hfst : (applyExtraTime (some t) bl e).1 = some t := by
      unfold applyExtraTime
      rw [if_pos he]
    refine ⟨fun h9 s hs => ?_, fun _ => hfst⟩
    rw [hfst] at hs
    have : t = s := by injection hs
    omega
  · rw [applyExtraTime_fst_of_pos t bl e he]
    set m := max 0 (pydiv (t - floor9 t) 60) with hm
    set sh := min e m with hsh
    have hm_nonneg : 0 ≤ m := le_max_left 0 _
    have hshm : sh ≤ m := min_le_right _ _
    constructor
    · intro h9 s hs
      have hmle : m * 60 ≤ t - floor9 t := by
        rcases le_or_lt (pydiv (t - floor9 t) 60) 0 with hle | hpos
        · have hm0 : m = 0 := by omega
          rw [hm0]; omega
        · have hmeq : m = pydiv (t - floor9 t) 60 := by omega
          have hfd : pydiv (t - floor9 t) 60 = (t - floor9 t) / 60 := by
            unfold pydiv
            exact Int.fdiv_eq_ediv _ (by norm_num)
          rw [hmeq, hfd]
          exact Int.ediv_mul_le _ (by norm_num)
      by_cases hz : sh ≠ 0
      · rw [if_pos hz] at hs
        have hse : t - sh * 60 = s := by injection hs
        nlinarith [hshm, hmle, hm_nonneg]
      · rw [if_neg hz] at hs
        have : t = s := by injection hs
        omega
    · intro hlt
      have hneg : t - floor9 t < 0 := by omega
      have hdiv : pydiv (t - floor9 t) 60 < 0 := by
        unfold pydiv
        rw [Int.fdiv_eq_ediv _ (by norm_num : (0:Int) ≤ 60)]
        exact Int.ediv_neg' hneg (by norm_num)
      have hm0 : m = 0 := by omega
      have hsh0 : sh = 0 := by omega
      rw [if_neg (by omega : ¬ sh ≠ 0)]

/-- Claim C3 amended, witnessed at 10:00 (36000 s), length 120, 90 extra
minutes: the floor holds. -/
theorem apply_extra_time_nine_floor_witness :
    floor9 36000 ≤ 36000 ∧
      ∀ s, (applyExtraTime (some 36000) (some 120) 90).1 = some s →
        floor9 36000 ≤ s :=
  ⟨by decide, (apply_extra_time_nine_floor 36000 (some 120) 90).1 (by decide)⟩

/-- Claim C4: with positive extra minutes the new length is
`base_length + extra_minutes` (or `extra_minutes` when the base length is
`None`), and with non-positive extra minutes the inputs are returned
unchanged (`_apply_extra_time`). -/
theorem apply_extra_time_duration (bs bl : Option Int) (e : Int) :
    (0 < e → (applyExtraTime bs bl e).2 =
      some (match bl with | some b => b + e | none => e)) ∧
    (e ≤ 0 → applyExtraTime bs bl e = (bs, bl)) := by
  constructor
  · intro he
    unfold applyExtraTime
    have : ¬ e ≤ 0 := by omega
    simp only [this, if_false]
    cases bl with
    | none =>
      have : ¬ e = 0 := by omega
      simp [this]
    | some b => simp
  · intro he
    unfold applyExtraTime
    simp [he]

/-- Claim C4, witnessed at the spec scenarios: 60-minute exam with 30 extra
minutes gains exactly 30; non-positive extra leaves inputs unchanged. -/
theorem apply_extra_time_duration_witness :
    (applyExtraTime (some 36000) (some 60) 30).2 = some 90 ∧
      applyExtraTime (some 36000) (some 60) 0 = (some 36000, some 60) :=
  ⟨(apply_extra_time_duration (some 36000) (some 60) 30).1 (by decide),
   (apply_extra_time_duration (some 36000) (some 60) 0).2 (by decide)⟩

end Timetabling

namespace Timetabling

/-! ### Extra-time monotonicity and tier identities -/

theorem pydiv_le_pydiv {a b : Int} (c : Int) (hc : 0 < c) (h : a ≤ b) :
    pydiv a c ≤ pydiv b c := by
  unfold pydiv
  rw [Int.fdiv_eq_ediv _ hc.le, Int.fdiv_eq_ediv _ hc.le]
  exact Int.ediv_le_ediv hc h

theorem bitLenAux_zero : ∀ f, bitLenAux f 0 = 0
  | 0 => rfl
  | _ + 1 => rfl

theorem bitLenAux_spec : ∀ (f n : Nat), 0 < n → n ≤ f →
    2 ^ (bitLenAux f n - 1) ≤ n ∧ n < 2 ^ bitLenAux f n
  | 0, _, hn, hf => absurd (Nat.lt_of_lt_of_le hn hf) (lt_irrefl 0)
  | f + 1, n, hn, hf => by
    unfold bitLenAux
    rw [if_neg (Nat.pos_iff_ne_zero.mp hn)]
    by_cases h1 : n = 1
    · subst h1
      rw [show (1 : Nat) / 2 = 0 from rfl, bitLenAux_zero]
      exact ⟨le_rfl, by norm_num⟩
    · have hn2 : 2 ≤ n := by omega
      have hhalf_pos : 0 < n / 2 := Nat.div_pos hn2 (by norm_num)
      have hhalf_le : n / 2 ≤ f := by omega
      obtain ⟨ih1, ih2⟩ := bitLenAux_spec f (n / 2) hhalf_pos hhalf_le
      have hL1 : 1 ≤ bitLenAux f (n / 2) := by
        rcases Nat.eq_zero_or_pos (bitLenAux f (n / 2)) with h0 | hp
        · rw [h0, pow_zero] at ih2
          omega
        · exact hp
      set L := bitLenAux f (n / 2) with hL
      have hpow : 2 ^ L = 2 * 2 ^ (L - 1) := by
        conv_lhs => rw [show L = (L - 1) + 1 by omega]
        rw [pow_succ]
        ring
      constructor
      · have hm : 2 * 2 ^ (L - 1) ≤ 2 * (n / 2) := Nat.mul_le_mul_left 2 ih1
        calc 2 ^ (1 + L - 1) = 2 ^ L := by congr 1; omega
          _ = 2 * 2 ^ (L - 1) := hpow
          _ ≤ 2 * (n / 2) := hm
          _ ≤ n := by omega
      · have hup : n < 2 * 2 ^ L := by omega
        calc n < 2 * 2 ^ L := hup
          _ = 2 ^ (L + 1) := by rw [pow_succ]; ring
          _ = 2 ^ (1 + L) := by rw [Nat.add_comm]

theorem bitLen_spec (n : Nat) (hn : 0 < n) :
    2 ^ (bitLen n - 1) ≤ n ∧ n < 2 ^ bitLen n :=
  bitLenAux_spec n n hn le_rfl

theorem qpowLe_iff (d a b : Int) (hb : 0 < b) :
    qpowLe d a b = true ↔ (2 : ℚ) ^ d ≤ (a : ℚ) / (b : ℚ) := by
  have hbq : (0 : ℚ) < (b : ℚ) := by exact_mod_cast hb
  unfold qpowLe
  by_cases hd : 0 ≤ d
  · rw [if_pos hd, decide_eq_true_eq]
    have h2 : (2 : ℚ) ^ d = (2 : ℚ) ^ d.toNat := by
      rw [← zpow_natCast, Int.toNat_of_nonneg hd]
    rw [h2, le_div_iff₀ hbq]
    constructor
    · intro h
      have hq : ((b : ℚ)) * 2 ^ d.toNat ≤ (a : ℚ) := by exact_mod_cast h
      linarith
    · intro h
      have hq : ((b : ℚ)) * 2 ^ d.toNat ≤ (a : ℚ) := by linarith
      exact_mod_cast hq
  · rw [if_neg hd, decide_eq_true_eq]
    push_neg at hd
    have hm : ((-d).toNat : ℤ) = -d := Int.toNat_of_nonneg (by omega)
    have hpow : (0 : ℚ) < (2 : ℚ) ^ (-d).toNat := by positivity
    have h2 : (2 : ℚ) ^ d = ((2 : ℚ) ^ (-d).toNat)⁻¹ := by
      rw [← zpow_natCast, hm, zpow_neg, inv_inv]
    have hc : (2 : ℚ) ^ (-d).toNat * ((2 : ℚ) ^ (-d).toNat)⁻¹ = 1 :=
      mul_inv_cancel₀ (ne_of_gt hpow)
    rw [h2, le_div_iff₀ hbq]
    constructor
    · intro h
      have hq : (b : ℚ) ≤ (a : ℚ) * 2 ^ (-d).toNat := by exact_mod_cast h
      nlinarith
    · intro h
      have hq : (b : ℚ) ≤ (a : ℚ) * 2 ^ (-d).toNat := by nlinarith
      exact_mod_cast hq

theorem ilog2_spec (a b : Int) (ha : 0 < a) (hb : 0 < b) :
    (2 : ℚ) ^ ilog2 a b ≤ (a : ℚ) / (b : ℚ) ∧
      (a : ℚ) / (b : ℚ) < 2 ^ (ilog2 a b + 1) := by
  have hbq : (0 : ℚ) < (b : ℚ) := by exact_mod_cast hb
  have haq : (0 : ℚ) < (a : ℚ) := by exact_mod_cast ha
  obtain ⟨fa1, fa2⟩ := bitLen_spec a.natAbs (by omega)
  obtain ⟨fb1, fb2⟩ := bitLen_spec b.natAbs (by omega)
  have hA1 : 1 ≤ bitLen a.natAbs := by
    rcases Nat.eq_zero_or_pos (bitLen a.natAbs) with h0 | hp
    · rw [h0, pow_zero] at fa2
      omega
    · exact hp
  have hB1 : 1 ≤ bitLen b.natAbs := by
    rcases Nat.eq_zero_or_pos (bitLen b.natAbs) with h0 | hp
    · rw [h0, pow_zero] at fb2
      omega
    · exact hp
  have haZ : (a.natAbs : ℤ) = a := Int.natAbs_of_nonneg ha.le
  have hbZ : (b.natAbs : ℤ) = b := Int.natAbs_of_nonneg hb.le
  have haN : ((a.natAbs : ℕ) : ℚ) = (a : ℚ) := by
    rw [Int.cast_natAbs, abs_of_pos ha]
  have hbN : ((b.natAbs : ℕ) : ℚ) = (b : ℚ) := by
    rw [Int.cast_natAbs, abs_of_pos hb]
  set dA : ℤ := (bitLen a.natAbs : ℤ) with hdA
  set dB : ℤ := (bitLen b.natAbs : ℤ) with hdB
  have qa1 : (2 : ℚ) ^ (dA - 1) ≤ (a : ℚ) := by
    have h1 : ((2 ^ (bitLen a.natAbs - 1) : ℕ) : ℚ) ≤ ((a.natAbs : ℕ) : ℚ) := by
      exact_mod_cast fa1
    push_cast at h1
    rw [haN] at h1
    rw [show dA - 1 = ((bitLen a.natAbs - 1 : ℕ) : ℤ) by omega, zpow_natCast]
    exact h1
  have qa2 : (a : ℚ) < (2 : ℚ) ^ dA := by
    have h1 : ((a.natAbs : ℕ) : ℚ) < ((2 ^ bitLen a.natAbs : ℕ) : ℚ) := by
      exact_mod_cast fa2
    push_cast at h1
    rw [haN] at h1
    rw [hdA, zpow_natCast]
    exact h1
  have qb1 : (2 : ℚ) ^ (dB - 1) ≤ (b : ℚ) := by
    have h1 : ((2 ^ (bitLen b.natAbs - 1) : ℕ) : ℚ) ≤ ((b.natAbs : ℕ) : ℚ) := by
      exact_mod_cast fb1
    push_cast at h1
    rw [hbN] at h1
    rw [show dB - 1 = ((bitLen b.natAbs - 1 : ℕ) : ℤ) by omega, zpow_natCast]
    exact h1
  have qb2 : (b : ℚ) < (2 : ℚ) ^ dB := by
    have h1 : ((b.natAbs : ℕ) : ℚ) < ((2 ^ bitLen b.natAbs : ℕ) : ℚ) := by
      exact_mod_cast fb2
    push_cast at h1
    rw [hbN] at h1
    rw [hdB, zpow_natCast]
    exact h1
  have hupper : (a : ℚ) / (b : ℚ) < 2 ^ (dA - dB + 1) := by
    have hb1pos : (0 : ℚ) < (2 : ℚ) ^ (dB - 1) := by positivity
    have hstep : (a : ℚ) / (b : ℚ) < (2 : ℚ) ^ dA / (2 : ℚ) ^ (dB - 1) := by
      apply div_lt_div qa2 qb1 (by positivity) hb1pos
    calc (a : ℚ) / (b : ℚ) < (2 : ℚ) ^ dA / (2 : ℚ) ^ (dB - 1) := hstep
      _ = 2 ^ (dA - dB + 1) := by
        rw [← zpow_sub₀ (by norm_num : (2 : ℚ) ≠ 0)]
        congr 1
        ring
  have hlower : (2 : ℚ) ^ (dA - dB - 1) ≤ (a : ℚ) / (b : ℚ) := by
    have hstep : (2 : ℚ) ^ (dA - 1) / (2 : ℚ) ^ dB ≤ (a : ℚ) / (b : ℚ) := by
      apply div_le_div haq.le qa1 (by positivity) qb2.le
    calc (2 : ℚ) ^ (dA - dB - 1)
        = (2 : ℚ) ^ (dA - 1) / (2 : ℚ) ^ dB := by
          rw [← zpow_sub₀ (by norm_num : (2 : ℚ) ≠ 0)]
          congr 1
          ring
      _ ≤ (a : ℚ) / (b : ℚ) := hstep
  unfold ilog2
  simp only []
  rw [← hdA, ← hdB]
  by_cases hq : qpowLe (dA - dB) a b = true
  · rw [if_pos hq]
    exact ⟨(qpowLe_iff _ a b hb).mp hq, hupper⟩
  · rw [if_neg hq]
    have hnot : ¬ (2 : ℚ) ^ (dA - dB) ≤ (a : ℚ) / (b : ℚ) := by
      intro hc
      exact hq ((qpowLe_iff _ a b hb).mpr hc)
    push_neg at hnot
    constructor
    · exact hlower
    · calc (a : ℚ) / (b : ℚ) < 2 ^ (dA - dB) := hnot
        _ = 2 ^ (dA - dB - 1 + 1) := by congr 1; ring

theorem ilog2_eq (a b : Int) (ha : 0 < a) (hb : 0 < b) (E : Int)
    (h1 : (2 : ℚ) ^ E ≤ (a : ℚ) / (b : ℚ))
    (h2 : (a : ℚ) / (b : ℚ) < 2 ^ (E + 1)) : ilog2 a b = E := by
  obtain ⟨s1, s2⟩ := ilog2_spec a b ha hb
  by_contra hne
  rcases lt_or_gt_of_ne hne with hlt | hgt
  · have hc : (2 : ℚ) ^ (ilog2 a b + 1) ≤ 2 ^ E :=
      zpow_le_zpow_right₀ (by norm_num) (by omega)
    linarith
  · have hc : (2 : ℚ) ^ (E + 1) ≤ 2 ^ ilog2 a b :=
      zpow_le_zpow_right₀ (by norm_num) (by omega)
    linarith

theorem pydiv_eq_floor (a b : Int) (hb : 0 < b) :
    pydiv a b = ⌊(a : ℚ) / (b : ℚ)⌋ := by
  unfold pydiv
  rw [Int.fdiv_eq_ediv _ hb.le]
  have hbn : ((b.toNat : ℕ) : ℤ) = b := Int.toNat_of_nonneg hb.le
  have hfl := Rat.floor_intCast_div_natCast a b.toNat
  rw [hbn] at hfl
  rw [show ((b.toNat : ℕ) : ℚ) = (b : ℚ) by exact_mod_cast hbn] at hfl
  exact hfl.symm

theorem rhe_spec (a b : Int) (hb : 0 < b) :
    pydiv a b ≤ rhe a b ∧ rhe a b ≤ pydiv a b + 1 ∧
      |(rhe a b : ℚ) - (a : ℚ) / (b : ℚ)| ≤ 1 / 2 := by
  have hbq : (0 : ℚ) < (b : ℚ) := by exact_mod_cast hb
  set x : ℚ := (a : ℚ) / (b : ℚ) with hx
  set n : Int := pydiv a b with hn
  have hnfl : n = ⌊x⌋ := pydiv_eq_floor a b hb
  have hle : (n : ℚ) ≤ x := by rw [hnfl]; exact Int.floor_le x
  have hlt : x < (n : ℚ) + 1 := by rw [hnfl]; exact Int.lt_floor_add_one x
  have hbx : (b : ℚ) * x = (a : ℚ) := by
    rw [hx]
    field_simp
  have htw : ((2 * (a - n * b) : ℤ) : ℚ) = 2 * (b : ℚ) * (x - (n : ℚ)) := by
    push_cast
    nlinarith [hbx]
  unfold rhe
  simp only []
  rw [← hn]
  split_ifs with h1 h2 h3
  · have hf : x - (n : ℚ) < 1 / 2 := by
      have hq : ((2 * (a - n * b) : ℤ) : ℚ) < (b : ℚ) := by exact_mod_cast h1
      rw [htw] at hq
      nlinarith
    refine ⟨le_rfl, by omega, ?_⟩
    rw [abs_le]
    constructor <;> linarith
  · have hf : 1 / 2 < x - (n : ℚ) := by
      have hq : (b : ℚ) < ((2 * (a - n * b) : ℤ) : ℚ) := by exact_mod_cast h2
      rw [htw] at hq
      nlinarith
    refine ⟨by omega, le_rfl, ?_⟩
    rw [abs_le]
    push_cast
    constructor <;> linarith
  · have hf : x - (n : ℚ) = 1 / 2 := by
      have hq : ((2 * (a - n * b) : ℤ) : ℚ) = (b : ℚ) := by exact_mod_cast (by omega : 2 * (a - n * b) = b)
      rw [htw] at hq
      nlinarith
    refine ⟨le_rfl, by omega, ?_⟩
    rw [abs_le]
    constructor <;> linarith
  · have hf : x - (n : ℚ) = 1 / 2 := by
      have hq : ((2 * (a - n * b) : ℤ) : ℚ) = (b : ℚ) := by exact_mod_cast (by omega : 2 * (a - n * b) = b)
      rw [htw] at hq
      nlinarith
    refine ⟨by omega, le_rfl, ?_⟩
    rw [abs_le]
    push_cast
    constructor <;> linarith

theorem rhe_exact (b m : Int) (hb : 0 < b) : rhe (m * b) b = m := by
  unfold rhe pydiv
  rw [Int.fdiv_eq_ediv _ hb.le, Int.mul_ediv_cancel m (ne_of_gt hb)]
  simp only []
  rw [show 2 * (m * b - m * b) = 0 by ring, if_pos hb]

theorem rhe_branch (a b : Int) (hb : 0 < b) :
    (rhe a b = pydiv a b ∧
      ((a : ℚ) / b - pydiv a b < 1 / 2 ∨
        ((a : ℚ) / b - pydiv a b = 1 / 2 ∧ pydiv a b % 2 = 0))) ∨
    (rhe a b = pydiv a b + 1 ∧
      (1 / 2 < (a : ℚ) / b - pydiv a b ∨
        ((a : ℚ) / b - pydiv a b = 1 / 2 ∧ pydiv a b % 2 ≠ 0))) := by
  have hbq : (0 : ℚ) < (b : ℚ) := by exact_mod_cast hb
  set x : ℚ := (a : ℚ) / (b : ℚ) with hx
  set n : Int := pydiv a b with hn
  have hbx : (b : ℚ) * x = (a : ℚ) := by
    rw [hx]
    field_simp
  have htw : ((2 * (a - n * b) : ℤ) : ℚ) = 2 * (b : ℚ) * (x - (n : ℚ)) := by
    push_cast
    nlinarith [hbx]
  unfold rhe
  simp only []
  rw [← hn]
  split_ifs with h1 h2 h3
  · left
    refine ⟨rfl, Or.inl ?_⟩
    have hq : ((2 * (a - n * b) : ℤ) : ℚ) < (b : ℚ) := by exact_mod_cast h1
    rw [htw] at hq
    nlinarith
  · right
    refine ⟨rfl, Or.inl ?_⟩
    have hq : (b : ℚ) < ((2 * (a - n * b) : ℤ) : ℚ) := by exact_mod_cast h2
    rw [htw] at hq
    nlinarith
  · left
    refine ⟨rfl, Or.inr ⟨?_, h3⟩⟩
    have hq : ((2 * (a - n * b) : ℤ) : ℚ) = (b : ℚ) := by
      exact_mod_cast (by omega : 2 * (a - n * b) = b)
    rw [htw] at hq
    nlinarith
  · right
    refine ⟨rfl, Or.inr ⟨?_, h3⟩⟩
    have hq : ((2 * (a - n * b) : ℤ) : ℚ) = (b : ℚ) := by
      exact_mod_cast (by omega : 2 * (a - n * b) = b)
    rw [htw] at hq
    nlinarith

theorem rhe_mono (a1 b1 a2 b2 : Int) (hb1 : 0 < b1) (hb2 : 0 < b2)
    (h : (a1 : ℚ) / b1 ≤ (a2 : ℚ) / b2) : rhe a1 b1 ≤ rhe a2 b2 := by
  have hfl : pydiv a1 b1 ≤ pydiv a2 b2 := by
    rw [pydiv_eq_floor a1 b1 hb1, pydiv_eq_floor a2 b2 hb2]
    exact Int.floor_le_floor h
  obtain ⟨u1, u2, _⟩ := rhe_spec a1 b1 hb1
  obtain ⟨v1, v2, _⟩ := rhe_spec a2 b2 hb2
  rcases lt_or_eq_of_le hfl with hlt | heq
  · omega
  · rcases rhe_branch a1 b1 hb1 with ⟨e1, d1⟩ | ⟨e1, d1⟩
    · omega
    · rcases rhe_branch a2 b2 hb2 with ⟨e2, d2⟩ | ⟨e2, d2⟩
      · exfalso
        have hx12 : (a1 : ℚ) / b1 - pydiv a1 b1 ≤ (a2 : ℚ) / b2 - pydiv a2 b2 := by
          have : ((pydiv a1 b1 : ℤ) : ℚ) = ((pydiv a2 b2 : ℤ) : ℚ) := by
            exact_mod_cast heq
          linarith
        rcases d1 with d1 | ⟨d1, dodd⟩ <;> rcases d2 with d2 | ⟨d2, deven⟩
        · linarith
        · linarith
        · linarith
        · rw [heq] at dodd
          exact dodd deven
      · omega

theorem floatDiv_pos_eq (a b : Int) (ha : 0 < a) :
    floatDiv a b =
      (if 0 ≤ ilog2 a b - 52 then rhe a (b * 2 ^ (ilog2 a b - 52).toNat)
        else rhe (a * 2 ^ (-(ilog2 a b - 52)).toNat) b, ilog2 a b - 52) := by
  unfold floatDiv
  rw [if_neg (by omega), if_neg (by omega)]

theorem rhe_core (A B : Int) (hB : 0 < B) (y : ℚ) (hy : (A : ℚ) / B = y)
    (h1 : ((2 : ℚ) ^ (52 : ℕ)) ≤ y) (h2 : y < (2 : ℚ) ^ (53 : ℕ)) :
    ((2 : ℚ) ^ (52 : ℕ)) ≤ (rhe A B : ℚ) ∧
      (rhe A B : ℚ) ≤ (2 : ℚ) ^ (53 : ℕ) ∧
      |(rhe A B : ℚ) - y| ≤ 1 / 2 := by
  obtain ⟨u1, u2, u3⟩ := rhe_spec A B hB
  have hfl : pydiv A B = ⌊y⌋ := by rw [pydiv_eq_floor A B hB, hy]
  have hlow : ((2 : ℚ) ^ (52 : ℕ)) ≤ (pydiv A B : ℚ) := by
    rw [hfl]
    have : ((2 ^ 52 : ℤ) : ℚ) ≤ (⌊y⌋ : ℚ) := by
      exact_mod_cast Int.le_floor.mpr (by push_cast; exact h1)
    push_cast at this ⊢
    linarith
  have hhigh : (pydiv A B : ℚ) + 1 ≤ (2 : ℚ) ^ (53 : ℕ) := by
    rw [hfl]
    have hflt : ⌊y⌋ < (2 ^ 53 : ℤ) := Int.floor_lt.mpr (by push_cast; exact h2)
    have : (⌊y⌋ : ℚ) + 1 ≤ ((2 ^ 53 : ℤ) : ℚ) := by exact_mod_cast hflt
    push_cast at this ⊢
    linarith
  have hc1 : ((pydiv A B : ℤ) : ℚ) ≤ (rhe A B : ℚ) := by exact_mod_cast u1
  have hc2 : (rhe A B : ℚ) ≤ ((pydiv A B : ℤ) : ℚ) + 1 := by exact_mod_cast u2
  rw [hy] at u3
  exact ⟨le_trans hlow hc1, le_trans hc2 hhigh, u3⟩

theorem floatDiv_val_spec (a b : Int) (ha : 0 < a) (hb : 0 < b) :
    (2 : ℚ) ^ ilog2 a b ≤ fval (floatDiv a b) ∧
      fval (floatDiv a b) ≤ 2 ^ (ilog2 a b + 1) ∧
      |fval (floatDiv a b) - (a : ℚ) / b| ≤
        ((a : ℚ) / b) * ((2 : ℚ) ^ (53 : ℕ))⁻¹ := by
  have hbq : (0 : ℚ) < (b : ℚ) := by exact_mod_cast hb
  have haq : (0 : ℚ) < (a : ℚ) := by exact_mod_cast ha
  obtain ⟨s1, s2⟩ := ilog2_spec a b ha hb
  set e : ℤ := ilog2 a b with he
  set x : ℚ := (a : ℚ) / (b : ℚ) with hx
  have h2ne : (2 : ℚ) ≠ 0 := by norm_num
  have hkpos : (0 : ℚ) < (2 : ℚ) ^ (e - 52) := by positivity
  have hsplit : ∀ p q : ℤ, (2 : ℚ) ^ p * (2 : ℚ) ^ q = (2 : ℚ) ^ (p + q) := by
    intro p q
    rw [← zpow_add₀ h2ne]
  have hy1 : ((2 : ℚ) ^ (52 : ℕ)) ≤ x * (2 : ℚ) ^ (52 - e) := by
    have hm := mul_le_mul_of_nonneg_right s1
      (le_of_lt (show (0 : ℚ) < (2 : ℚ) ^ (52 - e) by positivity))
    calc ((2 : ℚ) ^ (52 : ℕ)) = (2 : ℚ) ^ (52 : ℤ) := by
          rw [← zpow_natCast]
          norm_num
      _ = (2 : ℚ) ^ e * (2 : ℚ) ^ (52 - e) := by
          rw [hsplit]
          congr 1
          ring
      _ ≤ x * (2 : ℚ) ^ (52 - e) := hm
  have hy2 : x * (2 : ℚ) ^ (52 - e) < (2 : ℚ) ^ (53 : ℕ) := by
    have hm := mul_lt_mul_of_pos_right s2
      (show (0 : ℚ) < (2 : ℚ) ^ (52 - e) by positivity)
    calc x * (2 : ℚ) ^ (52 - e) < (2 : ℚ) ^ (e + 1) * (2 : ℚ) ^ (52 - e) := hm
      _ = (2 : ℚ) ^ (53 : ℤ) := by
          rw [hsplit]
          congr 1
          ring
      _ = (2 : ℚ) ^ (53 : ℕ) := by
          rw [← zpow_natCast]
          norm_num
  rw [floatDiv_pos_eq a b ha]
  have hcore : ((2 : ℚ) ^ (52 : ℕ)) ≤
      ((if 0 ≤ e - 52 then rhe a (b * 2 ^ (e - 52).toNat)
        else rhe (a * 2 ^ (-(e - 52)).toNat) b : ℤ) : ℚ) ∧
      ((if 0 ≤ e - 52 then rhe a (b * 2 ^ (e - 52).toNat)
        else rhe (a * 2 ^ (-(e - 52)).toNat) b : ℤ) : ℚ) ≤ (2 : ℚ) ^ (53 : ℕ) ∧
      |((if 0 ≤ e - 52 then rhe a (b * 2 ^ (e - 52).toNat)
        else rhe (a * 2 ^ (-(e - 52)).toNat) b : ℤ) : ℚ) -
        x * (2 : ℚ) ^ (52 - e)| ≤ 1 / 2 := by
    by_cases hk : 0 ≤ e - 52
    · rw [if_pos hk]
      have hBpos : (0 : Int) < b * 2 ^ (e - 52).toNat := by positivity
      refine rhe_core a (b * 2 ^ (e - 52).toNat) hBpos
        (x * (2 : ℚ) ^ (52 - e)) ?_ hy1 hy2
      have hBq : ((b * 2 ^ (e - 52).toNat : ℤ) : ℚ) =
          (b : ℚ) * (2 : ℚ) ^ (e - 52) := by
        push_cast
        rw [← zpow_natCast, Int.toNat_of_nonneg hk]
      rw [hBq, hx, ← div_div, div_eq_mul_inv ((a : ℚ) / (b : ℚ)), ← zpow_neg]
      congr 1
      ring
    · rw [if_neg hk]
      refine rhe_core (a * 2 ^ (-(e - 52)).toNat) b hb
        (x * (2 : ℚ) ^ (52 - e)) ?_ hy1 hy2
      have hAq : ((a * 2 ^ (-(e - 52)).toNat : ℤ) : ℚ) =
          (a : ℚ) * (2 : ℚ) ^ (52 - e) := by
        push_cast
        rw [← zpow_natCast, Int.toNat_of_nonneg (by omega : (0 : ℤ) ≤ -(e - 52))]
        congr 1
        ring
      rw [hAq, hx]
      ring
  obtain ⟨c1, c2, c3⟩ := hcore
  set M : ℚ := ((if 0 ≤ e - 52 then rhe a (b * 2 ^ (e - 52).toNat)
    else rhe (a * 2 ^ (-(e - 52)).toNat) b : ℤ) : ℚ) with hM
  have hvv : fval (if 0 ≤ e - 52 then rhe a (b * 2 ^ (e - 52).toNat)
      else rhe (a * 2 ^ (-(e - 52)).toNat) b, e - 52) =
      M * (2 : ℚ) ^ (e - 52) := rfl
  rw [hvv]
  have hee1 : (2 : ℚ) ^ e = (2 : ℚ) ^ (52 : ℤ) * (2 : ℚ) ^ (e - 52) := by
    rw [hsplit]
    congr 1
    ring
  have hee2 : (2 : ℚ) ^ (53 : ℤ) * (2 : ℚ) ^ (e - 52) = (2 : ℚ) ^ (e + 1) := by
    rw [hsplit]
    congr 1
    ring
  have hn52 : ((2 : ℚ) ^ (52 : ℕ)) = (2 : ℚ) ^ (52 : ℤ) := by
    rw [← zpow_natCast]
    norm_num
  have hn53 : ((2 : ℚ) ^ (53 : ℕ)) = (2 : ℚ) ^ (53 : ℤ) := by
    rw [← zpow_natCast]
    norm_num
  refine ⟨?_, ?_, ?_⟩
  · rw [hee1]
    refine mul_le_mul_of_nonneg_right ?_ hkpos.le
    rw [← hn52]
    exact c1
  · rw [← hee2]
    refine mul_le_mul_of_nonneg_right ?_ hkpos.le
    rw [← hn53]
    exact c2
  · have hxe : x * (2 : ℚ) ^ (52 - e) * (2 : ℚ) ^ (e - 52) = x := by
      rw [mul_assoc, hsplit]
      norm_num
    have habs : |M * (2 : ℚ) ^ (e - 52) - x| =
        |M - x * (2 : ℚ) ^ (52 - e)| * (2 : ℚ) ^ (e - 52) := by
      rw [show M * (2 : ℚ) ^ (e - 52) - x =
        (M - x * (2 : ℚ) ^ (52 - e)) * (2 : ℚ) ^ (e - 52) by rw [sub_mul, hxe]]
      rw [abs_mul, abs_of_pos hkpos]
    have hb1 : |M - x * (2 : ℚ) ^ (52 - e)| * (2 : ℚ) ^ (e - 52) ≤
        (1 / 2) * (2 : ℚ) ^ (e - 52) := mul_le_mul_of_nonneg_right c3 hkpos.le
    have hb2 : (1 / 2 : ℚ) * (2 : ℚ) ^ (e - 52) = (2 : ℚ) ^ e * (2 : ℚ) ^ (-53 : ℤ) := by
      rw [show (1 : ℚ) / 2 = (2 : ℚ) ^ (-1 : ℤ) by norm_num, hsplit, hsplit]
      congr 1
      ring
    have hb3 : (2 : ℚ) ^ e * (2 : ℚ) ^ (-53 : ℤ) ≤ x * (2 : ℚ) ^ (-53 : ℤ) :=
      mul_le_mul_of_nonneg_right s1 (by positivity)
    have hb4 : x * (2 : ℚ) ^ (-53 : ℤ) = x * ((2 : ℚ) ^ (53 : ℕ))⁻¹ := by
      rw [zpow_neg, hn53]
    rw [habs]
    calc |M - x * (2 : ℚ) ^ (52 - e)| * (2 : ℚ) ^ (e - 52) ≤
          (1 / 2) * (2 : ℚ) ^ (e - 52) := hb1
      _ = (2 : ℚ) ^ e * (2 : ℚ) ^ (-53 : ℤ) := hb2
      _ ≤ x * (2 : ℚ) ^ (-53 : ℤ) := hb3
      _ = x * ((2 : ℚ) ^ (53 : ℕ))⁻¹ := hb4

theorem floatDiv_zero (b : Int) : floatDiv 0 b = (0, 0) := by
  unfold floatDiv
  rw [if_pos rfl]

theorem fval_zero : fval ((0 : Int), (0 : Int)) = 0 := by
  unfold fval
  norm_num

theorem floatDiv_val_pos (a b : Int) (ha : 0 < a) (hb : 0 < b) :
    0 < fval (floatDiv a b) :=
  lt_of_lt_of_le (by positivity) (floatDiv_val_spec a b ha hb).1

theorem floatDiv_val_nonneg (a b : Int) (ha : 0 ≤ a) (hb : 0 < b) :
    0 ≤ fval (floatDiv a b) := by
  rcases lt_or_eq_of_le ha with hpos | h0
  · exact (floatDiv_val_pos a b hpos hb).le
  · rw [← h0, floatDiv_zero, fval_zero]

theorem floatDiv_mono (a1 b1 a2 b2 : Int) (ha1 : 0 ≤ a1) (hb1 : 0 < b1)
    (hb2 : 0 < b2) (h : (a1 : ℚ) / b1 ≤ (a2 : ℚ) / b2) :
    fval (floatDiv a1 b1) ≤ fval (floatDiv a2 b2) := by
  rcases lt_or_eq_of_le ha1 with hpos1 | h01
  · have hx1 : (0 : ℚ) < (a1 : ℚ) / b1 := by
      have h1 : (0 : ℚ) < (a1 : ℚ) := by exact_mod_cast hpos1
      have h2 : (0 : ℚ) < (b1 : ℚ) := by exact_mod_cast hb1
      positivity
    have hx2 : (0 : ℚ) < (a2 : ℚ) / b2 := lt_of_lt_of_le hx1 h
    have hpos2 : 0 < a2 := by
      by_contra hc
      push_neg at hc
      have hle : (a2 : ℚ) ≤ 0 := by exact_mod_cast hc
      have hb2q : (0 : ℚ) < (b2 : ℚ) := by exact_mod_cast hb2
      have : (a2 : ℚ) / b2 ≤ 0 := div_nonpos_of_nonpos_of_nonneg hle hb2q.le
      linarith
    obtain ⟨u1, u2, _⟩ := floatDiv_val_spec a1 b1 hpos1 hb1
    obtain ⟨v1, v2, _⟩ := floatDiv_val_spec a2 b2 hpos2 hb2
    obtain ⟨p1, p2⟩ := ilog2_spec a1 b1 hpos1 hb1
    obtain ⟨q1, q2⟩ := ilog2_spec a2 b2 hpos2 hb2
    have hele : ilog2 a1 b1 ≤ ilog2 a2 b2 := by
      by_contra hc
      push_neg at hc
      have : (2 : ℚ) ^ (ilog2 a2 b2 + 1) ≤ 2 ^ ilog2 a1 b1 :=
        zpow_le_zpow_right₀ (by norm_num) (by omega)
      linarith
    rcases lt_or_eq_of_le hele with helt | heeq
    · have hmid : (2 : ℚ) ^ (ilog2 a1 b1 + 1) ≤ 2 ^ ilog2 a2 b2 :=
        zpow_le_zpow_right₀ (by norm_num) (by omega)
      linarith
    · rw [floatDiv_pos_eq a1 b1 hpos1, floatDiv_pos_eq a2 b2 hpos2, ← heeq]
      set e : ℤ := ilog2 a1 b1 with he
      have hmm : (if 0 ≤ e - 52 then rhe a1 (b1 * 2 ^ (e - 52).toNat)
          else rhe (a1 * 2 ^ (-(e - 52)).toNat) b1) ≤
          (if 0 ≤ e - 52 then rhe a2 (b2 * 2 ^ (e - 52).toNat)
          else rhe (a2 * 2 ^ (-(e - 52)).toNat) b2) := by
        by_cases hk : 0 ≤ e - 52
        · rw [if_pos hk, if_pos hk]
          refine rhe_mono _ _ _ _ (by positivity) (by positivity) ?_
          have hc1 : ((b1 * 2 ^ (e - 52).toNat : ℤ) : ℚ) =
              (b1 : ℚ) * 2 ^ (e - 52).toNat := by push_cast; ring
          have hc2 : ((b2 * 2 ^ (e - 52).toNat : ℤ) : ℚ) =
              (b2 : ℚ) * 2 ^ (e - 52).toNat := by push_cast; ring
          rw [hc1, hc2, ← div_div, ← div_div]
          exact (div_le_div_right (by positivity)).mpr h
        · rw [if_neg hk, if_neg hk]
          refine rhe_mono _ _ _ _ hb1 hb2 ?_
          have hc1 : ((a1 * 2 ^ (-(e - 52)).toNat : ℤ) : ℚ) =
              (a1 : ℚ) * 2 ^ (-(e - 52)).toNat := by push_cast; ring
          have hc2 : ((a2 * 2 ^ (-(e - 52)).toNat : ℤ) : ℚ) =
              (a2 : ℚ) * 2 ^ (-(e - 52)).toNat := by push_cast; ring
          rw [hc1, hc2, mul_div_right_comm, mul_div_right_comm]
          exact mul_le_mul_of_nonneg_right h (by positivity)
      unfold fval
      exact mul_le_mul_of_nonneg_right (by exact_mod_cast hmm) (by positivity)
  · rw [← h01, floatDiv_zero, fval_zero]
    have ha2 : 0 ≤ a2 := by
      by_contra hc
      push_neg at hc
      rw [← h01] at h
      have hz : ((0 : ℤ) : ℚ) / b1 = 0 := by norm_num
      rw [hz] at h
      have hb2q : (0 : ℚ) < (b2 : ℚ) := by exact_mod_cast hb2
      have ha2q : (a2 : ℚ) < 0 := by exact_mod_cast hc
      have : (a2 : ℚ) / b2 < 0 := div_neg_of_neg_of_pos ha2q hb2q
      linarith
    exact floatDiv_val_nonneg a2 b2 ha2 hb2

theorem ceilq_eq_ceil (a b : Int) (hb : 0 < b) :
    ceilq a b = ⌈(a : ℚ) / (b : ℚ)⌉ := by
  unfold ceilq
  rw [pydiv_eq_floor _ _ hb]
  have hc : ((-a : ℤ) : ℚ) / b = -((a : ℚ) / b) := by push_cast; ring
  rw [hc, Int.floor_neg, neg_neg]

theorem floatDiv_exact (a b m : Int) (ha : 0 < a) (hb : 0 < b)
    (hm : (a : ℚ) / b = (m : ℚ) * 2 ^ (ilog2 a b - 52)) :
    fval (floatDiv a b) = (a : ℚ) / b := by
  rw [floatDiv_pos_eq a b ha]
  set e : ℤ := ilog2 a b with he
  have hbq : (0 : ℚ) < (b : ℚ) := by exact_mod_cast hb
  by_cases hk : 0 ≤ e - 52
  · rw [if_pos hk]
    have hBpos : (0 : ℤ) < b * 2 ^ (e - 52).toNat := by positivity
    have h2 : (2 : ℚ) ^ (e - 52) = (2 : ℚ) ^ (e - 52).toNat := by
      rw [← zpow_natCast]
      congr 1
      omega
    have hmb := hm
    rw [div_eq_iff (ne_of_gt hbq)] at hmb
    have hq : (a : ℚ) = (m : ℚ) * ((b : ℚ) * (2 : ℚ) ^ (e - 52).toNat) := by
      rw [hmb, h2]
      ring
    have haz : a = m * (b * 2 ^ (e - 52).toNat) := by exact_mod_cast hq
    have hmant : rhe a (b * 2 ^ (e - 52).toNat) = m := by
      rw [haz]
      exact rhe_exact _ _ hBpos
    rw [hmant]
    show (m : ℚ) * 2 ^ (e - 52) = (a : ℚ) / b
    rw [hm]
  · rw [if_neg hk]
    have h2 : (2 : ℚ) ^ ((-(e - 52)).toNat) = (2 : ℚ) ^ (-(e - 52) : ℤ) := by
      rw [← zpow_natCast]
      congr 1
      omega
    have hmb := hm
    rw [div_eq_iff (ne_of_gt hbq)] at hmb
    have hq : (a : ℚ) * (2 : ℚ) ^ (-(e - 52)).toNat = (m : ℚ) * b := by
      rw [h2, hmb, zpow_neg]
      have hne : ((2 : ℚ) ^ (e - 52 : ℤ)) ≠ 0 := by positivity
      field_simp
      ring
    have haz : a * 2 ^ (-(e - 52)).toNat = m * b := by exact_mod_cast hq
    have hmant : rhe (a * 2 ^ (-(e - 52)).toNat) b = m := by
      rw [haz]
      exact rhe_exact _ _ hb
    rw [hmant]
    show (m : ℚ) * 2 ^ (e - 52) = (a : ℚ) / b
    rw [hm]

theorem floatCeil_eq (p : Int × Int) : floatCeil p = ⌈fval p⌉ := by
  unfold floatCeil fval
  by_cases hk : 0 ≤ p.2
  · rw [if_pos hk]
    have h2 : ((2 : ℚ) ^ p.2) = ((2 ^ p.2.toNat : ℤ) : ℚ) := by
      push_cast
      rw [← zpow_natCast]
      congr 1
      omega
    rw [h2, ← Int.cast_mul, Int.ceil_intCast]
  · rw [if_neg hk]
    have hbpos : (0 : ℤ) < 2 ^ (-p.2).toNat := by positivity
    rw [ceilq_eq_ceil _ _ hbpos]
    congr 1
    have h2 : ((2 : ℚ) ^ p.2) = (((2 : ℤ) ^ (-p.2).toNat : ℤ) : ℚ)⁻¹ := by
      push_cast
      rw [← zpow_natCast, ← zpow_neg]
      congr 1
      omega
    rw [h2, div_eq_mul_inv]

theorem floatOfScaled_bridge (M K : Int) :
    ∃ A B : Int, floatOfScaled M K = floatDiv A B ∧ 0 < B ∧
      (A : ℚ) / B = (M : ℚ) * 2 ^ K ∧ (0 ≤ M → 0 ≤ A) ∧ (0 < M → 0 < A) := by
  unfold floatOfScaled
  by_cases hk : 0 ≤ K
  · refine ⟨M * 2 ^ K.toNat, 1, by rw [if_pos hk], one_pos, ?_, ?_, ?_⟩
    · push_cast
      rw [div_one]
      congr 1
      rw [← zpow_natCast]
      congr 1
      omega
    · intro h
      positivity
    · intro h
      positivity
  · refine ⟨M, 2 ^ (-K).toNat, by rw [if_neg hk], by positivity, ?_,
      fun h => h, fun h => h⟩
    push_cast
    rw [div_eq_mul_inv]
    congr 1
    rw [← zpow_natCast, ← zpow_neg]
    congr 1
    omega

theorem floatOfScaled_mono (M1 K1 M2 K2 : Int) (h1 : 0 ≤ M1)
    (h : (M1 : ℚ) * 2 ^ K1 ≤ (M2 : ℚ) * 2 ^ K2) :
    fval (floatOfScaled M1 K1) ≤ fval (floatOfScaled M2 K2) := by
  obtain ⟨A1, B1, hE1, hB1, hR1, hN1, _⟩ := floatOfScaled_bridge M1 K1
  obtain ⟨A2, B2, hE2, hB2, hR2, _, _⟩ := floatOfScaled_bridge M2 K2
  rw [hE1, hE2]
  refine floatDiv_mono A1 B1 A2 B2 ?_ hB1 hB2 (by rw [hR1, hR2]; exact h)
  have := hN1 h1
  exact this

theorem floatOfScaled_val_spec (M K : Int) (hM : 0 < M) :
    |fval (floatOfScaled M K) - (M : ℚ) * 2 ^ K| ≤
      ((M : ℚ) * 2 ^ K) * ((2 : ℚ) ^ (53 : ℕ))⁻¹ := by
  obtain ⟨A, B, hE, hB, hR, _, hP⟩ := floatOfScaled_bridge M K
  rw [hE, ← hR]
  exact (floatDiv_val_spec A B (hP hM) hB).2.2

theorem floatOfScaled_val_nonneg (M K : Int) (hM : 0 ≤ M) :
    0 ≤ fval (floatOfScaled M K) := by
  obtain ⟨A, B, hE, hB, _, hN, _⟩ := floatOfScaled_bridge M K
  rw [hE]
  exact floatDiv_val_nonneg A B (hN hM) hB

theorem floatOfScaled_exact (M K : Int) (hM : 0 < M) (hM53 : M ≤ 2 ^ 53) :
    fval (floatOfScaled M K) = (M : ℚ) * 2 ^ K := by
  obtain ⟨A, B, hE, hB, hR, _, hP⟩ := floatOfScaled_bridge M K
  have hA : 0 < A := hP hM
  obtain ⟨hs1, hs2⟩ := ilog2_spec A B hA hB
  rw [hR] at hs1 hs2
  set e : ℤ := ilog2 A B with he
  have hMq : (1 : ℚ) ≤ (M : ℚ) := by exact_mod_cast hM
  have hM53q : (M : ℚ) ≤ 2 ^ (53 : ℤ) := by
    rw [show ((2 : ℚ) ^ (53 : ℤ)) = ((2 ^ 53 : ℤ) : ℚ) by push_cast; norm_num]
    exact_mod_cast hM53
  have hKpos : (0 : ℚ) < 2 ^ K := by positivity
  have htl : 0 ≤ e - K := by
    by_contra hc
    push_neg at hc
    have h1 : (2 : ℚ) ^ (e + 1) ≤ 2 ^ K := zpow_le_zpow_right₀ (by norm_num) (by omega)
    have h2 : (2 : ℚ) ^ K ≤ (M : ℚ) * 2 ^ K := le_mul_of_one_le_left hKpos.le hMq
    linarith
  have htu : e - K ≤ 53 := by
    by_contra hc
    push_neg at hc
    have h1 : (2 : ℚ) ^ (K + 54) ≤ 2 ^ e := zpow_le_zpow_right₀ (by norm_num) (by omega)
    have h2 : (M : ℚ) * 2 ^ K ≤ 2 ^ (53 : ℤ) * 2 ^ K :=
      mul_le_mul_of_nonneg_right hM53q hKpos.le
    have h3 : (2 : ℚ) ^ (53 : ℤ) * 2 ^ K = 2 ^ (K + 53) := by
      rw [← zpow_add₀ (by norm_num : (2 : ℚ) ≠ 0)]
      congr 1
      omega
    have h4 : (2 : ℚ) ^ (K + 53) < 2 ^ (K + 54) :=
      zpow_lt_zpow_right₀ (by norm_num) (by omega)
    linarith
  rcases lt_or_eq_of_le htu with ht52 | ht53
  · have hmQ : (A : ℚ) / B = ((M * 2 ^ (52 - (e - K)).toNat : ℤ) : ℚ) * 2 ^ (e - 52) := by
      rw [hR]
      push_cast
      rw [mul_assoc]
      congr 1
      rw [← zpow_natCast, ← zpow_add₀ (by norm_num : (2 : ℚ) ≠ 0)]
      congr 1
      omega
    rw [hE, floatDiv_exact A B _ hA hB hmQ, hR]
  · have hM2 : (M : ℚ) = 2 ^ (53 : ℤ) := by
      have h1 : (2 : ℚ) ^ (53 : ℤ) ≤ (M : ℚ) := by
        have : (2 : ℚ) ^ e ≤ (M : ℚ) * 2 ^ K := hs1
        have he53 : (2 : ℚ) ^ e = 2 ^ (53 : ℤ) * 2 ^ K := by
          rw [← zpow_add₀ (by norm_num : (2 : ℚ) ≠ 0)]
          congr 1
          omega
        rw [he53] at this
        exact le_of_mul_le_mul_right this hKpos
      linarith
    have hmQ : (A : ℚ) / B = ((2 ^ 52 : ℤ) : ℚ) * 2 ^ (e - 52) := by
      rw [hR, hM2]
      have hc : ((2 ^ 52 : ℤ) : ℚ) = (2 : ℚ) ^ (52 : ℤ) := by norm_num
      rw [hc, ← zpow_add₀ (by norm_num : (2 : ℚ) ≠ 0),
        ← zpow_add₀ (by norm_num : (2 : ℚ) ≠ 0)]
      congr 1
      omega
    rw [hE, floatDiv_exact A B _ hA hB hmQ, hR]

theorem fval_fst_nonneg (p : Int × Int) (h : 0 ≤ fval p) : 0 ≤ p.1 := by
  unfold fval at h
  by_contra hc
  push_neg at hc
  have h1 : ((p.1 : ℚ)) < 0 := by exact_mod_cast hc
  have h2 : (0 : ℚ) < 2 ^ p.2 := by positivity
  nlinarith

theorem floatDiv_fst_nonneg (a b : Int) (ha : 0 ≤ a) (hb : 0 < b) :
    0 ≤ (floatDiv a b).1 :=
  fval_fst_nonneg _ (floatDiv_val_nonneg a b ha hb)

theorem floatDiv_snd (a b : Int) (ha : 0 < a) :
    (floatDiv a b).2 = ilog2 a b - 52 := by
  rw [floatDiv_pos_eq a b ha]

theorem floatDiv_fst_le (a b : Int) (ha : 0 < a) (hb : 0 < b) :
    (floatDiv a b).1 ≤ 2 ^ 53 := by
  have h2 := (floatDiv_val_spec a b ha hb).2.1
  have hsnd := floatDiv_snd a b ha
  unfold fval at h2
  rw [hsnd] at h2
  have hpos : (0 : ℚ) < 2 ^ (ilog2 a b - 52 : ℤ) := by positivity
  have hsplit : (2 : ℚ) ^ (ilog2 a b + 1) = 2 ^ (53 : ℤ) * 2 ^ (ilog2 a b - 52) := by
    rw [← zpow_add₀ (by norm_num : (2 : ℚ) ≠ 0)]
    congr 1
    omega
  rw [hsplit] at h2
  have hq : ((floatDiv a b).1 : ℚ) ≤ 2 ^ (53 : ℤ) := le_of_mul_le_mul_right h2 hpos
  have hc : ((2 : ℚ) ^ (53 : ℤ)) = ((2 ^ 53 : ℤ) : ℚ) := by norm_num
  rw [hc] at hq
  exact_mod_cast hq

theorem floatDiv_one_exact (b : Int) (hb : 0 < b) (hb53 : b ≤ 2 ^ 53) :
    fval (floatDiv b 1) = (b : ℚ) := by
  have h0 : floatOfScaled b 0 = floatDiv b 1 := by
    unfold floatOfScaled
    norm_num
  have hx := floatOfScaled_exact b 0 hb hb53
  rw [h0] at hx
  rw [hx]
  norm_num

theorem fval_fst_pos (p : Int × Int) (h : 0 < fval p) : 0 < p.1 := by
  unfold fval at h
  by_contra hc
  push_neg at hc
  have h1 : ((p.1 : ℚ)) ≤ 0 := by exact_mod_cast hc
  have h2 : (0 : ℚ) < 2 ^ p.2 := by positivity
  nlinarith

theorem floatDiv_fst_pos (a b : Int) (ha : 0 < a) (hb : 0 < b) :
    0 < (floatDiv a b).1 :=
  fval_fst_pos _ (floatDiv_val_pos a b ha hb)

theorem fval_mul_int (p : Int × Int) (k : Int) :
    ((p.1 * k : ℤ) : ℚ) * 2 ^ p.2 = fval p * k := by
  unfold fval
  push_cast
  ring

theorem fval_shift2 (p : Int × Int) :
    ((p.1 : ℚ)) * 2 ^ (p.2 - 2 : ℤ) = fval p * 2 ^ (-2 : ℤ) := by
  unfold fval
  rw [mul_assoc, ← zpow_add₀ (by norm_num : (2 : ℚ) ≠ 0)]
  have h2 : p.2 + -2 = p.2 - 2 := by omega
  rw [h2]

theorem tier_mono (k m n : Int) (hk : 0 ≤ k) (hm : 0 ≤ m) (h : m ≤ n) :
    floatCeil (floatMulInt (floatDiv m 60) k) ≤
      floatCeil (floatMulInt (floatDiv n 60) k) := by
  rw [floatCeil_eq, floatCeil_eq]
  apply Int.ceil_le_ceil
  unfold floatMulInt
  apply floatOfScaled_mono
  · exact mul_nonneg (floatDiv_fst_nonneg m 60 hm (by norm_num)) hk
  · rw [fval_mul_int, fval_mul_int]
    have hkq : (0 : ℚ) ≤ (k : ℚ) := by exact_mod_cast hk
    refine mul_le_mul_of_nonneg_right ?_ hkq
    refine floatDiv_mono m 60 n 60 hm (by norm_num) (by norm_num) ?_
    have hq : (m : ℚ) ≤ (n : ℚ) := by exact_mod_cast h
    have h60 : ((60 : ℤ) : ℚ) = (60 : ℚ) := by norm_num
    rw [h60]
    exact (div_le_div_right (by norm_num)).mpr hq

theorem tier_le_tier (k l b : Int) (hb : 0 ≤ b) (hk : 0 ≤ k) (h : k ≤ l) :
    floatCeil (floatMulInt (floatDiv b 60) k) ≤
      floatCeil (floatMulInt (floatDiv b 60) l) := by
  rw [floatCeil_eq, floatCeil_eq]
  apply Int.ceil_le_ceil
  unfold floatMulInt
  apply floatOfScaled_mono
  · exact mul_nonneg (floatDiv_fst_nonneg b 60 hb (by norm_num)) hk
  · rw [fval_mul_int, fval_mul_int]
    refine mul_le_mul_of_nonneg_left ?_ (floatDiv_val_nonneg b 60 hb (by norm_num))
    exact_mod_cast h

theorem gen_mono (m n : Int) (hm : 0 ≤ m) (h : m ≤ n) :
    floatCeil (floatOfScaled (floatDiv m 1).1 ((floatDiv m 1).2 - 2)) ≤
      floatCeil (floatOfScaled (floatDiv n 1).1 ((floatDiv n 1).2 - 2)) := by
  rw [floatCeil_eq, floatCeil_eq]
  apply Int.ceil_le_ceil
  apply floatOfScaled_mono
  · exact floatDiv_fst_nonneg m 1 hm one_pos
  · rw [fval_shift2, fval_shift2]
    refine mul_le_mul_of_nonneg_right ?_ (by positivity)
    refine floatDiv_mono m 1 n 1 hm one_pos one_pos ?_
    have hq : (m : ℚ) ≤ (n : ℚ) := by exact_mod_cast h
    have h1 : ((1 : ℤ) : ℚ) = (1 : ℚ) := by norm_num
    rw [h1, div_one, div_one]
    exact hq

theorem gen_eq_ceil_quarter (b : Int) (hb : 0 < b) (hb52 : b ≤ 2 ^ 52) :
    floatCeil (floatOfScaled (floatDiv b 1).1 ((floatDiv b 1).2 - 2)) =
      ⌈(b : ℚ) / 4⌉ := by
  rw [floatCeil_eq]
  congr 1
  have hb53 : b ≤ 2 ^ 53 := by omega
  have hx := floatDiv_one_exact b hb hb53
  have hm1 : 0 < (floatDiv b 1).1 := floatDiv_fst_pos b 1 hb one_pos
  have hm2 : (floatDiv b 1).1 ≤ 2 ^ 53 := floatDiv_fst_le b 1 hb one_pos
  rw [floatOfScaled_exact _ _ hm1 hm2, fval_shift2, hx]
  rw [show ((2 : ℚ) ^ (-2 : ℤ)) = 1 / 4 by norm_num]
  ring

theorem tier_bounds (k b : Int) (hk : 0 < k) (hb : 0 < b) :
    (1 - ((2 : ℚ) ^ (53 : ℕ))⁻¹) ^ 2 * ((b : ℚ) * k / 60) ≤
        fval (floatMulInt (floatDiv b 60) k) ∧
      fval (floatMulInt (floatDiv b 60) k) ≤
        (1 + ((2 : ℚ) ^ (53 : ℕ))⁻¹) ^ 2 * ((b : ℚ) * k / 60) := by
  have hU : ((2 : ℚ) ^ (53 : ℕ))⁻¹ = 1 / 9007199254740992 := by norm_num
  have hbq : (0 : ℚ) < (b : ℚ) := by exact_mod_cast hb
  have hkq : (0 : ℚ) < (k : ℚ) := by exact_mod_cast hk
  have hx := (floatDiv_val_spec b 60 hb (by norm_num)).2.2
  have hxpos := floatDiv_val_pos b 60 hb (by norm_num)
  set x : ℚ := fval (floatDiv b 60) with hxdef
  have hmp : 0 < (floatDiv b 60).1 := floatDiv_fst_pos b 60 hb (by norm_num)
  have hMp : 0 < (floatDiv b 60).1 * k := mul_pos hmp hk
  have hv := floatOfScaled_val_spec ((floatDiv b 60).1 * k) (floatDiv b 60).2 hMp
  rw [fval_mul_int] at hv
  have hveq : fval (floatMulInt (floatDiv b 60) k) =
      fval (floatOfScaled ((floatDiv b 60).1 * k) (floatDiv b 60).2) := rfl
  rw [hveq]
  set v : ℚ := fval (floatOfScaled ((floatDiv b 60).1 * k) (floatDiv b 60).2) with hvdef
  rw [abs_le] at hx hv
  obtain ⟨hx1, hx2⟩ := hx
  obtain ⟨hv1, hv2⟩ := hv
  have h60 : ((60 : ℤ) : ℚ) = (60 : ℚ) := by norm_num
  rw [h60] at hx1 hx2
  rw [hU] at hx1 hx2 hv1 hv2 ⊢
  constructor
  · nlinarith [mul_pos hbq hkq, mul_pos hxpos hkq]
  · nlinarith [mul_pos hbq hkq, mul_pos hxpos hkq]

theorem tier30_le_base (b : Int) (hb : 0 < b) :
    floatCeil (floatMulInt (floatDiv b 60) 30) ≤ b := by
  rw [floatCeil_eq, Int.ceil_le]
  have hub := (tier_bounds 30 b (by norm_num) hb).2
  have hU : ((2 : ℚ) ^ (53 : ℕ))⁻¹ = 1 / 9007199254740992 := by norm_num
  rw [hU] at hub
  have hbq : (0 : ℚ) < (b : ℚ) := by exact_mod_cast hb
  have h30 : ((30 : ℤ) : ℚ) = (30 : ℚ) := by norm_num
  rw [h30] at hub
  nlinarith

theorem gen_le_tier15 (b : Int) (hb : 0 < b) (hb52 : b ≤ 2 ^ 52) :
    floatCeil (floatOfScaled (floatDiv b 1).1 ((floatDiv b 1).2 - 2)) ≤
      floatCeil (floatMulInt (floatDiv b 60) 15) := by
  rw [gen_eq_ceil_quarter b hb hb52, floatCeil_eq]
  have hlb := (tier_bounds 15 b (by norm_num) hb).1
  have hU : ((2 : ℚ) ^ (53 : ℕ))⁻¹ = 1 / 9007199254740992 := by norm_num
  rw [hU] at hlb
  have hbq : (0 : ℚ) < (b : ℚ) := by exact_mod_cast hb
  have hb52q : (b : ℚ) ≤ 4503599627370496 := by
    have : ((2 : ℤ) ^ 52 : ℤ) = 4503599627370496 := by norm_num
    rw [this] at hb52
    exact_mod_cast hb52
  have h15 : ((15 : ℤ) : ℚ) = (15 : ℚ) := by norm_num
  rw [h15] at hlb
  have hstep : (b : ℚ) / 4 - 1 / 4 < fval (floatMulInt (floatDiv b 60) 15) := by
    nlinarith
  have h1 : (b : ℚ) / 4 ≤ (⌈(b : ℚ) / 4⌉ : ℚ) := Int.le_ceil _
  have h2 : ((⌈(b : ℚ) / 4⌉ : ℤ) : ℚ) < (b : ℚ) / 4 + 1 := Int.ceil_lt_add_one _
  have h3 : 4 * ⌈(b : ℚ) / 4⌉ - 3 ≤ b := by
    have hq : ((4 * ⌈(b : ℚ) / 4⌉ - 4 : ℤ) : ℚ) < (b : ℚ) := by
      push_cast
      linarith
    have : (4 * ⌈(b : ℚ) / 4⌉ - 4 : ℤ) < b := by exact_mod_cast hq
    omega
  have h4 : ((⌈(b : ℚ) / 4⌉ - 1 : ℤ) : ℚ) < fval (floatMulInt (floatDiv b 60) 15) := by
    have hq : ((4 * ⌈(b : ℚ) / 4⌉ - 3 : ℤ) : ℚ) ≤ (b : ℚ) := by exact_mod_cast h3
    push_cast at hq
    push_cast
    linarith
  have h5 := Int.lt_ceil.mpr h4
  omega

theorem tier15_le_gen_add_one (b : Int) (hb : 0 < b) (hb52 : b ≤ 2 ^ 52) :
    floatCeil (floatMulInt (floatDiv b 60) 15) ≤
      floatCeil (floatOfScaled (floatDiv b 1).1 ((floatDiv b 1).2 - 2)) + 1 := by
  rw [gen_eq_ceil_quarter b hb hb52, floatCeil_eq]
  have hub := (tier_bounds 15 b (by norm_num) hb).2
  have hU : ((2 : ℚ) ^ (53 : ℕ))⁻¹ = 1 / 9007199254740992 := by norm_num
  rw [hU] at hub
  have hbq : (0 : ℚ) < (b : ℚ) := by exact_mod_cast hb
  have hb52q : (b : ℚ) ≤ 4503599627370496 := by
    have : ((2 : ℤ) ^ 52 : ℤ) = 4503599627370496 := by norm_num
    rw [this] at hb52
    exact_mod_cast hb52
  have h15 : ((15 : ℤ) : ℚ) = (15 : ℚ) := by norm_num
  rw [h15] at hub
  have h1 : (b : ℚ) / 4 ≤ (⌈(b : ℚ) / 4⌉ : ℚ) := Int.le_ceil _
  rw [Int.ceil_le]
  push_cast
  nlinarith

theorem extraTimeRule_100 (b : Int) : extraTimeRule b pExtraTime100 = some b := rfl

theorem extraTimeRule_30 (b : Int) :
    extraTimeRule b pExtraTime30 =
      some (floatCeil (floatMulInt (floatDiv b 60) 30)) := rfl

theorem extraTimeRule_20 (b : Int) :
    extraTimeRule b pExtraTime20 =
      some (floatCeil (floatMulInt (floatDiv b 60) 20)) := rfl

theorem extraTimeRule_15 (b : Int) :
    extraTimeRule b pExtraTime15 =
      some (floatCeil (floatMulInt (floatDiv b 60) 15)) := rfl

theorem extraTimeRule_generic (b : Int) :
    extraTimeRule b pExtraTime =
      some (floatCeil (floatOfScaled (floatDiv b 1).1 ((floatDiv b 1).2 - 2))) := rfl

theorem foldl_max_mono {l1 l2 : List Int} (h : List.Forall₂ (· ≤ ·) l1 l2) :
    ∀ {a b : Int}, a ≤ b → l1.foldl max a ≤ l2.foldl max b := by
  induction h with
  | nil => intro a b hab; simpa using hab
  | cons hx _ ih =>
    intro a b hab
    exact ih (max_le_max hab hx)

theorem maxOrZero_mono {l1 l2 : List Int} (h : List.Forall₂ (· ≤ ·) l1 l2) :
    maxOrZero l1 ≤ maxOrZero l2 := by
  cases h with
  | nil => exact le_refl 0
  | cons hx ht => exact foldl_max_mono ht hx

theorem extraTimeRule_le {m n : Int} (hm : 0 ≤ m) (hmn : m ≤ n) (p : String) :
    (extraTimeRule m p = none ∧ extraTimeRule n p = none) ∨
      ∃ x y, extraTimeRule m p = some x ∧ extraTimeRule n p = some y ∧ x ≤ y := by
  by_cases h1 : p = pExtraTime100
  · exact Or.inr ⟨m, n, by rw [h1]; rfl, by rw [h1]; rfl, hmn⟩
  by_cases h2 : p = pExtraTime30
  · exact Or.inr ⟨_, _, by rw [h2]; exact extraTimeRule_30 m,
      by rw [h2]; exact extraTimeRule_30 n,
      tier_mono 30 m n (by norm_num) hm hmn⟩
  by_cases h3 : p = pExtraTime20
  · exact Or.inr ⟨_, _, by rw [h3]; exact extraTimeRule_20 m,
      by rw [h3]; exact extraTimeRule_20 n,
      tier_mono 20 m n (by norm_num) hm hmn⟩
  by_cases h4 : p = pExtraTime15
  · exact Or.inr ⟨_, _, by rw [h4]; exact extraTimeRule_15 m,
      by rw [h4]; exact extraTimeRule_15 n,
      tier_mono 15 m n (by norm_num) hm hmn⟩
  by_cases h5 : p = pExtraTime
  · exact Or.inr ⟨_, _, by rw [h5]; exact extraTimeRule_generic m,
      by rw [h5]; exact extraTimeRule_generic n,
      gen_mono m n hm hmn⟩
  · exact Or.inl ⟨by simp [extraTimeRule, h1, h2, h3, h4, h5],
      by simp [extraTimeRule, h1, h2, h3, h4, h5]⟩

theorem extraTimeRule_forall2 {m n : Int} (hm : 0 ≤ m) (hmn : m ≤ n) :
    ∀ ps : List String,
      List.Forall₂ (· ≤ ·) (ps.filterMap (extraTimeRule m))
        (ps.filterMap (extraTimeRule n)) := by
  intro ps
  induction ps with
  | nil => simp
  | cons p ps ih =>
    rcases extraTimeRule_le hm hmn p with ⟨hn1, hn2⟩ | ⟨x, y, hx, hy, hxy⟩
    · simpa [List.filterMap_cons, hn1, hn2] using ih
    · simpa [List.filterMap_cons, hx, hy] using List.Forall₂.cons hxy ih

/-- Claim C5: with the float arithmetic of `_extra_time_minutes` modelled
bit-exactly (binary64, round half to even), the result is non-decreasing in
`base_length` over `0 ≤ base_length ≤ 2 ^ 52` for any fixed provision list,
and for a fixed `base_length` in that range the single-tier results are
ordered 100% ≥ 30/hr ≥ 20/hr ≥ 15/hr ≥ generic extra time. The bound `2 ^ 52`
covers every value the `IntegerField` length columns can store
(`|base_length| < 2 ^ 31`). -/
theorem extra_time_monotone_and_tiered :
    (∀ (ps : List String) (m n : Int), 0 ≤ m → m ≤ n → n ≤ 2 ^ 52 →
      extraTimeMinutes ps (some m) ≤ extraTimeMinutes ps (some n)) ∧
    (∀ b : Int, 0 ≤ b → b ≤ 2 ^ 52 →
      extraTimeMinutes [pExtraTime] (some b) ≤
          extraTimeMinutes [pExtraTime15] (some b) ∧
        extraTimeMinutes [pExtraTime15] (some b) ≤
          extraTimeMinutes [pExtraTime20] (some b) ∧
        extraTimeMinutes [pExtraTime20] (some b) ≤
          extraTimeMinutes [pExtraTime30] (some b) ∧
        extraTimeMinutes [pExtraTime30] (some b) ≤
          extraTimeMinutes [pExtraTime100] (some b)) := by
  constructor
  · intro ps m n hm hmn _
    unfold extraTimeMinutes
    exact maxOrZero_mono (extraTimeRule_forall2 hm hmn ps)
  · intro b hb hb52
    rcases lt_or_eq_of_le hb with hpos | h0
    · have e1 : extraTimeMinutes [pExtraTime] (some b) =
          floatCeil (floatOfScaled (floatDiv b 1).1 ((floatDiv b 1).2 - 2)) := rfl
      have e15 : extraTimeMinutes [pExtraTime15] (some b) =
          floatCeil (floatMulInt (floatDiv b 60) 15) := rfl
      have e20 : extraTimeMinutes [pExtraTime20] (some b) =
          floatCeil (floatMulInt (floatDiv b 60) 20) := rfl
      have e30 : extraTimeMinutes [pExtraTime30] (some b) =
          floatCeil (floatMulInt (floatDiv b 60) 30) := rfl
      have e100 : extraTimeMinutes [pExtraTime100] (some b) = b := rfl
      rw [e1, e15, e20, e30, e100]
      exact ⟨gen_le_tier15 b hpos hb52,
        tier_le_tier 15 20 b hb (by norm_num) (by norm_num),
        tier_le_tier 20 30 b hb (by norm_num) (by norm_num),
        tier30_le_base b hpos⟩
    · rw [← h0]
      decide

/-- Claim C5, witnessed: monotonicity of the 30/hr tier from a 62- to a
63-minute exam, and the generic ≤ 15/hr ordering at a 124-minute exam. -/
theorem extra_time_monotone_and_tiered_witness :
    extraTimeMinutes [pExtraTime30] (some 62) ≤
        extraTimeMinutes [pExtraTime30] (some 63) ∧
      extraTimeMinutes [pExtraTime] (some 124) ≤
        extraTimeMinutes [pExtraTime15] (some 124) :=
  ⟨extra_time_monotone_and_tiered.1 [pExtraTime30] 62 63 (by decide) (by decide)
      (by decide),
   (extra_time_monotone_and_tiered.2 124 (by decide) (by decide)).1⟩

/-- Claim C10, refuted: at `base_length = 124` the 15-minutes-per-hour rule
computes `math.ceil(124 / 60 * 15) = math.ceil(31.000000000000004) = 32`,
while the generic rule computes `math.ceil(124 * 0.25) = 31`; the two codes do
not produce the same result for every base length. -/
theorem extra_time_generic_eq_15_per_hour_counterexample :
    extraTimeMinutes [pExtraTime15] (some 124) = 32 ∧
      extraTimeMinutes [pExtraTime] (some 124) = 31 := by
  decide

/-- Claim C10, amended: for `0 ≤ base_length ≤ 2 ^ 52` the generic rule and
the 15/hr rule agree to within one minute — generic ≤ 15/hr ≤ generic + 1.
The claimed exact equality only holds of exact rational arithmetic; the
binary64 rounding of `base / 60 * 15` breaks it (first at
`base_length = 124`). -/
theorem extra_time_generic_vs_15_per_hour (b : Int) (hb : 0 ≤ b)
    (hb52 : b ≤ 2 ^ 52) :
    extraTimeMinutes [pExtraTime] (some b) ≤
        extraTimeMinutes [pExtraTime15] (some b) ∧
      extraTimeMinutes [pExtraTime15] (some b) ≤
        extraTimeMinutes [pExtraTime] (some b) + 1 := by
  rcases lt_or_eq_of_le hb with hpos | h0
  · have e1 : extraTimeMinutes [pExtraTime] (some b) =
        floatCeil (floatOfScaled (floatDiv b 1).1 ((floatDiv b 1).2 - 2)) := rfl
    have e15 : extraTimeMinutes [pExtraTime15] (some b) =
        floatCeil (floatMulInt (floatDiv b 60) 15) := rfl
    rw [e1, e15]
    exact ⟨gen_le_tier15 b hpos hb52, tier15_le_gen_add_one b hpos hb52⟩
  · rw [← h0]
    decide

/-- Claim C10, amended bound witnessed at a 124-minute exam: 31 ≤ 32 ≤ 32. -/
theorem extra_time_generic_vs_15_per_hour_witness :
    extraTimeMinutes [pExtraTime] (some 124) ≤
        extraTimeMinutes [pExtraTime15] (some 124) ∧
      extraTimeMinutes [pExtraTime15] (some 124) ≤
        extraTimeMinutes [pExtraTime] (some 124) + 1 :=
  extra_time_generic_vs_15_per_hour 124 (by decide) (by decide)
end Timetabling

namespace Timetabling

/-! ### Claim C6 — timing-conflict predicate against its specification -/

/-- Specification-side restatement of the conflict predicate, written from the
spec sentence: some row with known start and length overlaps half-openly,
after skipping exact-same-slot rows of the ignored exam, and all rows of the
ignored exam when `allow_same_exam_overlap` is set. -/
def specTimingConflict (rows : List ExamVenue) (start len : Int)
    (ignoreExamId : Option Nat) (allowSameExamOverlap : Bool) : Bool :=
  rows.any fun ev =>
    match ev.start_time, ev.exam_length with
    | some es, some el =>
      let skipped := (ignoreExamId == some ev.exam_id) &&
        (allowSameExamOverlap || (es == start && el == len))
      !skipped && decide (start < es + el * 60 ∧ es < start + len * 60)
    | _, _ => false

theorem any_congr {α : Type} (f g : α → Bool) (l : List α)
    (h : ∀ x, f x = g x) : l.any f = l.any g := by
  induction l with
  | nil => rfl
  | cons a l ih => simp [List.any_cons, h a, ih]

theorem evConflicts_spec (ev : ExamVenue) (s L : Int) (ig : Option Nat)
    (al : Bool) (hig : ig ≠ some 0) :
    evConflicts ev s L (s + L * 60) ig al =
      (match ev.start_time, ev.exam_length with
        | some es, some el =>
          let skipped := (ig == some ev.exam_id) &&
            (al || (es == s && el == L))
          !skipped && decide (s < es + el * 60 ∧ es < s + L * 60)
        | _, _ => false) := by
  unfold evConflicts
  have htruthy : ∀ k : Nat, (optIdTruthy ig && (some k == ig)) = (ig == some k) := by
    intro k
    cases ig with
    | none => simp [optIdTruthy]
    | some n =>
      have hn : n ≠ 0 := fun h => hig (by rw [h])
      simp only [optIdTruthy, Option.some.injEq, beq_iff_eq]
      by_cases hk : k = n
      · simp [hk, hn]
      · have h1 : (k == n) = false := beq_eq_false_iff_ne.mpr hk
        have h2 : (n == k) = false := beq_eq_false_iff_ne.mpr (fun h => hk h.symm)
        simp [h1, h2]
  rw [htruthy ev.exam_id]
  cases hst : ev.start_time with
  | none =>
    cases hbeq : (ig == some ev.exam_id) with
    | false => simp [hst]
    | true =>
      cases al with
      | true => simp [hst]
      | false => simp [hst]
  | some es =>
    cases hlen : ev.exam_length with
    | none =>
      cases hbeq : (ig == some ev.exam_id) with
      | false => simp [hst, hlen]
      | true =>
        cases al with
        | true => simp [hst, hlen]
        | false => simp [hst, hlen]
    | some el =>
      cases hbeq : (ig == some ev.exam_id) with
      | false => simp [hst, hlen]
      | true =>
        cases al with
        | true => simp [hst, hlen]
        | false =>
          simp only [hst, hlen, Bool.true_and, Bool.false_or,
            Option.some.injEq]
          by_cases hsame : es = s ∧ el = L
          · simp [hsame.1, hsame.2]
          · rcases not_and_or.mp hsame with h | h <;>
              simp [beq_iff_eq, h, and_comm]
  

/-- Claim C6: `venue_has_timing_conflict` returns False whenever the venue,
start, or length is missing, and otherwise agrees exactly with the
specification predicate (half-open overlap after same-exam skipping), for any
non-zero ignored exam id. -/
theorem venue_timing_conflict_spec :
    (∀ start len ig al,
      venueHasTimingConflict none start len ig al = false) ∧
    (∀ rows len ig al,
      venueHasTimingConflict (some rows) none len ig al = false) ∧
    (∀ rows start ig al,
      venueHasTimingConflict (some rows) start none ig al = false) ∧
    (∀ rows s L ig al, ig ≠ some 0 →
      venueHasTimingConflict (some rows) (some s) (some L) ig al =
        specTimingConflict rows s L ig al) := by
  refine ⟨fun start len ig al => ?_, fun rows len ig al => ?_,
    fun rows start ig al => ?_, fun rows s L ig al hig => ?_⟩
  · rfl
  · rfl
  · cases start <;> rfl
  · unfold venueHasTimingConflict specTimingConflict
    exact any_congr _ _ rows (fun ev => evConflicts_spec ev s L ig al hig)

/-- Claim C6, witnessed: a booked 13:00–15:00 slot conflicts with a requested
13:30–14:30 slot for another exam (spec scenario 3), and the code and spec
predicates agree on it. -/
theorem venue_timing_conflict_spec_witness :
    (some 2 : Option Nat) ≠ some 0 ∧
      venueHasTimingConflict
          (some [{ examvenue_id := 1, exam_id := 1, venue_name := some "R"
                   start_time := some 46800, exam_length := some 120
                   core := false, provision_capabilities := [] }])
          (some 48600) (some 60) (some 2) false =
        specTimingConflict
          [{ examvenue_id := 1, exam_id := 1, venue_name := some "R"
             start_time := some 46800, exam_length := some 120
             core := false, provision_capabilities := [] }]
          48600 60 (some 2) false :=
  ⟨by decide,
   venue_timing_conflict_spec.2.2.2 _ 48600 60 (some 2) false (by decide)⟩

end Timetabling

namespace Timetabling

/-! ### State-level helpers (Django ORM operations on the relational state) -/

def lookupVenue (s : DB) (name : String) : Option Venue :=
  s.venues.find? (fun v => v.venue_name = name)

def lookupEV (s : DB) (id : Nat) : Option ExamVenue :=
  s.examVenues.find? (fun ev => ev.examvenue_id = id)

/-- The venue's `examvenue_set`. -/
def venueRows (s : DB) (name : String) : List ExamVenue :=
  s.examVenues.filter (fun ev => ev.venue_name = some name)

/-- ExamVenue.save: replace the row with the given primary key. -/
def saveEV (s : DB) (ev : ExamVenue) : DB :=
  let evs := s.examVenues.map (fun e => if e.examvenue_id = ev.examvenue_id then ev else e)
  { s with examVenues := evs }

/-- ExamVenue.objects.create, assigning the next AutoField id. -/
def createEV (s : DB) (examId : Nat) (venue : Option String)
    (start len : Option Int) (core : Bool) (caps : List String) :
    ExamVenue × DB :=
  let ev : ExamVenue :=
    { examvenue_id := s.next_ev_id, exam_id := examId, venue_name := venue
      start_time := start, exam_length := len, core := core
      provision_capabilities := caps }
  (ev, { s with examVenues := s.examVenues ++ [ev], next_ev_id := s.next_ev_id + 1 })

/-- ExamVenue.delete, with the `on_delete=SET_NULL` behaviour of the
StudentExam foreign key. -/
def deleteEV (s : DB) (id : Nat) : DB :=
  let evs := s.examVenues.filter (fun e => e.examvenue_id ≠ id)
  let ses := s.studentExams.map (fun se =>
    if se.exam_venue_id = some id then { se with exam_venue_id := none } else se)
  { s with examVenues := evs, studentExams := ses }

/-- Keep the first occurrence of each element (the `seen` sets used by
the import loops and by `_normalize_provisions`). -/
def dedupFirst (seen : List String) : List String → List String
  | [] => []
  | x :: xs =>
    if x ∈ seen then dedupFirst seen xs else x :: dedupFirst (x :: seen) xs

def insSorted (x : String) : List String → List String
  | [] => [x]
  | y :: ys => if decide (x ≤ y) then x :: y :: ys else y :: insSorted x ys

/-- Python `sorted(set(l))` on capability tag lists. -/
def sortedSet (l : List String) : List String :=
  (dedupFirst [] l).foldr insSorted []

/-- `sorted(set(existing + required))`, the capability merge used throughout
the allocator. -/
def mergeCaps (existing required : List String) : List String :=
  sortedSet (existing ++ required)

/-! ### attach_placeholders_to_venue (venue_matching.py) and venue signals -/

/-- Loop body of `attach_placeholders_to_venue` for one snapshot placeholder
row: skip ineligible placeholders, otherwise merge onto an existing
exam+venue row (re-pointing its students and deleting the placeholder) or
bind the placeholder's venue. -/
def attachStep (venue : Venue) (st : DB) (ev : ExamVenue) : DB :=
  let required_caps := ev.provision_capabilities
  if required_caps.isEmpty then st
  else if ¬ venueSupportsCaps venue required_caps then st
  else if pAccessibleHall ∈ required_caps ∧ ¬ venue.is_accessible then st
  else if ¬ venueIsAvailable venue ev.start_time then st
  else if venueHasTimingConflict (some (venueRows st venue.venue_name))
      ev.start_time ev.exam_length (some ev.exam_id) false then st
  else
    match (st.examVenues.filter (fun e => e.exam_id = ev.exam_id ∧
        e.venue_name = some venue.venue_name ∧
        e.examvenue_id ≠ ev.examvenue_id)).head? with
    | some existing =>
      let ses := st.studentExams.map (fun se =>
        if se.exam_venue_id = some ev.examvenue_id then
          { se with exam_venue_id := some existing.examvenue_id } else se)
      deleteEV { st with studentExams := ses } ev.examvenue_id
    | none => saveEV st { ev with venue_name := some venue.venue_name }

/-- When a Venue gains provision capabilities, upgrade any placeholder
ExamVenue records the room can now satisfy
(`attach_placeholders_to_venue`; the `if not venue` guard is unreachable
here because a venue record is always supplied). -/
def attachPlaceholdersToVenue (venue : Venue) (s : DB) : DB :=
  (s.examVenues.filter (fun ev => ev.venue_name = none)).foldl
    (attachStep venue) s

/-- pre_save signal `ensure_computer_cluster_for_use_computer`
(signals.py). -/
def normalizeVenueForSave (v : Venue) : Venue :=
  if pUseComputer ∈ v.provision_capabilities ∧
      v.venuetype ≠ vtComputerCluster ∧ v.venuetype ≠ vtPurpleCluster then
    { v with venuetype := vtComputerCluster }
  else v

/-- Venue.objects.get_or_create; a newly created venue is saved, firing the
pre_save normalization and the post_save placeholder attachment
(signals.py). -/
def getOrCreateVenue (s : DB) (name : String) (defaults : Venue) :
    Venue × DB :=
  match lookupVenue s name with
  | some v => (v, s)
  | none =>
    let v := normalizeVenueForSave { defaults with venue_name := name }
    let s1 := { s with venues := s.venues ++ [v] }
    (v, attachPlaceholdersToVenue v s1)

/-! ### Ingestion summaries and rows -/

structure Summary where
  created : Nat
  updated : Nat
  unchanged : Nat
  skipped : Nat
  total_rows : Nat
  errors : List String
  deriving Repr, DecidableEq

def baseSummary (n : Nat) : Summary :=
  { created := 0, updated := 0, unchanged := 0, skipped := 0
    total_rows := n, errors := [] }

/-- A normalized exam upload row, as produced by the out-of-scope
spreadsheet-parsing layer: `start_time` is the combined exam date+start,
`exam_length` the coerced duration in minutes, `venue_names` the output of
`_extract_venue_names`. -/
structure ExamRow where
  course_code : String
  exam_name : String
  exam_type : String
  no_students : Option Int
  school : String
  school_contact : String
  start_time : Option Int
  exam_length : Option Int
  venue_names : List String
  deriving Repr, DecidableEq

structure ExamPayload where
  course_code : String
  exam_name : String
  exam_type : String
  no_students : Int
  exam_school : String
  school_contact : String
  start_time : Option Int
  exam_length : Option Int
  deriving Repr, DecidableEq

/-- `_build_exam_payload` on a typed row: a blank course code raises
ValueError (modelled as `none`), non-positive durations become `None`, blank
fields get the documented defaults. -/
def buildExamPayload (row : ExamRow) : Option ExamPayload :=
  if row.course_code = "" then none
  else some
    { course_code := row.course_code
      exam_name := if row.exam_name = "" then row.course_code else row.exam_name
      exam_type := if row.exam_type = "" then "Exam" else row.exam_type
      no_students := row.no_students.getD 0
      exam_school := if row.school = "" then "Unassigned" else row.school
      school_contact := row.school_contact
      start_time := row.start_time
      exam_length := row.exam_length.bind
        (fun d => if 0 < d then some d else none) }

/-- One name of the `_create_exam_venue_links` loop: upsert the Venue (with
core-exam defaults) and create or refresh the `core=True` ExamVenue link. -/
def examVenueLinkCore (examId : Nat) (start len : Option Int) (st1 : DB)
    (vname : String) : DB :=
  match (st1.examVenues.filter (fun e => e.exam_id = examId ∧
      e.venue_name = some vname)).head? with
  | none => (createEV st1 examId (some vname) start len true []).2
  | some ev =>
    let u1 := start.isSome ∧ ev.start_time ≠ start
    let u2 := len.isSome ∧ ev.exam_length ≠ len
    if u1 ∨ u2 then
      saveEV st1 { ev with
        start_time := if u1 then start else ev.start_time
        exam_length := if u2 then len else ev.exam_length }
    else st1

def examVenueLinkStep (examId : Nat) (start len : Option Int) (st : DB)
    (name : String) : DB :=
  let defaults : Venue :=
    { venue_name := name, capacity := 0, venuetype := vtCoreExamVenue
      is_accessible := true, availability := [], provision_capabilities := [] }
  let vst := getOrCreateVenue st name defaults
  examVenueLinkCore examId start len vst.2 vst.1.venue_name

/-- `_create_exam_venue_links`: venue names are deduplicated by the `seen`
set; the `if not exam` guard is unreachable here. -/
def createExamVenueLinks (examId : Nat) (venueNames : List String)
    (start len : Option Int) (st : DB) : DB :=
  (dedupFirst [] venueNames).foldl (examVenueLinkStep examId start len) st

/-- One row of `_import_exam_rows`: upsert the Exam by course code (first
match in primary-key order wins; duplicates are reported), then refresh the
core venue links. -/
def importExamRowStep (st : DB) (summary : Summary) (idx : Nat)
    (row : ExamRow) : DB × Summary :=
  match buildExamPayload row with
  | none =>
    let errs := summary.errors ++
      ["Row " ++ toString idx ++ ": Missing exam_code / course_code."]
    (st, { summary with skipped := summary.skipped + 1, errors := errs })
  | some payload =>
    match st.exams.filter (fun e => e.course_code = payload.course_code) with
    | [] =>
      let exam : Exam :=
        { exam_id := st.next_exam_id, course_code := payload.course_code
          exam_name := payload.exam_name, exam_type := payload.exam_type
          no_students := payload.no_students, exam_school := payload.exam_school
          school_contact := payload.school_contact }
      let st1 := { st with exams := st.exams ++ [exam]
                           next_exam_id := st.next_exam_id + 1 }
      let st2 := createExamVenueLinks exam.exam_id row.venue_names
        payload.start_time payload.exam_length st1
      (st2, { summary with created := summary.created + 1 })
    | exam0 :: rest =>
      let dupErrs := summary.errors ++
        ["Row " ++ toString idx ++ ": Multiple exams found for course_code "
          ++ payload.course_code ++ "."]
      let summary1 :=
        if rest.isEmpty then summary else { summary with errors := dupErrs }
      let exam1 : Exam :=
        { exam0 with
          exam_name := payload.exam_name
          exam_type := payload.exam_type, no_students := payload.no_students
          exam_school := payload.exam_school
          school_contact := payload.school_contact }
      let exs := st.exams.map (fun e => if e.exam_id = exam0.exam_id then exam1 else e)
      let st1 := { st with exams := exs }
      let st2 := createExamVenueLinks exam1.exam_id row.venue_names
        payload.start_time payload.exam_length st1
      (st2, { summary1 with updated := summary1.updated + 1 })

def examRowsFold : Nat → DB → Summary → List ExamRow → DB × Summary
  | _, s, sum, [] => (s, sum)
  | idx, s, sum, r :: rest =>
    let step := importExamRowStep s sum idx r
    examRowsFold (idx + 1) step.1 step.2 rest

/-- `_import_exam_rows` (a whole-batch atomic transaction; the function body
raises no exceptions). -/
def importExamRows (rows : List ExamRow) (s : DB) : DB × Summary :=
  examRowsFold 1 s (baseSummary rows.length) rows

end Timetabling

namespace Timetabling

/-! ### Provision-row derivations (upload_processor.py helpers) -/

/-- `_required_capabilities`: map provision codes to venue capability tags,
keeping first-seen order without duplicates. -/
def requiredCapabilities (provisions : List String) : List String :=
  provisions.foldl (fun caps prov =>
    let cap :=
      if prov = pSepRoomOwn then some pSepRoomOwn
      else if prov = pSepRoomNotOwn then some pSepRoomNotOwn
      else if prov = pUseComputer then some pUseComputer
      else if prov = pAccessibleHall then some pAccessibleHall
      else if prov = pAssistedEvac then some pAccessibleHall
      else none
    match cap with
    | some c => if c ∈ caps then caps else caps ++ [c]
    | none => caps) []

def needsAccessibleVenue (provisions : List String) : Bool :=
  pAccessibleHall ∈ provisions ∨ pAssistedEvac ∈ provisions

def needsComputer (provisions : List String) : Bool :=
  pUseComputer ∈ provisions

/-- ASCII lower-casing of one character (the exam-type strings are ASCII). -/
def lowerChar (c : Char) : Char :=
  if 65 ≤ c.toNat ∧ c.toNat ≤ 90 then Char.ofNat (c.toNat + 32) else c

def isSpaceChar (c : Char) : Bool :=
  c = ' ' ∨ c = '\t' ∨ c = '\n' ∨ c = '\r'

/-- Python `str.strip` on a character list. -/
def trimChars (l : List Char) : List Char :=
  ((l.dropWhile isSpaceChar).reverse.dropWhile isSpaceChar).reverse

/-- `str(value).strip().lower()`. -/
def lowerTrim (s : String) : String :=
  String.mk (trimChars (s.data.map lowerChar))

def charsPrefix : List Char → List Char → Bool
  | [], _ => true
  | _ :: _, [] => false
  | a :: as, b :: bs => a = b ∧ charsPrefix as bs

def charsContains (hay needle : List Char) : Bool :=
  match hay with
  | [] => needle.isEmpty
  | _ :: t => if charsPrefix needle hay then true else charsContains t needle

/-- Python substring containment `needle in hay`. -/
def strContains (hay needle : String) : Bool :=
  charsContains hay.data needle.data

/-- `_exam_requires_computer` on the exam-type string (an empty string simply
matches none of the patterns, as in the source). -/
def examRequiresComputer (examType : String) : Bool :=
  let lowered := lowerTrim examType
  if lowered = "cmol" ∨ lowered = "on_campus_online" ∨
      lowered = "on campus online" ∨ lowered = "on campus online exam" then true
  else if strContains lowered "campus" ∧
      (strContains lowered "online" ∨ strContains lowered "digital") then true
  else if strContains lowered "digital on campus" ∨
      strContains lowered "online on campus" then true
  else false

/-- `_allowed_venue_types`: computer work restricts to the cluster types. -/
def allowedVenueTypes (needs_computer : Bool) : Option (List String) :=
  if needs_computer then some [vtComputerCluster, vtPurpleCluster] else none

/-- `_core_exam_timing`: start/length of the first core row, else of the
first row of any kind. -/
def coreExamTiming (s : DB) (examId : Nat) : Option Int × Option Int :=
  match (s.examVenues.filter (fun ev => ev.exam_id = examId ∧ ev.core)).head? with
  | some ev => (ev.start_time, ev.exam_length)
  | none =>
    match (s.examVenues.filter (fun ev => ev.exam_id = examId)).head? with
    | some ev => (ev.start_time, ev.exam_length)
    | none => (none, none)

/-- `_exam_venue_is_reserved`: a separate-room-on-own row already claimed by
some other StudentExam. -/
def examVenueIsReserved (s : DB) (ev : ExamVenue)
    (studentExamId : Option Nat) : Bool :=
  if pSepRoomOwn ∈ ev.provision_capabilities then
    s.studentExams.any (fun se => se.exam_venue_id = some ev.examvenue_id ∧
      (optIdTruthy studentExamId = false ∨ some se.se_id ≠ studentExamId))
  else false

/-- Other StudentExam rows assigned to this ExamVenue
(`_placeholder_has_other_students` and the `avoid_shared_room` check). -/
def hasOtherStudents (s : DB) (evId : Nat) (studentExamId : Option Nat) : Bool :=
  s.studentExams.any (fun se => se.exam_venue_id = some evId ∧
    (optIdTruthy studentExamId = false ∨ some se.se_id ≠ studentExamId))

/-- Python `avoid_venue_names and name in avoid_venue_names`. -/
def avoidHit (avoid : Option (List String)) (name : String) : Bool :=
  match avoid with
  | some l => ¬ l.isEmpty ∧ name ∈ l
  | none => false

/-- Keyword arguments shared by `_find_matching_exam_venue` and
`_allocate_exam_venue`. -/
structure AllocArgs where
  required_caps : List String
  target_start : Option Int
  target_length : Option Int
  require_accessible : Bool
  preferred_venue : Option Venue
  allow_same_exam_overlap : Bool
  allowed_venue_types : Option (List String)
  avoid_shared_room : Bool
  student_exam_id : Option Nat
  avoid_venue_names : Option (List String)
  match_caps : Option (List String)
  deriving Repr, DecidableEq

/-- The `_matches` predicate inside `_find_matching_exam_venue`. -/
def findMatches (s : DB) (a : AllocArgs) (avoid_placeholders : Bool)
    (ev : ExamVenue) : Bool :=
  let caps_for_matching := a.match_caps.getD a.required_caps
  if examVenueIsReserved s ev a.student_exam_id then false
  else if a.avoid_shared_room ∧ hasOtherStudents s ev.examvenue_id a.student_exam_id then false
  else if avoid_placeholders ∧ ev.venue_name.isNone then false
  else
    let venueOk : Bool :=
      match ev.venue_name with
      | some vn =>
        if avoidHit a.avoid_venue_names vn then false
        else
          match lookupVenue s vn with
          | none => false
          | some v =>
            if ¬ caps_for_matching.isEmpty ∧ ¬ venueSupportsCaps v caps_for_matching then false
            else if a.require_accessible ∧ ¬ v.is_accessible then false
            else if a.allowed_venue_types.isSome ∧
                v.venuetype ∉ a.allowed_venue_types.getD [] then false
            else true
      | none =>
        if ¬ caps_for_matching.isEmpty ∧
            ¬ caps_for_matching.all (fun c => c ∈ ev.provision_capabilities) then false
        else true
    if ¬ venueOk then false
    else if a.target_start.isSome ∧ ev.start_time ≠ a.target_start then false
    else if a.target_length.isSome ∧ ev.exam_length ≠ a.target_length then false
    else true

/-- `_find_matching_exam_venue`: try the preferred venue's rows first, then
all rows of the exam, in primary-key order. -/
def findMatchingExamVenue (s : DB) (exam : Exam) (a : AllocArgs)
    (avoid_placeholders : Bool) : Option ExamVenue :=
  let evs := s.examVenues.filter (fun ev => ev.exam_id = exam.exam_id)
  let general := evs.find? (findMatches s a avoid_placeholders)
  match a.preferred_venue with
  | some p =>
    match evs.find? (fun ev => ev.venue_name = some p.venue_name ∧
        findMatches s a avoid_placeholders ev) with
    | some ev => some ev
    | none => general
  | none => general

/-- Candidate-venue loop of `_allocate_exam_venue`: walk the prioritized
order, deduplicating by name, and keep venues passing the type, capability,
accessibility, availability and timing-conflict filters. The final
`iso_date` availability re-check never fires because `Exam` has no
`date_exam` attribute, so `getattr(exam, "date_exam", None)` is `None`. -/
def candidateFilter (s : DB) (a : AllocArgs) (ignoreArg : Option Nat)
    (allow_same : Bool) (caps_for_matching : List String) :
    List String → List Venue → List Venue
  | _, [] => []
  | seen, v :: rest =>
    if v.venue_name ∈ seen then
      candidateFilter s a ignoreArg allow_same caps_for_matching seen rest
    else
      let seen1 := v.venue_name :: seen
      let keep : Bool :=
        if avoidHit a.avoid_venue_names v.venue_name then false
        else if a.allowed_venue_types.isSome ∧
            v.venuetype ∉ a.allowed_venue_types.getD [] then false
        else if ¬ caps_for_matching.isEmpty ∧
            ¬ venueSupportsCaps v caps_for_matching then false
        else if a.require_accessible ∧ ¬ v.is_accessible then false
        else if ¬ venueIsAvailable v a.target_start then false
        else if venueHasTimingConflict (some (venueRows s v.venue_name))
            a.target_start a.target_length ignoreArg allow_same then false
        else true
      if keep then
        v :: candidateFilter s a ignoreArg allow_same caps_for_matching seen1 rest
      else candidateFilter s a ignoreArg allow_same caps_for_matching seen1 rest

/-- `_placeholder_matches_timing`. -/
def placeholderMatchesTiming (a : AllocArgs) (ev : ExamVenue) : Bool :=
  if a.target_start.isSome ∧ ev.start_time ≠ a.target_start then false
  else if a.target_length.isSome ∧ ev.exam_length ≠ a.target_length then false
  else true

/-- Apply the capability merge and (when unclaimed) the timing refresh to a
placeholder row, as in both placeholder branches of `_allocate_exam_venue`. -/
def refreshPlaceholder (a : AllocArgs) (p : ExamVenue) (passigned : Bool) :
    ExamVenue :=
  let merged := mergeCaps p.provision_capabilities a.required_caps
  let p1 :=
    if merged ≠ p.provision_capabilities then
      { p with provision_capabilities := merged }
    else p
  if passigned then p1
  else
    let p2 :=
      if a.target_start.isSome ∧ p1.start_time ≠ a.target_start then
        { p1 with start_time := a.target_start }
      else p1
    if a.target_length.isSome ∧ p2.exam_length ≠ a.target_length then
      { p2 with exam_length := a.target_length }
    else p2

/-- Lookup and vetting of an existing exact-slot `(exam, venue, start, length)`
row in `_allocate_exam_venue`. -/
def allocExisting (s : DB) (exam : Exam) (a : AllocArgs) (selected : Venue) :
    Option ExamVenue :=
  let existing0 := (s.examVenues.filter (fun e => e.exam_id = exam.exam_id ∧
    e.venue_name = some selected.venue_name ∧
    e.start_time = a.target_start ∧ e.exam_length = a.target_length)).head?
  match existing0 with
  | some e =>
    if examVenueIsReserved s e a.student_exam_id then none
    else if a.avoid_shared_room ∧ hasOtherStudents s e.examvenue_id a.student_exam_id then none
    else some e
  | none => none

/-- Final dispatch of `_allocate_exam_venue` once the candidate list and the
(placeholder, placeholder_assigned) pair are known: reuse or create a
placeholder when no candidate survives, otherwise bind the placeholder to the
selected venue, merge onto an exact-slot existing row, or create a new row. -/
def allocChoose (s : DB) (exam : Exam) (a : AllocArgs)
    (candidates : List Venue) (pinfo : Option (ExamVenue × Bool)) :
    ExamVenue × DB :=
  match candidates with
  | [] =>
    match pinfo with
    | some pp =>
      let p2 := refreshPlaceholder a pp.1 pp.2
      (p2, saveEV s p2)
    | none =>
      createEV s exam.exam_id none a.target_start a.target_length false
        a.required_caps
  | selected :: _ =>
    match pinfo with
    | some pp =>
      let p1 := { pp.1 with venue_name := some selected.venue_name }
      let p2 := refreshPlaceholder a p1 pp.2
      (p2, saveEV s p2)
    | none =>
      match allocExisting s exam a selected with
      | some e =>
        let merged := mergeCaps e.provision_capabilities a.required_caps
        let e1 :=
          if merged ≠ e.provision_capabilities then
            { e with provision_capabilities := merged }
          else e
        (e1, saveEV s e1)
      | none =>
        createEV s exam.exam_id (some selected.venue_name) a.target_start
          a.target_length false a.required_caps

/-- `_allocate_exam_venue`. Returns the chosen or created row together with
the updated state (the `if not exam` early return is unreachable: callers
always pass a resolved exam row). The ghost `granted_overlap` field records
the exams allocated with the effective `allow_same_exam_overlap` flag. -/
def allocRequiresOwnRoom (a : AllocArgs) : Bool := pSepRoomOwn ∈ a.required_caps

/-- Effective `allow_same_exam_overlap` (forced off for individual rooms). -/
def allocAllowSame (a : AllocArgs) : Bool :=
  if allocRequiresOwnRoom a then false else a.allow_same_exam_overlap

/-- Effective `ignore_exam_id` passed to the candidate conflict check. -/
def allocIgnoreArg (exam : Exam) (a : AllocArgs) : Option Nat :=
  if allocRequiresOwnRoom a then none else some exam.exam_id

/-- The ghost `granted_overlap` bookkeeping (does not change any ORM row). -/
def allocGhost (s0 : DB) (exam : Exam) (a : AllocArgs) : DB :=
  if allocAllowSame a ∧ exam.exam_id ∉ s0.granted_overlap then
    { s0 with granted_overlap := s0.granted_overlap ++ [exam.exam_id] }
  else s0

/-- The prioritized candidate order of `_allocate_exam_venue`: preferred
venue, core-sitting venues (minus avoided names), then all venues. -/
def allocCandidateOrder (s : DB) (exam : Exam) (a : AllocArgs) : List Venue :=
  let core_rows := s.examVenues.filter
    (fun ev => ev.exam_id = exam.exam_id ∧ ev.core ∧ ev.venue_name.isSome)
  let core_venues := core_rows.filterMap (fun ev => ev.venue_name.bind (lookupVenue s))
  let core_venues1 :=
    if optListTruthy a.avoid_venue_names then
      core_venues.filter (fun v => v.venue_name ∉ a.avoid_venue_names.getD [])
    else core_venues
  (match a.preferred_venue with | some p => [p] | none => []) ++
    core_venues1 ++ s.venues

/-- The surviving candidate venues. -/
def allocCandidates (s : DB) (exam : Exam) (a : AllocArgs) : List Venue :=
  candidateFilter s a (allocIgnoreArg exam a) (allocAllowSame a)
    (a.match_caps.getD a.required_caps) [] (allocCandidateOrder s exam a)

/-- Pick and vet the first reusable placeholder of the exam (reservation,
shared-room exclusion, other-students timing guard); the Bool is
`placeholder_assigned`. -/
def placeholderInfo (s : DB) (a : AllocArgs) (qs : List ExamVenue) :
    Option (ExamVenue × Bool) :=
  let placeholder0 :=
    match qs.head? with
    | some p => if examVenueIsReserved s p a.student_exam_id then none else some p
    | none => none
  match placeholder0 with
  | some p =>
    let passigned := hasOtherStudents s p.examvenue_id a.student_exam_id
    if passigned ∧ ¬ placeholderMatchesTiming a p then none
    else some (p, passigned)
  | none => none

/-- The placeholder queryset of `_allocate_exam_venue` (placeholders of the
exam, minus student-occupied ones under `avoid_shared_room`). -/
def allocPlaceholderQs (s : DB) (exam : Exam) (a : AllocArgs) : List ExamVenue :=
  let placeholder_qs := s.examVenues.filter
    (fun ev => ev.exam_id = exam.exam_id ∧ ev.venue_name = none)
  if a.avoid_shared_room then
    placeholder_qs.filter (fun ev =>
      ¬ s.studentExams.any (fun se => se.exam_venue_id = some ev.examvenue_id))
  else placeholder_qs

def allocateExamVenue (s0 : DB) (exam : Exam) (a : AllocArgs) :
    ExamVenue × DB :=
  let s := allocGhost s0 exam a
  allocChoose s exam a (allocCandidates s exam a)
    (placeholderInfo s a (allocPlaceholderQs s exam a))

end Timetabling

namespace Timetabling

/-! ### Provision-row ingestion and the allocation refresh -/

/-- A normalized provisions upload row. The free-text synonym/regex mapping of
`_normalize_provisions` is the out-of-scope parsing boundary: rows carry
canonical `ProvisionType` codes, which the slug table maps to themselves
(deduplicated below); unrecognized tokens only feed the notes text. -/
structure ProvRow where
  student_id : String
  student_name : String
  exam_code : String
  provisions : List String
  notes : String
  deriving Repr, DecidableEq

/-- Student.objects.update_or_create keyed on `student_id`. -/
def updateOrCreateStudent (s : DB) (studentId name : String) : DB :=
  match s.students.find? (fun st => st.student_id = studentId) with
  | some _ =>
    let sts := s.students.map (fun st =>
      if st.student_id = studentId then { st with student_name := name } else st)
    { s with students := sts }
  | none => { s with students := s.students ++ [{ student_id := studentId, student_name := name }] }

/-- Provisions.objects.update_or_create keyed on (student, exam); the Bool is
the `created` flag. -/
def updateOrCreateProvisions (s : DB) (studentId : String) (examId : Nat)
    (provisions : List String) (notes : Option String) : Bool × DB :=
  match s.provRecs.find? (fun p => p.student_id = studentId ∧ p.exam_id = examId) with
  | some _ =>
    let ps := s.provRecs.map (fun p =>
      if p.student_id = studentId ∧ p.exam_id = examId then
        { p with provisions := provisions, notes := notes }
      else p)
    (false, { s with provRecs := ps })
  | none =>
    let rec1 : ProvisionsRec :=
      { student_id := studentId, exam_id := examId, provisions := provisions, notes := notes }
    (true, { s with provRecs := s.provRecs ++ [rec1] })

/-- StudentExam.objects.get_or_create keyed on (student, exam); a newly
created row has no exam venue, so its save-time `clean` cannot fail. -/
def seKey (sid : String) (eid : Nat) : StudentExam → Bool :=
  fun x => x.student_id = sid ∧ x.exam_id = eid

def getOrCreateStudentExam (s : DB) (studentId : String) (examId : Nat) :
    StudentExam × DB :=
  match s.studentExams.find? (seKey studentId examId) with
  | some se => (se, s)
  | none =>
    let se : StudentExam :=
      { se_id := s.next_se_id, student_id := studentId, exam_id := examId
        exam_venue_id := none, manual_allocation_override := false }
    (se, { s with studentExams := s.studentExams ++ [se], next_se_id := s.next_se_id + 1 })

/-- StudentExam.save with `full_clean`: re-pointing a StudentExam at a
separate-room-on-own ExamVenue already claimed by another StudentExam raises
a ValidationError (models.py, `StudentExam.clean`). -/
def saveStudentExamChecked (s : DB) (se : StudentExam) (ev : ExamVenue) :
    Except String DB :=
  if pSepRoomOwn ∈ ev.provision_capabilities ∧
      s.studentExams.any (fun o => o.exam_venue_id = some ev.examvenue_id ∧
        o.se_id ≠ se.se_id) then
    .error "ValidationError: separate room (on own) already allocated"
  else
    let ses := s.studentExams.map (fun o =>
      if o.se_id = se.se_id then { o with exam_venue_id := some ev.examvenue_id } else o)
    .ok { s with studentExams := ses }

/-- The post-allocation field refresh applied to the chosen ExamVenue (the
`updates` block shared by `_import_provision_rows` and
`rerun_provision_allocation`). -/
def postAllocUpdates (target_start target_length : Option Int)
    (required_caps : List String) (ev : ExamVenue) : ExamVenue :=
  let e1 :=
    if target_start.isSome ∧ ev.start_time ≠ target_start then
      { ev with start_time := target_start }
    else ev
  let e2 :=
    if target_length.isSome ∧ e1.exam_length ≠ target_length then
      { e1 with exam_length := target_length }
    else e1
  if ¬ required_caps.isEmpty ∧
      ¬ required_caps.all (fun c => c ∈ e2.provision_capabilities) then
    { e2 with provision_capabilities := mergeCaps e2.provision_capabilities required_caps }
  else e2

/-- Derivation of the find/allocate keyword arguments from the provision
codes and the exam's core timing (the head of the allocation block shared by
`_import_provision_rows` and `rerun_provision_allocation`). -/
def passArgs (s : DB) (exam : Exam) (student_exam : StudentExam)
    (provisions : List String) : AllocArgs :=
  let required_caps := requiredCapabilities provisions
  let match_caps := required_caps.filter
    (fun c => c ≠ pSepRoomOwn ∧ c ≠ pSepRoomNotOwn ∧ c ≠ pUseComputer)
  let requires_individual_room := pSepRoomOwn ∈ required_caps
  let needs_accessible := needsAccessibleVenue provisions
  let requires_separate_room :=
    requires_individual_room ∨ pSepRoomNotOwn ∈ required_caps
  let needs_computer := needsComputer provisions ∨ examRequiresComputer exam.exam_type
  let allowed_venue_types := allowedVenueTypes needs_computer
  let core_evs := s.examVenues.filter
    (fun ev => ev.exam_id = exam.exam_id ∧ ev.core ∧ ev.venue_name.isSome)
  let core_venue := core_evs.head?.bind (fun ev => ev.venue_name.bind (lookupVenue s))
  let core_venue_names := core_evs.filterMap (fun ev => ev.venue_name)
  let timing := coreExamTiming s exam.exam_id
  let extra_minutes := extraTimeMinutes provisions timing.2
  let targets := applyExtraTime timing.1 timing.2 extra_minutes
  let small_extra_time := hasSmallExtraTime extra_minutes timing.2
  let avoid_core_venues :=
    (extra_minutes ≠ 0 ∧ small_extra_time = false) ∨ requires_separate_room
  let preferred_venue :=
    if small_extra_time ∧ ¬ requires_separate_room ∧ ¬ needs_computer then
      match core_venue with
      | some v => if needs_accessible ∧ ¬ v.is_accessible then none else some v
      | none => none
    else none
  let allow_same_exam_overlap := 0 < extra_minutes ∧ ¬ requires_individual_room
  { required_caps := required_caps, target_start := targets.1
    target_length := targets.2, require_accessible := needs_accessible
    preferred_venue := preferred_venue
    allow_same_exam_overlap := allow_same_exam_overlap
    allowed_venue_types := allowed_venue_types
    avoid_shared_room := requires_individual_room
    student_exam_id := some student_exam.se_id
    avoid_venue_names := if avoid_core_venues then some core_venue_names else none
    match_caps := some match_caps }

/-- ExamVenue selection of the shared allocation block: sticky individual-room
binding, then `_find_matching_exam_venue`, then the venue-type re-check,
falling back to `_allocate_exam_venue`. -/
def passSelect (s : DB) (exam : Exam) (student_exam : StudentExam)
    (args : AllocArgs) : ExamVenue × DB :=
  let ev0 :=
    if allocRequiresOwnRoom args ∧ optIdTruthy student_exam.exam_venue_id then
      student_exam.exam_venue_id.bind (lookupEV s)
    else none
  let ev1 :=
    match ev0 with
    | some e => some e
    | none => findMatchingExamVenue s exam args true
  let ev2 :=
    match ev1 with
    | some e =>
      let badType : Bool :=
        match e.venue_name.bind (lookupVenue s) with
        | some v => v.venuetype ∉ args.allowed_venue_types.getD []
        | none => false
      if args.allowed_venue_types.isSome ∧ badType then none else some e
    | none => none
  match ev2 with
  | some e => (e, s)
  | none => allocateExamVenue s exam args

/-- The selected ExamVenue after the shared field-refresh (`updates`) block. -/
def passEV (s : DB) (exam : Exam) (student_exam : StudentExam)
    (provisions : List String) : ExamVenue :=
  let args := passArgs s exam student_exam provisions
  postAllocUpdates args.target_start args.target_length args.required_caps
    (passSelect s exam student_exam args).1

/-- The state after allocation and the ExamVenue field refresh (saved only
when some field changed, as the `updates` list drives `save`). -/
def passState1 (s : DB) (exam : Exam) (student_exam : StudentExam)
    (provisions : List String) : DB :=
  let chosen := passSelect s exam student_exam (passArgs s exam student_exam provisions)
  let ev3 := passEV s exam student_exam provisions
  if ev3 ≠ chosen.1 then saveEV chosen.2 ev3 else chosen.2

/-- The allocation block shared verbatim by `_import_provision_rows`
(upload_processor.py lines 615–717) and `rerun_provision_allocation`
(lines 745–845): derive the arguments, select an ExamVenue, refresh its
fields, and re-point the StudentExam (whose checked save can raise). Returns
the state and whether the StudentExam binding changed. -/
def provisionAllocationPass (s : DB) (exam : Exam) (student_exam : StudentExam)
    (provisions : List String) : Except String (DB × Bool) :=
  let ev3 := passEV s exam student_exam provisions
  let s1 := passState1 s exam student_exam provisions
  if student_exam.exam_venue_id ≠ some ev3.examvenue_id then
    match saveStudentExamChecked s1 student_exam ev3 with
    | .error e => .error e
    | .ok s2 => .ok (s2, true)
  else .ok (s1, false)

/-- One row of `_import_provision_rows`. -/
def importProvisionRowStep (s : DB) (summary : Summary) (idx : Nat)
    (row : ProvRow) : Except String (DB × Summary) :=
  if row.student_id = "" then
    let errs := summary.errors ++ ["Row " ++ toString idx ++ ": Missing student_id."]
    .ok (s, { summary with skipped := summary.skipped + 1, errors := errs })
  else if row.exam_code = "" then
    let errs := summary.errors ++ ["Row " ++ toString idx ++ ": Missing exam_code."]
    .ok (s, { summary with skipped := summary.skipped + 1, errors := errs })
  else
    match s.exams.filter (fun e => e.course_code = row.exam_code) with
    | [] =>
      let errs := summary.errors ++
        ["Row " ++ toString idx ++ ": Exam with code " ++ row.exam_code ++ " not found."]
      .ok (s, { summary with skipped := summary.skipped + 1, errors := errs })
    | exam :: [] =>
      let s1 := updateOrCreateStudent s row.student_id
        (if row.student_name = "" then row.student_id else row.student_name)
      let provisions := dedupFirst [] row.provisions
      let notes := if row.notes = "" then none else some row.notes
      let cs := updateOrCreateProvisions s1 row.student_id exam.exam_id provisions notes
      let ses := getOrCreateStudentExam cs.2 row.student_id exam.exam_id
      match provisionAllocationPass ses.2 exam ses.1 provisions with
      | .error e => .error e
      | .ok r =>
        if cs.1 then .ok (r.1, { summary with created := summary.created + 1 })
        else .ok (r.1, { summary with updated := summary.updated + 1 })
    | _ :: _ :: _ => .error "Exam.MultipleObjectsReturned"

def provRowsFold : Nat → DB → Summary → List ProvRow → Except String (DB × Summary)
  | _, s, sum, [] => .ok (s, sum)
  | idx, s, sum, r :: rest =>
    match importProvisionRowStep s sum idx r with
    | .error e => .error e
    | .ok st => provRowsFold (idx + 1) st.1 st.2 rest

/-- `_import_provision_rows` (whole-batch atomic: an uncaught exception rolls
the entire call back, modelled by the `Except` error). -/
def importProvisionRows (rows : List ProvRow) (s : DB) :
    Except String (DB × Summary) :=
  provRowsFold 1 s (baseSummary rows.length) rows

/-- One Provisions record of `rerun_provision_allocation`; a dangling exam
foreign key is unreachable under referential integrity and is modelled as a
no-op. -/
def rerunStep (s : DB) (summary : Summary) (p : ProvisionsRec) :
    Except String (DB × Summary) :=
  match s.exams.find? (fun e => e.exam_id = p.exam_id) with
  | none => .ok (s, summary)
  | some exam =>
    let ses := getOrCreateStudentExam s p.student_id p.exam_id
    if ses.1.manual_allocation_override then
      .ok (ses.2, { summary with skipped := summary.skipped + 1 })
    else
      match provisionAllocationPass ses.2 exam ses.1 p.provisions with
      | .error e => .error e
      | .ok r =>
        if r.2 then .ok (r.1, { summary with updated := summary.updated + 1 })
        else .ok (r.1, { summary with unchanged := summary.unchanged + 1 })

def rerunFold : DB → Summary → List ProvisionsRec → Except String (DB × Summary)
  | s, sum, [] => .ok (s, sum)
  | s, sum, p :: rest =>
    match rerunStep s sum p with
    | .error e => .error e
    | .ok st => rerunFold st.1 st.2 rest

/-- `rerun_provision_allocation`, replaying allocation for every Provisions
row in primary-key order. -/
def rerunProvisionAllocation (s : DB) : Except String (DB × Summary) :=
  rerunFold s (baseSummary s.provRecs.length) s.provRecs

/-- State effect of `_import_provision_rows` with transaction rollback on an
uncaught exception. -/
def importProvisionRowsState (rows : List ProvRow) (s : DB) : DB :=
  match importProvisionRows rows s with
  | .ok r => r.1
  | .error _ => s

/-- State effect of `rerun_provision_allocation` with rollback. -/
def rerunState (s : DB) : DB :=
  match rerunProvisionAllocation s with
  | .ok r => r.1
  | .error _ => s

/-- States reachable from the empty database by the core operations named in
the specification. -/
inductive Reachable : DB → Prop
  | empty : Reachable emptyDB
  | exam_rows (rows : List ExamRow) {s : DB} :
      Reachable s → Reachable (importExamRows rows s).1
  | provision_rows (rows : List ProvRow) {s : DB} :
      Reachable s → Reachable (importProvisionRowsState rows s)
  | refresh {s : DB} : Reachable s → Reachable (rerunState s)
  | attach (v : Venue) {s : DB} :
      Reachable s → Reachable (attachPlaceholdersToVenue v s)

/-- Half-open interval overlap of two timed slots (seconds/minutes). -/
def intervalsOverlap (s1 l1 s2 l2 : Int) : Bool :=
  decide (s1 < s2 + l2 * 60 ∧ s2 < s1 + l1 * 60)

/-- The claimed no-double-booking property of a state: any two distinct timed
rows on the same venue either do not overlap, or are the same exam in the
exact same slot, or belong to an exam granted `allow_same_exam_overlap`. -/
def noDoubleBooking (s : DB) : Bool :=
  s.examVenues.all fun ev1 =>
    s.examVenues.all fun ev2 =>
      if ev1.examvenue_id ≠ ev2.examvenue_id ∧ ev1.venue_name.isSome ∧
          ev1.venue_name = ev2.venue_name then
        match ev1.start_time, ev1.exam_length, ev2.start_time, ev2.exam_length with
        | some t1, some l1, some t2, some l2 =>
          if intervalsOverlap t1 l1 t2 l2 then
            decide ((ev1.exam_id = ev2.exam_id ∧ t1 = t2 ∧ l1 = l2) ∨
              ev1.exam_id ∈ s.granted_overlap)
          else true
        | _, _, _, _ => true
      else true

end Timetabling

namespace Timetabling

theorem refreshPlaceholder_venue (a : AllocArgs) (p : ExamVenue) (b : Bool) :
    (refreshPlaceholder a p b).venue_name = p.venue_name := by
  unfold refreshPlaceholder
  simp only []
  split_ifs <;> rfl

theorem mem_candidateFilter {s : DB} {a : AllocArgs} {ig : Option Nat}
    {al : Bool} {cm : List String} :
    ∀ {seen : List String} {l : List Venue} {v : Venue},
      v ∈ candidateFilter s a ig al cm seen l →
      venueHasTimingConflict (some (venueRows s v.venue_name))
        a.target_start a.target_length ig al = false := by
  intro seen l
  induction l generalizing seen with
  | nil =>
    intro v h
    simp [candidateFilter] at h
  | cons w rest ih =>
    intro v h
    unfold candidateFilter at h
    by_cases hseen : w.venue_name ∈ seen
    · rw [if_pos hseen] at h
      exact ih h
    · rw [if_neg hseen] at h
      simp only [] at h
      by_cases hkeep :
          (if avoidHit a.avoid_venue_names w.venue_name = true then false
            else if a.allowed_venue_types.isSome ∧
                w.venuetype ∉ a.allowed_venue_types.getD [] then false
            else if ¬ cm.isEmpty ∧ ¬ venueSupportsCaps w cm then false
            else if a.require_accessible ∧ ¬ w.is_accessible then false
            else if ¬ venueIsAvailable w a.target_start then false
            else if venueHasTimingConflict (some (venueRows s w.venue_name))
                a.target_start a.target_length ig al then false
            else true) = true
      · rw [if_pos hkeep] at h
        rcases List.mem_cons.mp h with hv | hv
        · subst hv
          cases hb : venueHasTimingConflict (some (venueRows s v.venue_name))
            a.target_start a.target_length ig al
          · rfl
          · rw [hb] at hkeep
            simp at hkeep
        · exact ih hv
      · rw [if_neg hkeep] at h
        exact ih h

end Timetabling

namespace Timetabling

theorem mem_of_head?_eq {α : Type} {l : List α} {x : α}
    (h : l.head? = some x) : x ∈ l := by
  cases l with
  | nil => cases h
  | cons y ys =>
    have hyx : y = x := by injection h
    rw [← hyx]
    exact List.mem_cons_self _ _

theorem placeholderInfo_mem {s : DB} {a : AllocArgs} {qs : List ExamVenue}
    {pp : ExamVenue × Bool} (h : placeholderInfo s a qs = some pp) :
    pp.1 ∈ qs := by
  unfold placeholderInfo at h
  rcases hq : qs.head? with _ | p
  · rw [hq] at h
    simp at h
  · rw [hq] at h
    simp only [] at h
    split_ifs at h with h1
    simp only [] at h
    split_ifs at h with h2
    injection h with hh
    rw [← hh]
    exact mem_of_head?_eq hq

theorem allocPlaceholderQs_venue {s : DB} {exam : Exam} {a : AllocArgs}
    {ev : ExamVenue} (h : ev ∈ allocPlaceholderQs s exam a) :
    ev.venue_name = none := by
  unfold allocPlaceholderQs at h
  split_ifs at h with h1
  · have h2 := List.mem_filter.mp h
    have h3 := List.mem_filter.mp h2.1
    have := of_decide_eq_true h3.2
    exact this.2
  · have h3 := List.mem_filter.mp h
    have := of_decide_eq_true h3.2
    exact this.2

theorem allocExisting_venue {s : DB} {exam : Exam} {a : AllocArgs}
    {sel : Venue} {e : ExamVenue} (h : allocExisting s exam a sel = some e) :
    e.venue_name = some sel.venue_name := by
  unfold allocExisting at h
  rcases hq : (s.examVenues.filter (fun e => e.exam_id = exam.exam_id ∧
      e.venue_name = some sel.venue_name ∧
      e.start_time = a.target_start ∧ e.exam_length = a.target_length)).head?
    with _ | e0
  · rw [hq] at h
    simp at h
  · rw [hq] at h
    simp only [] at h
    split_ifs at h with h1 h2
    injection h with hh
    have hmem : e0 ∈ s.examVenues.filter (fun e => e.exam_id = exam.exam_id ∧
        e.venue_name = some sel.venue_name ∧
        e.start_time = a.target_start ∧ e.exam_length = a.target_length) :=
      mem_of_head?_eq hq
    have hprops := of_decide_eq_true (List.mem_filter.mp hmem).2
    rw [← hh]
    exact hprops.2.1

theorem allocChoose_venue {s : DB} {exam : Exam} {a : AllocArgs}
    {cands : List Venue} {pinfo : Option (ExamVenue × Bool)} {vn : String}
    (hpl : ∀ pp, pinfo = some pp → pp.1.venue_name = none)
    (h : (allocChoose s exam a cands pinfo).1.venue_name = some vn) :
    ∃ sel rest, cands = sel :: rest ∧ vn = sel.venue_name := by
  unfold allocChoose at h
  rcases cands with _ | ⟨sel, rest⟩
  · rcases hp : pinfo with _ | pp
    · rw [hp] at h
      simp only [] at h
      simp [createEV] at h
    · rw [hp] at h
      simp only [] at h
      rw [refreshPlaceholder_venue, hpl pp hp] at h
      cases h
  · refine ⟨sel, rest, rfl, ?_⟩
    rcases hp : pinfo with _ | pp
    · rw [hp] at h
      simp only [] at h
      rcases he : allocExisting s exam a sel with _ | e
      · rw [he] at h
        simp only [] at h
        simp [createEV] at h
        exact h.symm
      · rw [he] at h
        simp only [] at h
        split_ifs at h with h1
        · have := allocExisting_venue he
          rw [this] at h
          injection h with hh
          exact hh.symm
        · have := allocExisting_venue he
          rw [this] at h
          injection h with hh
          exact hh.symm
    · rw [hp] at h
      simp only [] at h
      rw [refreshPlaceholder_venue] at h
      injection h with hh
      exact hh.symm

theorem allocGhost_venueRows (s0 : DB) (exam : Exam) (a : AllocArgs)
    (name : String) :
    venueRows (allocGhost s0 exam a) name = venueRows s0 name := by
  unfold allocGhost venueRows
  split_ifs <;> rfl

theorem allocate_venue_bound_is_conflict_free (s0 : DB) (exam : Exam)
    (a : AllocArgs) (vn : String)
    (h : (allocateExamVenue s0 exam a).1.venue_name = some vn) :
    venueHasTimingConflict (some (venueRows s0 vn)) a.target_start
      a.target_length (allocIgnoreArg exam a) (allocAllowSame a) = false := by
  unfold allocateExamVenue at h
  obtain ⟨sel, rest, hc, hvn⟩ := allocChoose_venue
    (fun pp hp => allocPlaceholderQs_venue (placeholderInfo_mem hp)) h
  have hmem : sel ∈ allocCandidates (allocGhost s0 exam a) exam a := by
    rw [hc]
    exact List.mem_cons_self _ _
  unfold allocCandidates at hmem
  have hconf := mem_candidateFilter hmem
  rw [allocGhost_venueRows] at hconf
  rw [hvn]
  exact hconf

end Timetabling

namespace Timetabling

/-- Claim C1 amended, witnessed: in a state with one free venue "Hall", the
allocator binds the new row to "Hall", and "Hall" indeed passes the
timing-conflict check. -/
def w1Venue : Venue :=
  { venue_name := "Hall", capacity := 100, venuetype := "main_hall"
    is_accessible := true, availability := [], provision_capabilities := [] }

def w1DB : DB := { emptyDB with venues := [w1Venue] }

def w1Exam : Exam :=
  { exam_id := 1, course_code := "C1X", exam_name := "X", exam_type := "Exam"
    no_students := 5, exam_school := "S", school_contact := "" }

def w1Args : AllocArgs :=
  { required_caps := [], target_start := some 36000, target_length := some 60
    require_accessible := false, preferred_venue := none
    allow_same_exam_overlap := false, allowed_venue_types := none
    avoid_shared_room := false, student_exam_id := none
    avoid_venue_names := none, match_caps := none }

theorem allocate_venue_bound_is_conflict_free_witness :
    (allocateExamVenue w1DB w1Exam w1Args).1.venue_name = some "Hall" ∧
      venueHasTimingConflict (some (venueRows w1DB "Hall"))
        w1Args.target_start w1Args.target_length (allocIgnoreArg w1Exam w1Args)
        (allocAllowSame w1Args) = false :=
  ⟨by decide,
   allocate_venue_bound_is_conflict_free w1DB w1Exam w1Args "Hall" (by decide)⟩

/-- Two exam rows for different courses, same venue, overlapping times. -/
def doubleBookedExamRows : List ExamRow :=
  [{ course_code := "AAA", exam_name := "Alg", exam_type := "Exam"
     no_students := some 10, school := "Sci", school_contact := ""
     start_time := some 32400, exam_length := some 60, venue_names := ["Hall"] },
   { course_code := "BBB", exam_name := "Bio", exam_type := "Exam"
     no_students := some 10, school := "Sci", school_contact := ""
     start_time := some 34200, exam_length := some 60, venue_names := ["Hall"] }]

/-- Claim C1 counterexample: importing two exams for the same hall at 09:00
and 09:30 (both 60 minutes) is a reachable state with two distinct
overlapping timed rows on one venue, for different exams, with no overlap
grant — exam-row ingestion performs no conflict check, so the claimed
reachable-state invariant is false. -/
theorem no_double_booking_reachable_counterexample :
    ¬ (∀ s : DB, Reachable s → noDoubleBooking s = true) := by
  intro hclaim
  have hr : Reachable (importExamRows doubleBookedExamRows emptyDB).1 :=
    Reachable.exam_rows doubleBookedExamRows Reachable.empty
  have htrue := hclaim _ hr
  have hfalse : noDoubleBooking (importExamRows doubleBookedExamRows emptyDB).1
      = false := by decide
  rw [htrue] at hfalse
  cases hfalse

end Timetabling

namespace Timetabling

/-! ### Claim C2 — single-occupant room exclusivity -/

def isOkResult (r : Except String (DB × Summary)) : Bool :=
  match r with
  | .ok _ => true
  | .error _ => false

def c2ExamRow : ExamRow :=
  { course_code := "E1", exam_name := "Alg", exam_type := "Exam"
    no_students := some 10, school := "Sci", school_contact := ""
    start_time := some 32400, exam_length := some 60, venue_names := ["Hall"] }

def c2ProvRows : List ProvRow :=
  [{ student_id := "S1", student_name := "One", exam_code := "E1"
     provisions := [pSepRoomOwn], notes := "" },
   { student_id := "S2", student_name := "Two", exam_code := "E1"
     provisions := [pSepRoomOwn], notes := "" }]

/-- A separate room gaining the capability (an admin creates/updates it,
firing the venue post_save attachment). -/
def c2Venue : Venue :=
  { venue_name := "R", capacity := 1, venuetype := "separate_room"
    is_accessible := true, availability := []
    provision_capabilities := [pSepRoomOwn] }

def c2AfterExams : DB := (importExamRows [c2ExamRow] emptyDB).1

def c2AfterProvs : DB := importProvisionRowsState c2ProvRows c2AfterExams

def c2Final : DB := attachPlaceholdersToVenue c2Venue c2AfterProvs

/-- Claim C2 is violated by the code: two students with separate-room-on-own
provisions are placed on two placeholders; when venue "R" gains the
capability, `attach_placeholders_to_venue` promotes the first placeholder and
then merges the second onto it with a bulk queryset update that bypasses
`StudentExam.save`/`clean` — the reachable final state has one
separate-room-on-own ExamVenue referenced by two StudentExams, and no
ValidationError was raised anywhere (the provision import returned ok and the
attachment is exception-free). -/
theorem separate_room_exclusivity_violated_by_merge :
    Reachable c2Final ∧
      isOkResult (importProvisionRows c2ProvRows c2AfterExams) = true ∧
      ∃ ev ∈ c2Final.examVenues, pSepRoomOwn ∈ ev.provision_capabilities ∧
        2 ≤ (c2Final.studentExams.filter
          (fun se => se.exam_venue_id = some ev.examvenue_id)).length := by
  refine ⟨?_, by decide, by decide⟩
  exact Reachable.attach c2Venue (Reachable.provision_rows c2ProvRows
    (Reachable.exam_rows [c2ExamRow] Reachable.empty))

end Timetabling

namespace Timetabling

/-! ### Frame lemmas: what the allocation machinery does not touch -/

/-- Everything except the ExamVenue table, its id counter and the ghost field
is untouched. -/
def sameCore (s t : DB) : Prop :=
  t.exams = s.exams ∧ t.venues = s.venues ∧ t.students = s.students ∧
    t.provRecs = s.provRecs ∧ t.studentExams = s.studentExams ∧
    t.next_se_id = s.next_se_id ∧ t.next_exam_id = s.next_exam_id

theorem sameCore_refl (s : DB) : sameCore s s :=
  ⟨rfl, rfl, rfl, rfl, rfl, rfl, rfl⟩

theorem sameCore_trans {s t u : DB} (h1 : sameCore s t) (h2 : sameCore t u) :
    sameCore s u := by
  obtain ⟨a1, a2, a3, a4, a5, a6, a7⟩ := h1
  obtain ⟨b1, b2, b3, b4, b5, b6, b7⟩ := h2
  exact ⟨b1.trans a1, b2.trans a2, b3.trans a3, b4.trans a4, b5.trans a5,
    b6.trans a6, b7.trans a7⟩

theorem saveEV_sameCore (s : DB) (ev : ExamVenue) : sameCore s (saveEV s ev) :=
  ⟨rfl, rfl, rfl, rfl, rfl, rfl, rfl⟩

theorem createEV_sameCore (s : DB) (ei : Nat) (v : Option String)
    (st l : Option Int) (c : Bool) (caps : List String) :
    sameCore s (createEV s ei v st l c caps).2 :=
  ⟨rfl, rfl, rfl, rfl, rfl, rfl, rfl⟩

theorem allocGhost_sameCore (s : DB) (exam : Exam) (a : AllocArgs) :
    sameCore s (allocGhost s exam a) := by
  unfold allocGhost
  split_ifs
  · exact ⟨rfl, rfl, rfl, rfl, rfl, rfl, rfl⟩
  · exact sameCore_refl s

theorem allocChoose_sameCore (s : DB) (exam : Exam) (a : AllocArgs)
    (c : List Venue) (p : Option (ExamVenue × Bool)) :
    sameCore s (allocChoose s exam a c p).2 := by
  unfold allocChoose
  rcases c with _ | ⟨sel, rest⟩
  · rcases p with _ | pp
    · exact createEV_sameCore ..
    · exact saveEV_sameCore ..
  · rcases p with _ | pp
    · simp only []
      split
      · exact saveEV_sameCore ..
      · exact createEV_sameCore ..
    · exact saveEV_sameCore ..

theorem allocateExamVenue_sameCore (s : DB) (exam : Exam) (a : AllocArgs) :
    sameCore s (allocateExamVenue s exam a).2 := by
  unfold allocateExamVenue
  exact sameCore_trans (allocGhost_sameCore s exam a) (allocChoose_sameCore ..)

theorem passSelect_sameCore (s : DB) (exam : Exam) (se : StudentExam)
    (a : AllocArgs) : sameCore s (passSelect s exam se a).2 := by
  unfold passSelect
  simp only []
  split
  · exact sameCore_refl s
  · exact allocateExamVenue_sameCore ..

theorem passState1_sameCore (s : DB) (exam : Exam) (se : StudentExam)
    (prov : List String) : sameCore s (passState1 s exam se prov) := by
  unfold passState1
  simp only []
  split_ifs
  · exact sameCore_trans (passSelect_sameCore ..) (saveEV_sameCore ..)
  · exact passSelect_sameCore ..

/-- The allocation pass leaves the Exam, Venue, Student and Provisions tables
and the StudentExam/Exam id counters unchanged, and its only StudentExam
effect is (possibly) re-pointing the processed student's binding. -/
theorem pass_frame {s : DB} {exam : Exam} {se : StudentExam}
    {prov : List String} {r : DB × Bool}
    (h : provisionAllocationPass s exam se prov = .ok r) :
    (r.1.exams = s.exams ∧ r.1.venues = s.venues ∧
      r.1.students = s.students ∧ r.1.provRecs = s.provRecs ∧
      r.1.next_se_id = s.next_se_id ∧ r.1.next_exam_id = s.next_exam_id) ∧
    (r.1.studentExams = s.studentExams ∨
      ∃ k, r.1.studentExams = s.studentExams.map (fun o =>
        if o.se_id = se.se_id then { o with exam_venue_id := some k } else o)) := by
  obtain ⟨c1, c2, c3, c4, c5, c6, c7⟩ := passState1_sameCore s exam se prov
  unfold provisionAllocationPass at h
  simp only [] at h
  split_ifs at h with hrep
  · split at h
    · cases h
    · rename_i s2 heq
      injection h with hh
      subst hh
      unfold saveStudentExamChecked at heq
      split_ifs at heq with hclash
      injection heq with hs2
      subst hs2
      refine ⟨⟨c1, c2, c3, c4, c6, c7⟩, Or.inr ⟨(passEV s exam se prov).examvenue_id, ?_⟩⟩
      simp only []
      rw [c5]
  · injection h with hh
    subst hh
    exact ⟨⟨c1, c2, c3, c4, c6, c7⟩, Or.inl c5⟩

end Timetabling

namespace Timetabling

/-! ### Claim C9 — manual override is sticky -/

/-- Well-formedness of the StudentExam table: distinct AutoField ids, all
below the id counter. -/
def seInv (s : DB) : Prop :=
  (s.studentExams.map (fun x => x.se_id)).Nodup ∧
    ∀ x ∈ s.studentExams, x.se_id < s.next_se_id

theorem find?_map_keys (f : StudentExam → StudentExam)
    (hf : ∀ x, (f x).student_id = x.student_id ∧ (f x).exam_id = x.exam_id)
    (l : List StudentExam) (sid : String) (eid : Nat) :
    (l.map f).find? (seKey sid eid) = (l.find? (seKey sid eid)).map f := by
  induction l with
  | nil => rfl
  | cons y ys ih =>
    by_cases hy : seKey sid eid y = true
    · have hfy : seKey sid eid (f y) = true := by
        unfold seKey at hy ⊢
        rw [(hf y).1, (hf y).2]
        exact hy
      rw [List.map_cons, List.find?_cons_of_pos _ hfy,
        List.find?_cons_of_pos _ hy]
      rfl
    · have hfy : ¬ seKey sid eid (f y) = true := by
        unfold seKey at hy ⊢
        rw [(hf y).1, (hf y).2]
        exact hy
      rw [List.map_cons, List.find?_cons_of_neg _ hfy,
        List.find?_cons_of_neg _ hy]
      exact ih

theorem getOrCreateSE_spec (s : DB) (sid : String) (eid : Nat) :
    (∃ se0, s.studentExams.find? (seKey sid eid) = some se0 ∧
        getOrCreateStudentExam s sid eid = (se0, s)) ∨
      (∃ se0, s.studentExams.find? (seKey sid eid) = none ∧
        getOrCreateStudentExam s sid eid =
          (se0, { s with studentExams := s.studentExams ++ [se0]
                         next_se_id := s.next_se_id + 1 }) ∧
        se0.se_id = s.next_se_id ∧ se0.manual_allocation_override = false ∧
        se0.student_id = sid ∧ se0.exam_id = eid) := by
  unfold getOrCreateStudentExam
  rcases hf : s.studentExams.find? (seKey sid eid) with _ | se0
  · exact Or.inr ⟨_, rfl, rfl, rfl, rfl, rfl, rfl⟩
  · exact Or.inl ⟨se0, rfl, rfl⟩

/-- The allocation pass never disturbs the binding of a StudentExam with a
different id, and keeps the table invariants. -/
theorem pass_preserves_other (s : DB) (exam : Exam) (se0 : StudentExam)
    (prov : List String) (r' : DB × Bool) (se : StudentExam)
    (hne : se.se_id ≠ se0.se_id)
    (hinv : seInv s)
    (hfind : s.studentExams.find? (seKey se.student_id se.exam_id) = some se)
    (heq : provisionAllocationPass s exam se0 prov = .ok r') :
    seInv r'.1 ∧
      r'.1.studentExams.find? (seKey se.student_id se.exam_id) = some se := by
  obtain ⟨⟨_, _, _, _, hnse, _⟩, hshape⟩ := pass_frame heq
  rcases hshape with hsame | ⟨k, hmap⟩
  · constructor
    · refine ⟨?_, ?_⟩
      · rw [hsame]
        exact hinv.1
      · intro x hx
        rw [hsame] at hx
        rw [hnse]
        exact hinv.2 x hx
    · rw [hsame]
      exact hfind
  · have hkeys : ∀ x : StudentExam,
        ((fun o => if o.se_id = se0.se_id then
          { o with exam_venue_id := some k } else o) x).student_id = x.student_id ∧
        ((fun o => if o.se_id = se0.se_id then
          { o with exam_venue_id := some k } else o) x).exam_id = x.exam_id := by
      intro x
      by_cases hx : x.se_id = se0.se_id <;> simp [hx]
    have hids : ∀ x : StudentExam,
        ((fun o => if o.se_id = se0.se_id then
          { o with exam_venue_id := some k } else o) x).se_id = x.se_id := by
      intro x
      by_cases hx : x.se_id = se0.se_id <;> simp [hx]
    constructor
    · refine ⟨?_, ?_⟩
      · rw [hmap, List.map_map]
        have : ((fun x : StudentExam => x.se_id) ∘
            (fun o => if o.se_id = se0.se_id then
              { o with exam_venue_id := some k } else o)) =
            (fun x : StudentExam => x.se_id) := by
          funext x
          exact hids x
        rw [this]
        exact hinv.1
      · intro x hx
        rw [hmap] at hx
        obtain ⟨y, hy, hxy⟩ := List.mem_map.mp hx
        rw [hnse, ← hxy, hids y]
        exact hinv.2 y hy
    · rw [hmap, find?_map_keys _ hkeys, hfind]
      rw [Option.map_some']
      rw [if_neg hne]

end Timetabling

namespace Timetabling

theorem rerunStep_preserves {s : DB} {sum : Summary} {p : ProvisionsRec}
    {r : DB × Summary} (se : StudentExam)
    (hov : se.manual_allocation_override = true)
    (hinv : seInv s)
    (hfind : s.studentExams.find? (seKey se.student_id se.exam_id) = some se)
    (h : rerunStep s sum p = .ok r) :
    seInv r.1 ∧
      r.1.studentExams.find? (seKey se.student_id se.exam_id) = some se := by
  unfold rerunStep at h
  rcases hex : s.exams.find? (fun e => e.exam_id = p.exam_id) with _ | exam
  · rw [hex] at h
    simp only [] at h
    injection h with hh
    subst hh
    exact ⟨hinv, hfind⟩
  · rw [hex] at h
    simp only [] at h
    rcases getOrCreateSE_spec s p.student_id p.exam_id with
      ⟨se0, hf0, hg⟩ | hcreated
    · rw [hg] at h
      simp only [] at h
      split_ifs at h with hov0
      · injection h with hh
        subst hh
        exact ⟨hinv, hfind⟩
      · have hmem0 : se0 ∈ s.studentExams := List.mem_of_find?_eq_some hf0
        have hmem : se ∈ s.studentExams := List.mem_of_find?_eq_some hfind
        have hne : se.se_id ≠ se0.se_id := by
          intro hid
          have : se = se0 := List.inj_on_of_nodup_map hinv.1 hmem hmem0 hid
          rw [this] at hov
          rw [hov] at hov0
          exact hov0 rfl
        split at h
        · cases h
        · rename_i r' heq
          have hp := pass_preserves_other s exam se0 p.provisions r' se hne hinv hfind heq
          split_ifs at h <;> (injection h with hh; subst hh; exact hp)
    · obtain ⟨newSE, hf0, hg, hid0, hov0eq, hsid0, heid0⟩ := hcreated
      rw [hg] at h
      simp only [] at h
      split_ifs at h with hov0
      · rw [hov0eq] at hov0
        exact absurd hov0 (by decide)
      · set s' : DB :=
          { s with studentExams := s.studentExams ++ [newSE]
                   next_se_id := s.next_se_id + 1 } with hs'
        have hinv' : seInv s' := by
          constructor
          · rw [hs']
            simp only [List.map_append, List.map_cons, List.map_nil]
            rw [List.nodup_append]
            refine ⟨hinv.1, List.nodup_singleton _, ?_⟩
            intro x hx hx1
            simp only [List.mem_singleton] at hx1
            obtain ⟨y, hy, hxy⟩ := List.mem_map.mp hx
            have := hinv.2 y hy
            omega
          · intro x hx
            rw [hs'] at hx
            simp only [List.mem_append, List.mem_singleton] at hx
            rcases hx with hx | hx
            · have := hinv.2 x hx
              simp only [hs']
              omega
            · rw [hx]
              simp only [hs']
              omega
        have hfind' : s'.studentExams.find? (seKey se.student_id se.exam_id)
            = some se := by
          rw [hs']
          simp only []
          rw [List.find?_append, hfind]
          rfl
        have hne : se.se_id ≠ newSE.se_id := by
          have := hinv.2 se (List.mem_of_find?_eq_some hfind)
          omega
        split at h
        · cases h
        · rename_i r' heq
          have hp := pass_preserves_other s' exam newSE p.provisions r' se hne
            hinv' hfind' heq
          split_ifs at h <;> (injection h with hh; subst hh; exact hp)

theorem rerunFold_preserves (se : StudentExam)
    (hov : se.manual_allocation_override = true) :
    ∀ (ps : List ProvisionsRec) (s : DB) (sum : Summary) (r : DB × Summary),
      seInv s →
      s.studentExams.find? (seKey se.student_id se.exam_id) = some se →
      rerunFold s sum ps = .ok r →
      r.1.studentExams.find? (seKey se.student_id se.exam_id) = some se := by
  intro ps
  induction ps with
  | nil =>
    intro s sum r hinv hfind h
    injection h with hh
    subst hh
    exact hfind
  | cons p rest ih =>
    intro s sum r hinv hfind h
    unfold rerunFold at h
    split at h
    · cases h
    · rename_i st heq
      obtain ⟨hinv', hfind'⟩ := rerunStep_preserves se hov hinv hfind heq
      exact ih st.1 st.2 r hinv' hfind' h

/-- Claim C9: `rerun_provision_allocation` never alters the `exam_venue`
binding of a StudentExam flagged `manual_allocation_override` — the whole
record is untouched (under referential well-formedness of the StudentExam
table: distinct ids below the id counter). -/
theorem rerun_manual_override_sticky (s : DB) (se : StudentExam)
    (hfind : s.studentExams.find? (seKey se.student_id se.exam_id) = some se)
    (hov : se.manual_allocation_override = true)
    (hids : (s.studentExams.map (fun x => x.se_id)).Nodup)
    (hfresh : ∀ x ∈ s.studentExams, x.se_id < s.next_se_id) :
    (rerunState s).studentExams.find? (seKey se.student_id se.exam_id)
      = some se := by
  unfold rerunState rerunProvisionAllocation
  rcases hr : rerunFold s (baseSummary s.provRecs.length) s.provRecs with e | r
  · exact hfind
  · exact rerunFold_preserves se hov s.provRecs s
      (baseSummary s.provRecs.length) r ⟨hids, hfresh⟩ hfind hr

end Timetabling

namespace Timetabling

def c9SE : StudentExam :=
  { se_id := 1, student_id := "S1", exam_id := 1, exam_venue_id := some 5
    manual_allocation_override := true }

def c9DB : DB :=
  { emptyDB with
    exams := [{ exam_id := 1, course_code := "E1", exam_name := "Alg"
                exam_type := "Exam", no_students := 5, exam_school := "Sci"
                school_contact := "" }]
    students := [{ student_id := "S1", student_name := "One" }]
    provRecs := [{ student_id := "S1", exam_id := 1
                   provisions := [pExtraTime100], notes := none }]
    studentExams := [c9SE]
    next_exam_id := 2, next_se_id := 2 }

/-- Claim C9, witnessed: a manually-overridden StudentExam survives a full
refresh run untouched. -/
theorem rerun_manual_override_sticky_witness :
    c9DB.studentExams.find? (seKey c9SE.student_id c9SE.exam_id) = some c9SE ∧
      (rerunState c9DB).studentExams.find?
        (seKey c9SE.student_id c9SE.exam_id) = some c9SE :=
  ⟨by decide,
   rerun_manual_override_sticky c9DB c9SE (by decide) (by decide) (by decide)
     (by decide)⟩

end Timetabling

namespace Timetabling

/-! ### Claim C7 — placeholder promotion -/

/-- Eligibility of a placeholder for promotion onto venue `v` against state
`st`, written from the specification's conditions (which match the guards of
`attach_placeholders_to_venue`). -/
def eligiblePlaceholder (v : Venue) (st : DB) (p : ExamVenue) : Prop :=
  p.provision_capabilities ≠ [] ∧
    venueSupportsCaps v p.provision_capabilities = true ∧
    (pAccessibleHall ∈ p.provision_capabilities → v.is_accessible = true) ∧
    venueIsAvailable v p.start_time = true ∧
    venueHasTimingConflict (some (venueRows st v.venue_name)) p.start_time
      p.exam_length (some p.exam_id) false = false

/-- Each loop iteration leaves the ExamVenue table unchanged, binds the
processed placeholder's venue in place, or deletes the processed row. -/
theorem attachStep_examVenues (v : Venue) (st : DB) (q : ExamVenue) :
    (attachStep v st q).examVenues = st.examVenues ∨
      (attachStep v st q).examVenues = st.examVenues.map
        (fun e => if e.examvenue_id = q.examvenue_id then
          { q with venue_name := some v.venue_name } else e) ∨
      (attachStep v st q).examVenues = st.examVenues.filter
        (fun e => e.examvenue_id ≠ q.examvenue_id) := by
  unfold attachStep
  simp only []
  split_ifs
  all_goals try exact Or.inl rfl
  split
  · exact Or.inr (Or.inr rfl)
  · exact Or.inr (Or.inl rfl)

theorem attachStep_mem_of_ne (v : Venue) (st : DB) (q : ExamVenue)
    {r : ExamVenue} (hr : r ∈ st.examVenues)
    (hne : r.examvenue_id ≠ q.examvenue_id) :
    r ∈ (attachStep v st q).examVenues := by
  rcases attachStep_examVenues v st q with he | he | he <;> rw [he]
  · exact hr
  · exact List.mem_map.mpr ⟨r, hr, by rw [if_neg hne]⟩
  · exact List.mem_filter.mpr ⟨hr, by simpa using hne⟩

theorem attachStep_ids_subset (v : Venue) (st : DB) (q : ExamVenue)
    {i : Nat} (hi : i ∈ (attachStep v st q).examVenues.map
      (fun e => e.examvenue_id)) :
    i ∈ st.examVenues.map (fun e => e.examvenue_id) := by
  rcases attachStep_examVenues v st q with he | he | he <;> rw [he] at hi
  · exact hi
  · rw [List.map_map] at hi
    obtain ⟨r, hr, hid⟩ := List.mem_map.mp hi
    refine List.mem_map.mpr ⟨r, hr, ?_⟩
    by_cases hc : r.examvenue_id = q.examvenue_id
    · simp only [Function.comp, if_pos hc] at hid
      rw [← hid, hc]
    · simp only [Function.comp, if_neg hc] at hid
      exact hid
  · obtain ⟨r, hr, hid⟩ := List.mem_map.mp hi
    exact List.mem_map.mpr ⟨r, (List.mem_filter.mp hr).1, hid⟩

theorem attachStep_ids_nodup (v : Venue) (st : DB) (q : ExamVenue)
    (hn : (st.examVenues.map (fun e => e.examvenue_id)).Nodup) :
    ((attachStep v st q).examVenues.map (fun e => e.examvenue_id)).Nodup := by
  rcases attachStep_examVenues v st q with he | he | he <;> rw [he]
  · exact hn
  · have : (st.examVenues.map (fun e => if e.examvenue_id = q.examvenue_id then
        { q with venue_name := some v.venue_name } else e)).map
          (fun e => e.examvenue_id) =
        st.examVenues.map (fun e => e.examvenue_id) := by
      rw [List.map_map]
      apply List.map_congr_left
      intro e _
      by_cases hc : e.examvenue_id = q.examvenue_id <;>
        simp [Function.comp, hc]
    rw [this]
    exact hn
  · exact List.Nodup.sublist (List.Sublist.map _ (List.filter_sublist _)) hn

end Timetabling

namespace Timetabling

theorem attachStep_empty_caps (v : Venue) (st : DB) (p : ExamVenue)
    (h : p.provision_capabilities = []) : attachStep v st p = st := by
  unfold attachStep
  simp only []
  rw [if_pos (by simp [h])]

theorem attachStep_promotes (v : Venue) (st : DB) (p : ExamVenue)
    (hmem : p ∈ st.examVenues) (helig : eligiblePlaceholder v st p) :
    ({ p with venue_name := some v.venue_name } ∈
        (attachStep v st p).examVenues) ∨
      p.examvenue_id ∉ (attachStep v st p).examVenues.map
        (fun e => e.examvenue_id) := by
  obtain ⟨h1, h2, h3, h4, h5⟩ := helig
  unfold attachStep
  simp only []
  rw [if_neg (fun hc => h1 (List.isEmpty_iff.mp hc)),
    if_neg (fun hc => hc h2),
    if_neg (fun hc => hc.2 (h3 hc.1)),
    if_neg (fun hc => hc h4),
    if_neg (fun hc => Bool.false_ne_true (h5 ▸ hc))]
  rcases hq : (st.examVenues.filter (fun e => e.exam_id = p.exam_id ∧
      e.venue_name = some v.venue_name ∧
      e.examvenue_id ≠ p.examvenue_id)).head? with _ | existing <;>
    rw [hq]
  · left
    unfold saveEV
    simp only []
    exact List.mem_map.mpr ⟨p, hmem, by rw [if_pos rfl]⟩
  · right
    intro hin
    unfold deleteEV at hin
    simp only [] at hin
    obtain ⟨r, hr, hid⟩ := List.mem_map.mp hin
    have := (List.mem_filter.mp hr).2
    simp only [decide_eq_true_eq] at this
    exact this hid

theorem attachStep_preserves_outcome (v : Venue) (st : DB) (q p : ExamVenue)
    (hne : q.examvenue_id ≠ p.examvenue_id)
    (h : ({ p with venue_name := some v.venue_name } ∈ st.examVenues) ∨
      p.examvenue_id ∉ st.examVenues.map (fun e => e.examvenue_id)) :
    ({ p with venue_name := some v.venue_name } ∈
        (attachStep v st q).examVenues) ∨
      p.examvenue_id ∉ (attachStep v st q).examVenues.map
        (fun e => e.examvenue_id) := by
  rcases h with h | h
  · exact Or.inl (attachStep_mem_of_ne v st q h hne.symm)
  · exact Or.inr (fun hin => h (attachStep_ids_subset v st q hin))

theorem attachFold_preserves_outcome (v : Venue) (p : ExamVenue) :
    ∀ (l : List ExamVenue) (st : DB),
      (∀ q ∈ l, q.examvenue_id ≠ p.examvenue_id) →
      (({ p with venue_name := some v.venue_name } ∈ st.examVenues) ∨
        p.examvenue_id ∉ st.examVenues.map (fun e => e.examvenue_id)) →
      (({ p with venue_name := some v.venue_name } ∈
          (l.foldl (attachStep v) st).examVenues) ∨
        p.examvenue_id ∉ (l.foldl (attachStep v) st).examVenues.map
          (fun e => e.examvenue_id))
  | [], st, _, h => h
  | q :: l, st, hl, h =>
    attachFold_preserves_outcome v p l (attachStep v st q)
      (fun r hr => hl r (List.mem_cons_of_mem q hr))
      (attachStep_preserves_outcome v st q p (hl q (List.mem_cons_self q l)) h)

theorem attachFold_mem (v : Venue) (p : ExamVenue) :
    ∀ (l : List ExamVenue) (st : DB),
      (∀ q ∈ l, q.examvenue_id ≠ p.examvenue_id) → p ∈ st.examVenues →
      p ∈ (l.foldl (attachStep v) st).examVenues
  | [], _, _, h => h
  | q :: l, st, hl, h =>
    attachFold_mem v p l (attachStep v st q)
      (fun r hr => hl r (List.mem_cons_of_mem q hr))
      (attachStep_mem_of_ne v st q h (fun hc =>
        hl q (List.mem_cons_self q l) hc.symm))

theorem attachFold_mem_or_self (v : Venue) (p : ExamVenue)
    (hcaps : p.provision_capabilities = []) :
    ∀ (l : List ExamVenue) (st : DB),
      (∀ q ∈ l, q.examvenue_id ≠ p.examvenue_id ∨ q = p) →
      p ∈ st.examVenues → p ∈ (l.foldl (attachStep v) st).examVenues
  | [], _, _, h => h
  | q :: l, st, hl, h => by
    refine attachFold_mem_or_self v p hcaps l (attachStep v st q)
      (fun r hr => hl r (List.mem_cons_of_mem q hr)) ?_
    rcases hl q (List.mem_cons_self q l) with hne | heq
    · exact attachStep_mem_of_ne v st q h (fun hc => hne hc.symm)
    · rw [heq, attachStep_empty_caps v st p hcaps]
      exact h

end Timetabling

namespace Timetabling

/-- Claim C7 (amended): under the snapshot semantics of
`attach_placeholders_to_venue` — the loop iterates over the placeholders
captured before any mutation — a placeholder `p` that is still eligible at
its own turn (i.e. against the state produced by the iterations before it)
is promoted: either some ExamVenue row with `p`'s id ends up bound to the
venue, or `p` was merged away (its id no longer exists).  Placeholders with
an empty capability list are never touched.  The claim's original form,
which evaluates eligibility against the pre-call state, is false: an earlier
placeholder's promotion can introduce a timing conflict for a later one
(see the counterexample). -/
theorem attach_placeholder_promotion (v : Venue) (s : DB)
    (pre post : List ExamVenue) (p : ExamVenue)
    (hn : (s.examVenues.map (fun e => e.examvenue_id)).Nodup)
    (hsnap : s.examVenues.filter (fun ev => ev.venue_name = none) =
      pre ++ p :: post) :
    (eligiblePlaceholder v (pre.foldl (attachStep v) s) p →
        (∃ q ∈ (attachPlaceholdersToVenue v s).examVenues,
            q.examvenue_id = p.examvenue_id ∧
            q.venue_name = some v.venue_name) ∨
          p.examvenue_id ∉ (attachPlaceholdersToVenue v s).examVenues.map
            (fun e => e.examvenue_id)) ∧
    (p.provision_capabilities = [] →
      p ∈ (attachPlaceholdersToVenue v s).examVenues) := by
  have hpsnap : p ∈ s.examVenues.filter (fun ev => ev.venue_name = none) := by
    rw [hsnap]
    exact List.mem_append_right _ (List.mem_cons_self p post)
  have hpmem : p ∈ s.examVenues := List.mem_of_mem_filter hpsnap
  have hsn : ((pre ++ p :: post).map (fun e => e.examvenue_id)).Nodup := by
    rw [← hsnap]
    exact List.Nodup.sublist (List.Sublist.map _ (List.filter_sublist _)) hn
  rw [List.map_append, List.map_cons, List.nodup_append] at hsn
  obtain ⟨hnpre, hncons, hdisj⟩ := hsn
  have hprene : ∀ q ∈ pre, q.examvenue_id ≠ p.examvenue_id := by
    intro q hq hc
    exact (hdisj (List.mem_map_of_mem _ hq))
      (by rw [hc]; exact List.mem_cons_self _ _)
  have hpostne : ∀ q ∈ post, q.examvenue_id ≠ p.examvenue_id := by
    intro q hq hc
    exact (List.nodup_cons.mp hncons).1
      (by rw [← hc]; exact List.mem_map_of_mem _ hq)
  have hunf : attachPlaceholdersToVenue v s =
      post.foldl (attachStep v)
        (attachStep v (pre.foldl (attachStep v) s) p) := by
    unfold attachPlaceholdersToVenue
    rw [hsnap, List.foldl_append, List.foldl_cons]
  constructor
  · intro helig
    rw [hunf]
    have hpmid : p ∈ (pre.foldl (attachStep v) s).examVenues :=
      attachFold_mem v p pre s hprene hpmem
    have hstep := attachStep_promotes v (pre.foldl (attachStep v) s) p
      hpmid helig
    rcases attachFold_preserves_outcome v p post _ hpostne hstep with h | h
    · exact Or.inl ⟨{ p with venue_name := some v.venue_name }, h, rfl, rfl⟩
    · exact Or.inr h
  · intro hcaps
    unfold attachPlaceholdersToVenue
    rw [hsnap]
    refine attachFold_mem_or_self v p hcaps _ s ?_ hpmem
    intro q hq
    rcases List.mem_append.mp hq with hq | hq
    · exact Or.inl (hprene q hq)
    · rcases List.mem_cons.mp hq with hq | hq
      · exact Or.inr hq
      · exact Or.inl (hpostne q hq)

end Timetabling

namespace Timetabling

instance (v : Venue) (st : DB) (p : ExamVenue) :
    Decidable (eligiblePlaceholder v st p) := by
  unfold eligiblePlaceholder
  infer_instance

/-- Venue with the separate-room capability, for the C7 counterexample. -/
def c7V : Venue :=
  { venue_name := "Room A", capacity := 10, venuetype := vtCoreExamVenue
    is_accessible := true, availability := []
    provision_capabilities := [pSepRoomOwn] }

/-- First placeholder: exam 1, 09:00 slot, needs a separate room. -/
def c7P1 : ExamVenue :=
  { examvenue_id := 1, exam_id := 1, venue_name := none
    start_time := some 32400, exam_length := some 60, core := false
    provision_capabilities := [pSepRoomOwn] }

/-- Second placeholder: exam 2, the same 09:00 slot, same requirement. -/
def c7P2 : ExamVenue :=
  { examvenue_id := 2, exam_id := 2, venue_name := none
    start_time := some 32400, exam_length := some 60, core := false
    provision_capabilities := [pSepRoomOwn] }

/-- State with the two competing placeholders. -/
def c7DB : DB :=
  { emptyDB with examVenues := [c7P1, c7P2], next_ev_id := 3 }

/-- Claim C7 counterexample: before the call, placeholder `c7P2` satisfies
every condition the claim lists (non-empty supported capabilities,
accessibility, availability, no timing conflict on the venue), yet after
`attach_placeholders_to_venue` it is still unbound: the loop promoted
`c7P1` first, and the newly bound row produces a timing conflict for
`c7P2`'s identical slot, so the universally quantified promotion claim is
false. -/
theorem attach_promotion_counterexample :
    eligiblePlaceholder c7V c7DB c7P2 ∧
      c7P2 ∈ c7DB.examVenues ∧ c7P2.venue_name = none ∧
      c7P2 ∈ (attachPlaceholdersToVenue c7V c7DB).examVenues := by
  decide

/-- Venue and single placeholder for the C7 witness. -/
def w7V : Venue :=
  { venue_name := "Quiet", capacity := 5, venuetype := vtCoreExamVenue
    is_accessible := true, availability := []
    provision_capabilities := [pSepRoomOwn] }

def w7P : ExamVenue :=
  { examvenue_id := 1, exam_id := 1, venue_name := none
    start_time := some 32400, exam_length := some 60, core := false
    provision_capabilities := [pSepRoomOwn] }

def w7DB : DB :=
  { emptyDB with examVenues := [w7P], next_ev_id := 2 }

/-- Claim C7, witnessed: on a concrete state with one eligible placeholder
the amended theorem yields the promoted, venue-bound row. -/
theorem attach_placeholder_promotion_witness :
    ∃ q ∈ (attachPlaceholdersToVenue w7V w7DB).examVenues,
      q.examvenue_id = w7P.examvenue_id ∧
      q.venue_name = some w7V.venue_name := by
  rcases (attach_placeholder_promotion w7V w7DB [] [] w7P (by decide)
      (by decide)).1 (by decide) with h | h
  · exact h
  · exact absurd (by decide : w7P.examvenue_id ∈
      (attachPlaceholdersToVenue w7V w7DB).examVenues.map
        (fun e => e.examvenue_id)) h

end Timetabling

namespace Timetabling

/-! ### Claim C8 — re-ingestion -/

/-- The exam whose `exam_id` the importer's first-match-wins lookup selects
for a course code. -/
def firstExamIdByCode (s : DB) (code : String) : Option Nat :=
  ((s.exams.filter (fun e => e.course_code = code)).head?).map
    (fun e => e.exam_id)

/-- Is some ExamVenue row already linking this exam to this venue name? -/
def hasEVLink (s : DB) (examId : Nat) (name : String) : Bool :=
  s.examVenues.any (fun ev => ev.exam_id = examId ∧ ev.venue_name = some name)

/-- Well-formedness of the AutoField bookkeeping: primary keys are distinct
and below the respective counters (true in every ORM state). -/
def dbIdsOk (s : DB) : Prop :=
  (s.exams.map (fun e => e.exam_id)).Nodup ∧
    (∀ e ∈ s.exams, e.exam_id < s.next_exam_id) ∧
    (s.examVenues.map (fun e => e.examvenue_id)).Nodup ∧
    (∀ ev ∈ s.examVenues, ev.examvenue_id < s.next_ev_id)

/-- Everything a row needs for the second import round to find instead of
create: the exam by course code, the venues by name, and the core links. -/
def rowEstablished (s : DB) (row : ExamRow) : Prop :=
  ∃ i, firstExamIdByCode s row.course_code = some i ∧
    ∀ name ∈ row.venue_names, (lookupVenue s name).isSome = true ∧
      hasEVLink s i name = true

theorem mem_dedupFirst_of_mem :
    ∀ (l seen : List String) (x : String), x ∈ l → x ∉ seen →
      x ∈ dedupFirst seen l
  | [], _, _, hx, _ => absurd hx (List.not_mem_nil _)
  | y :: l, seen, x, hx, hs => by
    unfold dedupFirst
    split_ifs with hy
    · rcases List.mem_cons.mp hx with hx | hx
      · exact absurd (hx ▸ hy) hs
      · exact mem_dedupFirst_of_mem l seen x hx hs
    · rcases List.mem_cons.mp hx with hx | hx
      · exact hx ▸ List.mem_cons_self _ _
      · by_cases hxy : x = y
        · exact hxy ▸ List.mem_cons_self _ _
        · exact List.mem_cons_of_mem _ (mem_dedupFirst_of_mem l (y :: seen) x hx
            (fun hm => (List.mem_cons.mp hm).elim hxy hs))

theorem mem_of_mem_dedupFirst :
    ∀ (l seen : List String) (x : String), x ∈ dedupFirst seen l → x ∈ l
  | [], _, _, hx => absurd hx (List.not_mem_nil _)
  | y :: l, seen, x, hx => by
    unfold dedupFirst at hx
    split_ifs at hx with hy
    · exact List.mem_cons_of_mem _ (mem_of_mem_dedupFirst l seen x hx)
    · rcases List.mem_cons.mp hx with hx | hx
      · exact hx ▸ List.mem_cons_self _ _
      · exact List.mem_cons_of_mem _ (mem_of_mem_dedupFirst l (y :: seen) x hx)

/-- A venue with no provision capabilities satisfies no non-empty capability
requirement. -/
theorem venueSupportsCaps_empty (v : Venue)
    (hv : v.provision_capabilities = []) (l : List String) (hl : l ≠ []) :
    venueSupportsCaps v l = false := by
  cases l with
  | nil => exact absurd rfl hl
  | cons a t =>
    unfold venueSupportsCaps
    rw [List.all_cons]
    have : (a ∈ v.provision_capabilities) = False := by
      rw [hv]; simp
    simp [this]

/-- Attaching placeholders to a capability-less venue is a no-op on every
placeholder. -/
theorem attachStep_no_caps (v : Venue) (hv : v.provision_capabilities = [])
    (st : DB) (q : ExamVenue) : attachStep v st q = st := by
  unfold attachStep
  simp only []
  by_cases hq : q.provision_capabilities.isEmpty
  · rw [if_pos hq]
  · rw [if_neg hq, if_pos]
    rw [venueSupportsCaps_empty v hv q.provision_capabilities
      (fun hc => hq (by rw [hc]; rfl))]
    simp

/-- `attach_placeholders_to_venue` is the identity for a venue without
provision capabilities (such as the core-exam venues the exam importer
creates). -/
theorem attachFold_no_caps (v : Venue) (hv : v.provision_capabilities = []) :
    ∀ (l : List ExamVenue) (st : DB), l.foldl (attachStep v) st = st
  | [], _ => rfl
  | q :: l, st => by
    rw [List.foldl_cons, attachStep_no_caps v hv st q]
    exact attachFold_no_caps v hv l st

theorem attachPlaceholders_no_caps (v : Venue)
    (hv : v.provision_capabilities = []) (s : DB) :
    attachPlaceholdersToVenue v s = s :=
  attachFold_no_caps v hv _ s

end Timetabling

namespace Timetabling

theorem normalizeVenueForSave_name (v : Venue) :
    (normalizeVenueForSave v).venue_name = v.venue_name := by
  unfold normalizeVenueForSave
  split_ifs <;> rfl

theorem normalizeVenueForSave_caps (v : Venue) :
    (normalizeVenueForSave v).provision_capabilities =
      v.provision_capabilities := by
  unfold normalizeVenueForSave
  split_ifs <;> rfl

/-- `get_or_create` for a venue whose defaults carry no capabilities: the
returned venue bears the requested name, and the state either is untouched
(found) or gains exactly that venue (created; the attach signal is a no-op
because the new venue has no capabilities). -/
theorem getOrCreateVenue_spec (s : DB) (name : String) (defaults : Venue)
    (hd : defaults.provision_capabilities = []) :
    ∃ v, getOrCreateVenue s name defaults =
      (v, if (lookupVenue s name).isSome then s
        else { s with venues := s.venues ++ [v] }) ∧
      v.venue_name = name := by
  unfold getOrCreateVenue
  rcases hl : lookupVenue s name with _ | v
  · simp only []
    refine ⟨normalizeVenueForSave { defaults with venue_name := name }, ?_, ?_⟩
    · simp only [Option.isSome_none, Bool.false_eq_true, if_false]
      rw [attachPlaceholders_no_caps _ (by rw [normalizeVenueForSave_caps]; exact hd)]
    · rw [normalizeVenueForSave_name]
  · simp only []
    refine ⟨v, ?_, ?_⟩
    · simp
    · have := List.find?_some hl
      simpa using this

theorem dbIdsOk_saveEV (s : DB) (ev : ExamVenue) (h : dbIdsOk s) :
    dbIdsOk (saveEV s ev) := by
  obtain ⟨h1, h2, h3, h4⟩ := h
  unfold saveEV
  simp only []
  refine ⟨h1, h2, ?_, ?_⟩
  · have : (s.examVenues.map (fun e =>
        if e.examvenue_id = ev.examvenue_id then ev else e)).map
          (fun e => e.examvenue_id) =
        s.examVenues.map (fun e => e.examvenue_id) := by
      rw [List.map_map]
      apply List.map_congr_left
      intro e _
      by_cases hc : e.examvenue_id = ev.examvenue_id <;> simp [Function.comp, hc]
    rw [this]
    exact h3
  · intro w hw
    obtain ⟨e, he, hee⟩ := List.mem_map.mp hw
    by_cases hc : e.examvenue_id = ev.examvenue_id
    · rw [if_pos hc] at hee
      rw [← hee, ← hc]
      exact h4 e he
    · rw [if_neg hc] at hee
      exact hee ▸ h4 e he

theorem dbIdsOk_createEV (s : DB) (examId : Nat) (venue : Option String)
    (start len : Option Int) (core : Bool) (caps : List String)
    (h : dbIdsOk s) :
    dbIdsOk (createEV s examId venue start len core caps).2 := by
  obtain ⟨h1, h2, h3, h4⟩ := h
  unfold createEV
  simp only []
  refine ⟨h1, h2, ?_, ?_⟩
  · rw [List.map_append, List.nodup_append]
    refine ⟨h3, List.nodup_singleton _, ?_⟩
    intro a ha hb
    obtain ⟨e, he, hee⟩ := List.mem_map.mp ha
    simp only [List.map_cons, List.map_nil, List.mem_singleton] at hb
    exact absurd (hee ▸ hb ▸ h4 e he) (lt_irrefl _)
  · intro w hw
    rcases List.mem_append.mp hw with hw | hw
    · exact Nat.lt_succ_of_lt (h4 w hw)
    · simp only [List.mem_singleton] at hw
      rw [hw]
      exact Nat.lt_succ_self _

theorem hasEVLink_saveEV (s : DB) (ev ev' : ExamVenue)
    (hmem : ev ∈ s.examVenues)
    (hn : (s.examVenues.map (fun e => e.examvenue_id)).Nodup)
    (hid : ev'.examvenue_id = ev.examvenue_id)
    (hex : ev'.exam_id = ev.exam_id) (hvn : ev'.venue_name = ev.venue_name)
    (i : Nat) (n : String) (h : hasEVLink s i n = true) :
    hasEVLink (saveEV s ev') i n = true := by
  unfold hasEVLink at h ⊢
  unfold saveEV
  simp only []
  rw [List.any_eq_true] at h ⊢
  obtain ⟨w, hw, hwp⟩ := h
  simp only [decide_eq_true_eq] at hwp
  by_cases hc : w.examvenue_id = ev'.examvenue_id
  · have hwev : w = ev := List.inj_on_of_nodup_map hn hw hmem (by rw [hc, hid])
    refine ⟨ev', List.mem_map.mpr ⟨w, hw, by rw [if_pos hc]⟩, ?_⟩
    simp only [decide_eq_true_eq]
    rw [hex, hvn, ← hwev]
    exact hwp
  · exact ⟨w, List.mem_map.mpr ⟨w, hw, by rw [if_neg hc]⟩, by
      simp only [decide_eq_true_eq]; exact hwp⟩

theorem hasEVLink_createEV (s : DB) (examId : Nat) (venue : Option String)
    (start len : Option Int) (core : Bool) (caps : List String)
    (i : Nat) (n : String) (h : hasEVLink s i n = true) :
    hasEVLink (createEV s examId venue start len core caps).2 i n = true := by
  unfold hasEVLink at h ⊢
  unfold createEV
  simp only []
  rw [List.any_eq_true] at h ⊢
  obtain ⟨w, hw, hwp⟩ := h
  exact ⟨w, List.mem_append_left _ hw, hwp⟩

theorem hasEVLink_createEV_self (s : DB) (examId : Nat) (n : String)
    (start len : Option Int) (core : Bool) (caps : List String) :
    hasEVLink (createEV s examId (some n) start len core caps).2 examId n
      = true := by
  unfold hasEVLink createEV
  simp only []
  rw [List.any_eq_true]
  exact ⟨_, List.mem_append_right _ (List.mem_singleton_self _), by simp⟩

end Timetabling

namespace Timetabling

theorem lookupVenue_append_mono (s : DB) (v : Venue) (n : String)
    (h : (lookupVenue s n).isSome = true) :
    (lookupVenue { s with venues := s.venues ++ [v] } n).isSome = true := by
  unfold lookupVenue at h ⊢
  simp only []
  rw [List.find?_append]
  rcases hf : s.venues.find? (fun v => v.venue_name = n) with _ | w
  · rw [hf] at h
    cases h
  · rw [hf]
    rfl

theorem lookupVenue_append_self (s : DB) (v : Venue) :
    (lookupVenue { s with venues := s.venues ++ [v] } v.venue_name).isSome
      = true := by
  unfold lookupVenue
  simp only []
  rw [List.find?_append]
  rcases hf : s.venues.find? (fun w => w.venue_name = v.venue_name) with _ | w
  · rw [hf]
    simp
  · rw [hf]
    rfl

/-- The save branch of the link upsert, for any refreshed timing fields. -/
theorem evlSave_pres (st1 : DB) (ev : ExamVenue) (examId : Nat)
    (vname : String) (hmem : ev ∈ st1.examVenues) (h : dbIdsOk st1)
    (hprop : ev.exam_id = examId ∧ ev.venue_name = some vname)
    (start2 len2 : Option Int) :
    dbIdsOk (saveEV st1 { ev with start_time := start2, exam_length := len2 }) ∧
    (saveEV st1 { ev with start_time := start2, exam_length := len2 }).exams
      = st1.exams ∧
    (saveEV st1 { ev with start_time := start2, exam_length := len2 }).venues
      = st1.venues ∧
    (∀ i n, hasEVLink st1 i n = true →
      hasEVLink (saveEV st1 { ev with start_time := start2, exam_length := len2 }) i n = true) ∧
    hasEVLink (saveEV st1 { ev with start_time := start2, exam_length := len2 }) examId vname = true := by
  refine ⟨dbIdsOk_saveEV st1 _ h, rfl, rfl, ?_, ?_⟩
  · intro i n hl
    exact hasEVLink_saveEV st1 ev { ev with start_time := start2, exam_length := len2 } hmem h.2.2.1 rfl rfl rfl i n hl
  · unfold hasEVLink saveEV
    simp only []
    rw [List.any_eq_true]
    refine ⟨_, List.mem_map.mpr ⟨ev, hmem, by rw [if_pos rfl]⟩, ?_⟩
    simp only [decide_eq_true_eq]
    exact hprop

/-- The core link upsert: preserves id bookkeeping, exams and venues,
existing links, and guarantees the `(examId, vname)` link afterwards. -/
theorem evlCore_pres (examId : Nat) (start len : Option Int) (st1 : DB)
    (vname : String) (h : dbIdsOk st1) :
    dbIdsOk (examVenueLinkCore examId start len st1 vname) ∧
    (examVenueLinkCore examId start len st1 vname).exams = st1.exams ∧
    (examVenueLinkCore examId start len st1 vname).venues = st1.venues ∧
    (∀ i n, hasEVLink st1 i n = true →
      hasEVLink (examVenueLinkCore examId start len st1 vname) i n = true) ∧
    hasEVLink (examVenueLinkCore examId start len st1 vname) examId vname
      = true := by
  unfold examVenueLinkCore
  rcases hev : (st1.examVenues.filter (fun e => e.exam_id = examId ∧
      e.venue_name = some vname)).head? with _ | ev <;> rw [hev] <;> simp only []
  · refine ⟨dbIdsOk_createEV st1 examId (some vname) start len true [] h,
      rfl, rfl, ?_, ?_⟩
    · intro i n hl
      exact hasEVLink_createEV st1 examId (some vname) start len true [] i n hl
    · exact hasEVLink_createEV_self st1 examId vname start len true []
  · have hmemf := mem_of_head?_eq hev
    have hmem : ev ∈ st1.examVenues := (List.mem_filter.mp hmemf).1
    have hprop := (List.mem_filter.mp hmemf).2
    simp only [decide_eq_true_eq] at hprop
    split_ifs
    all_goals first
      | exact ⟨h, rfl, rfl, fun i n hl => hl, by
          unfold hasEVLink
          rw [List.any_eq_true]
          exact ⟨ev, hmem, by simp only [decide_eq_true_eq]; exact hprop⟩⟩
      | exact evlSave_pres st1 ev examId vname hmem h hprop _ _

/-- The link upsert leaves the row count unchanged once the link exists. -/
theorem evlCore_length (examId : Nat) (start len : Option Int) (st1 : DB)
    (vname : String) (hl : hasEVLink st1 examId vname = true) :
    (examVenueLinkCore examId start len st1 vname).examVenues.length =
      st1.examVenues.length ∧
    (examVenueLinkCore examId start len st1 vname).exams.length =
      st1.exams.length ∧
    (examVenueLinkCore examId start len st1 vname).venues.length =
      st1.venues.length := by
  unfold examVenueLinkCore
  have hne : st1.examVenues.filter (fun e => e.exam_id = examId ∧
      e.venue_name = some vname) ≠ [] := by
    unfold hasEVLink at hl
    rw [List.any_eq_true] at hl
    obtain ⟨w, hw, hwp⟩ := hl
    exact List.ne_nil_of_mem (List.mem_filter.mpr ⟨hw, hwp⟩)
  rcases hfe : st1.examVenues.filter (fun e => e.exam_id = examId ∧
      e.venue_name = some vname) with _ | ⟨e0, t⟩
  · exact absurd hfe hne
  · rw [hfe]
    simp only [List.head?_cons]
    split_ifs
    all_goals first
      | exact ⟨rfl, rfl, rfl⟩
      | exact ⟨by unfold saveEV; simp only []; rw [List.length_map], rfl, rfl⟩

end Timetabling

namespace Timetabling

theorem evlStep_pres (examId : Nat) (start len : Option Int) (st : DB)
    (name : String) (h : dbIdsOk st) :
    dbIdsOk (examVenueLinkStep examId start len st name) ∧
    (examVenueLinkStep examId start len st name).exams = st.exams ∧
    (∀ n, (lookupVenue st n).isSome = true →
      (lookupVenue (examVenueLinkStep examId start len st name) n).isSome
        = true) ∧
    (∀ i n, hasEVLink st i n = true →
      hasEVLink (examVenueLinkStep examId start len st name) i n = true) ∧
    (lookupVenue (examVenueLinkStep examId start len st name) name).isSome
      = true ∧
    hasEVLink (examVenueLinkStep examId start len st name) examId name
      = true := by
  obtain ⟨v, hg, hvn⟩ := getOrCreateVenue_spec st name
    { venue_name := name, capacity := 0, venuetype := vtCoreExamVenue
      is_accessible := true, availability := [], provision_capabilities := [] }
    rfl
  unfold examVenueLinkStep
  simp only []
  rw [hg]
  simp only []
  by_cases hls : (lookupVenue st name).isSome = true
  · rw [if_pos hls]
    obtain ⟨hc1, hc2, hc3, hc4, hc5⟩ :=
      evlCore_pres examId start len st v.venue_name h
    have hlv : ∀ n, lookupVenue
        (examVenueLinkCore examId start len st v.venue_name) n =
        lookupVenue st n := by
      intro n
      unfold lookupVenue
      rw [hc3]
    refine ⟨hc1, hc2, fun n hn => by rw [hlv n]; exact hn, hc4, ?_, ?_⟩
    · rw [hlv name]
      exact hls
    · rw [← hvn]
      exact hc5
  · rw [if_neg hls]
    have h1 : dbIdsOk { st with venues := st.venues ++ [v] } := h
    obtain ⟨hc1, hc2, hc3, hc4, hc5⟩ :=
      evlCore_pres examId start len { st with venues := st.venues ++ [v] }
        v.venue_name h1
    have hlv : ∀ n, lookupVenue (examVenueLinkCore examId start len
        { st with venues := st.venues ++ [v] } v.venue_name) n =
        lookupVenue { st with venues := st.venues ++ [v] } n := by
      intro n
      unfold lookupVenue
      rw [hc3]
    refine ⟨hc1, hc2, ?_, hc4, ?_, ?_⟩
    · intro n hn
      rw [hlv n]
      exact lookupVenue_append_mono st v n hn
    · rw [hlv name, ← hvn]
      exact lookupVenue_append_self st v
    · rw [← hvn]
      exact hc5

theorem evlStep_length (examId : Nat) (start len : Option Int) (st : DB)
    (name : String) (hv : (lookupVenue st name).isSome = true)
    (hl : hasEVLink st examId name = true) :
    (examVenueLinkStep examId start len st name).venues.length
      = st.venues.length ∧
    (examVenueLinkStep examId start len st name).examVenues.length
      = st.examVenues.length ∧
    (examVenueLinkStep examId start len st name).exams.length
      = st.exams.length := by
  obtain ⟨v, hg, hvn⟩ := getOrCreateVenue_spec st name
    { venue_name := name, capacity := 0, venuetype := vtCoreExamVenue
      is_accessible := true, availability := [], provision_capabilities := [] }
    rfl
  unfold examVenueLinkStep
  simp only []
  rw [hg, if_pos hv]
  simp only []
  obtain ⟨hn1, hn2, hn3⟩ := evlCore_length examId start len st v.venue_name
    (by rw [hvn]; exact hl)
  exact ⟨hn3, hn1, hn2⟩

end Timetabling

namespace Timetabling

theorem evlFold_pres (examId : Nat) (start len : Option Int) :
    ∀ (names : List String) (st : DB), dbIdsOk st →
      dbIdsOk (names.foldl (examVenueLinkStep examId start len) st) ∧
      (names.foldl (examVenueLinkStep examId start len) st).exams = st.exams ∧
      (∀ n, (lookupVenue st n).isSome = true →
        (lookupVenue (names.foldl (examVenueLinkStep examId start len) st)
          n).isSome = true) ∧
      (∀ i n, hasEVLink st i n = true →
        hasEVLink (names.foldl (examVenueLinkStep examId start len) st) i n
          = true) ∧
      (∀ n ∈ names,
        (lookupVenue (names.foldl (examVenueLinkStep examId start len) st)
          n).isSome = true ∧
        hasEVLink (names.foldl (examVenueLinkStep examId start len) st)
          examId n = true)
  | [], st, h =>
    ⟨h, rfl, fun _ hn => hn, fun _ _ hl => hl,
      fun n hn => absurd hn (List.not_mem_nil n)⟩
  | name :: names, st, h => by
    obtain ⟨hs1, hs2, hs3, hs4, hs5, hs6⟩ :=
      evlStep_pres examId start len st name h
    obtain ⟨hf1, hf2, hf3, hf4, hf5⟩ :=
      evlFold_pres examId start len names
        (examVenueLinkStep examId start len st name) hs1
    rw [List.foldl_cons]
    refine ⟨hf1, hf2.trans hs2, fun n hn => hf3 n (hs3 n hn),
      fun i n hl => hf4 i n (hs4 i n hl), ?_⟩
    intro n hn
    rcases List.mem_cons.mp hn with hn | hn
    · exact ⟨hn ▸ hf3 name hs5, hn ▸ hf4 examId name hs6⟩
    · exact hf5 n hn

theorem evlFold_length (examId : Nat) (start len : Option Int) :
    ∀ (names : List String) (st : DB), dbIdsOk st →
      (∀ n ∈ names, (lookupVenue st n).isSome = true ∧
        hasEVLink st examId n = true) →
      (names.foldl (examVenueLinkStep examId start len) st).venues.length
        = st.venues.length ∧
      (names.foldl (examVenueLinkStep examId start len) st).examVenues.length
        = st.examVenues.length ∧
      (names.foldl (examVenueLinkStep examId start len) st).exams.length
        = st.exams.length
  | [], _, _, _ => ⟨rfl, rfl, rfl⟩
  | name :: names, st, h, hall => by
    obtain ⟨hs1, _, hs3, hs4, _, _⟩ := evlStep_pres examId start len st name h
    obtain ⟨hl1, hl2, hl3⟩ := evlStep_length examId start len st name
      (hall name (List.mem_cons_self _ _)).1
      (hall name (List.mem_cons_self _ _)).2
    obtain ⟨hf1, hf2, hf3⟩ := evlFold_length examId start len names
      (examVenueLinkStep examId start len st name) hs1
      (fun n hn => ⟨hs3 n (hall n (List.mem_cons_of_mem _ hn)).1,
        hs4 examId n (hall n (List.mem_cons_of_mem _ hn)).2⟩)
    rw [List.foldl_cons]
    exact ⟨hf1.trans hl1, hf2.trans hl2, hf3.trans hl3⟩

/-- `_create_exam_venue_links` preservation and establishment. -/
theorem createLinks_pres (examId : Nat) (venueNames : List String)
    (start len : Option Int) (st : DB) (h : dbIdsOk st) :
    dbIdsOk (createExamVenueLinks examId venueNames start len st) ∧
    (createExamVenueLinks examId venueNames start len st).exams = st.exams ∧
    (∀ n, (lookupVenue st n).isSome = true →
      (lookupVenue (createExamVenueLinks examId venueNames start len st)
        n).isSome = true) ∧
    (∀ i n, hasEVLink st i n = true →
      hasEVLink (createExamVenueLinks examId venueNames start len st) i n
        = true) ∧
    (∀ n ∈ venueNames,
      (lookupVenue (createExamVenueLinks examId venueNames start len st)
        n).isSome = true ∧
      hasEVLink (createExamVenueLinks examId venueNames start len st)
        examId n = true) := by
  obtain ⟨hf1, hf2, hf3, hf4, hf5⟩ :=
    evlFold_pres examId start len (dedupFirst [] venueNames) st h
  exact ⟨hf1, hf2, hf3, hf4, fun n hn => hf5 n
    (mem_dedupFirst_of_mem venueNames [] n hn (List.not_mem_nil n))⟩

theorem createLinks_length (examId : Nat) (venueNames : List String)
    (start len : Option Int) (st : DB) (h : dbIdsOk st)
    (hall : ∀ n ∈ venueNames, (lookupVenue st n).isSome = true ∧
      hasEVLink st examId n = true) :
    (createExamVenueLinks examId venueNames start len st).venues.length
      = st.venues.length ∧
    (createExamVenueLinks examId venueNames start len st).examVenues.length
      = st.examVenues.length ∧
    (createExamVenueLinks examId venueNames start len st).exams.length
      = st.exams.length :=
  evlFold_length examId start len (dedupFirst [] venueNames) st h
    (fun n hn => hall n (mem_of_mem_dedupFirst venueNames [] n hn))

end Timetabling

namespace Timetabling

theorem head_filter_append_of_some {α : Type} (p : α → Bool)
    (l1 l2 : List α) (x : α) (h : (l1.filter p).head? = some x) :
    ((l1 ++ l2).filter p).head? = some x := by
  rw [List.filter_append]
  rcases hf : l1.filter p with _ | ⟨a, t⟩
  · rw [hf] at h
    cases h
  · rw [hf] at h
    rw [List.cons_append, List.head?_cons]
    rw [List.head?_cons] at h
    exact h

theorem filter_map_exams (f : Exam → Exam) (c : String) :
    ∀ (l : List Exam),
      (∀ e ∈ l, (f e).course_code = e.course_code ∧ (f e).exam_id = e.exam_id) →
      (((l.map f).filter (fun e => e.course_code = c)).head?).map
          (fun e => e.exam_id) =
        ((l.filter (fun e => e.course_code = c)).head?).map
          (fun e => e.exam_id)
  | [], _ => rfl
  | e :: l, hf => by
    rw [List.map_cons, List.filter_cons, List.filter_cons]
    have hc : (f e).course_code = e.course_code :=
      (hf e (List.mem_cons_self _ _)).1
    by_cases hec : e.course_code = c
    · rw [hc, hec]
      simp only [decide_True, if_true, List.head?_cons]
      rw [Option.map_some', Option.map_some', (hf e (List.mem_cons_self _ _)).2]
    · have : decide ((f e).course_code = c) = false := by
        rw [hc]
        exact decide_eq_false hec
      rw [this, decide_eq_false hec]
      simp only [Bool.false_eq_true, if_false]
      exact filter_map_exams f c l (fun x hx => hf x (List.mem_cons_of_mem _ hx))

theorem rowEstablished_mono {s s2 : DB}
    (hfe : ∀ c i, firstExamIdByCode s c = some i →
      firstExamIdByCode s2 c = some i)
    (hlv : ∀ n, (lookupVenue s n).isSome = true →
      (lookupVenue s2 n).isSome = true)
    (hln : ∀ i n, hasEVLink s i n = true → hasEVLink s2 i n = true)
    {r : ExamRow} (h : rowEstablished s r) : rowEstablished s2 r := by
  obtain ⟨i, hi, hall⟩ := h
  exact ⟨i, hfe _ i hi, fun n hn =>
    ⟨hlv n (hall n hn).1, hln i n (hall n hn).2⟩⟩

end Timetabling

namespace Timetabling

theorem firstExamIdByCode_eq_of_exams (s1 s2 : DB) (h : s1.exams = s2.exams)
    (c : String) : firstExamIdByCode s1 c = firstExamIdByCode s2 c := by
  unfold firstExamIdByCode
  rw [h]

theorem dbIdsOk_exam_append (s : DB) (e : Exam)
    (hid : e.exam_id = s.next_exam_id) (h : dbIdsOk s) :
    dbIdsOk { s with exams := s.exams ++ [e]
                     next_exam_id := s.next_exam_id + 1 } := by
  obtain ⟨h1, h2, h3, h4⟩ := h
  refine ⟨?_, ?_, h3, h4⟩
  · rw [List.map_append, List.nodup_append]
    refine ⟨h1, List.nodup_singleton _, ?_⟩
    intro a ha hb
    obtain ⟨w, hw, hww⟩ := List.mem_map.mp ha
    simp only [List.map_cons, List.map_nil, List.mem_singleton] at hb
    rw [hid] at hb
    exact absurd (hww ▸ hb ▸ h2 w hw) (lt_irrefl _)
  · intro w hw
    rcases List.mem_append.mp hw with hw | hw
    · exact Nat.lt_succ_of_lt (h2 w hw)
    · simp only [List.mem_singleton] at hw
      rw [hw, hid]
      exact Nat.lt_succ_self _

theorem dbIdsOk_exam_map (s : DB) (f : Exam → Exam)
    (hf : ∀ e ∈ s.exams, (f e).exam_id = e.exam_id) (h : dbIdsOk s) :
    dbIdsOk { s with exams := s.exams.map f } := by
  obtain ⟨h1, h2, h3, h4⟩ := h
  have hmm : (s.exams.map f).map (fun e => e.exam_id) =
      s.exams.map (fun e => e.exam_id) := by
    rw [List.map_map]
    exact List.map_congr_left (fun e he => by
      simp only [Function.comp]
      exact hf e he)
  refine ⟨?_, ?_, h3, h4⟩
  · rw [hmm]
    exact h1
  · intro w hw
    obtain ⟨e, he, hee⟩ := List.mem_map.mp hw
    rw [← hee, hf e he]
    exact h2 e he

/-- Preservation and establishment for the venue-link stage of an exam row,
once the exam upsert stage `st1` is known to behave. -/
theorem examStage_pres (st st1 : DB) (exam : Exam) (names : List String)
    (start len : Option Int) (h1 : dbIdsOk st1)
    (hfc : ∀ c i, firstExamIdByCode st c = some i →
      firstExamIdByCode st1 c = some i)
    (hlv : st1.venues = st.venues) (hev : st1.examVenues = st.examVenues)
    (hself : firstExamIdByCode st1 exam.course_code = some exam.exam_id) :
    dbIdsOk (createExamVenueLinks exam.exam_id names start len st1) ∧
    (∀ c i, firstExamIdByCode st c = some i →
      firstExamIdByCode (createExamVenueLinks exam.exam_id names start len st1)
        c = some i) ∧
    (∀ n, (lookupVenue st n).isSome = true →
      (lookupVenue (createExamVenueLinks exam.exam_id names start len st1)
        n).isSome = true) ∧
    (∀ i n, hasEVLink st i n = true →
      hasEVLink (createExamVenueLinks exam.exam_id names start len st1) i n
        = true) ∧
    firstExamIdByCode (createExamVenueLinks exam.exam_id names start len st1)
      exam.course_code = some exam.exam_id ∧
    (∀ n ∈ names,
      (lookupVenue (createExamVenueLinks exam.exam_id names start len st1)
        n).isSome = true ∧
      hasEVLink (createExamVenueLinks exam.exam_id names start len st1)
        exam.exam_id n = true) := by
  obtain ⟨hc1, hc2, hc3, hc4, hc5⟩ :=
    createLinks_pres exam.exam_id names start len st1 h1
  have hfcl : ∀ c, firstExamIdByCode
      (createExamVenueLinks exam.exam_id names start len st1) c =
      firstExamIdByCode st1 c :=
    fun c => firstExamIdByCode_eq_of_exams _ _ hc2 c
  have hlv1 : ∀ n, (lookupVenue st n).isSome = true →
      (lookupVenue st1 n).isSome = true := by
    intro n hn
    unfold lookupVenue at hn ⊢
    rw [hlv]
    exact hn
  have hev1 : ∀ i n, hasEVLink st i n = true → hasEVLink st1 i n = true := by
    intro i n hl
    unfold hasEVLink at hl ⊢
    rw [hev]
    exact hl
  refine ⟨hc1, ?_, ?_, ?_, ?_, hc5⟩
  · intro c i hi
    rw [hfcl c]
    exact hfc c i hi
  · intro n hn
    exact hc3 n (hlv1 n hn)
  · intro i n hl
    exact hc4 i n (hev1 i n hl)
  · rw [hfcl]
    exact hself

end Timetabling


namespace Timetabling

theorem buildExamPayload_code (row : ExamRow) (p : ExamPayload)
    (h : buildExamPayload row = some p) : p.course_code = row.course_code := by
  unfold buildExamPayload at h
  split_ifs at h
  all_goals first
    | (injection h with hh; rw [← hh]; try rfl)
    | cases h

theorem firstExamIdByCode_append_mono (st : DB) (e : Exam) (m : Nat)
    (c : String) (i : Nat) (hi : firstExamIdByCode st c = some i) :
    firstExamIdByCode { st with exams := st.exams ++ [e], next_exam_id := m }
      c = some i := by
  unfold firstExamIdByCode at hi ⊢
  simp only []
  rcases hh : (st.exams.filter (fun x => x.course_code = c)).head? with _ | e0
  · rw [hh] at hi
    cases hi
  · rw [head_filter_append_of_some _ _ _ _ hh]
    rw [hh] at hi
    exact hi

theorem firstExamIdByCode_append_self (st : DB) (e : Exam) (m : Nat)
    (hfe : st.exams.filter (fun x => x.course_code = e.course_code) = []) :
    firstExamIdByCode { st with exams := st.exams ++ [e], next_exam_id := m }
      e.course_code = some e.exam_id := by
  unfold firstExamIdByCode
  simp only []
  rw [List.filter_append, hfe, List.nil_append, List.filter_cons]
  simp

theorem exam_update_pointwise (st : DB) (exam0 exam1 : Exam)
    (hn : (st.exams.map (fun e => e.exam_id)).Nodup)
    (hmem0 : exam0 ∈ st.exams)
    (hcc : exam1.course_code = exam0.course_code)
    (hid : exam1.exam_id = exam0.exam_id) :
    ∀ e ∈ st.exams,
      ((fun x => if x.exam_id = exam0.exam_id then exam1 else x)
        e).course_code = e.course_code ∧
      ((fun x => if x.exam_id = exam0.exam_id then exam1 else x)
        e).exam_id = e.exam_id := by
  intro e he
  by_cases hc : e.exam_id = exam0.exam_id
  · have he0 : e = exam0 := List.inj_on_of_nodup_map hn he hmem0 hc
    simp only []
    rw [if_pos hc, he0, hcc, hid]
    exact ⟨rfl, rfl⟩
  · simp only []
    rw [if_neg hc]
    exact ⟨rfl, rfl⟩

end Timetabling

namespace Timetabling

theorem examRowStep_pres (st : DB) (sum : Summary) (idx : Nat) (row : ExamRow)
    (h : dbIdsOk st) :
    dbIdsOk (importExamRowStep st sum idx row).1 ∧
    (∀ c i, firstExamIdByCode st c = some i →
      firstExamIdByCode (importExamRowStep st sum idx row).1 c = some i) ∧
    (∀ n, (lookupVenue st n).isSome = true →
      (lookupVenue (importExamRowStep st sum idx row).1 n).isSome = true) ∧
    (∀ i n, hasEVLink st i n = true →
      hasEVLink (importExamRowStep st sum idx row).1 i n = true) ∧
    (buildExamPayload row ≠ none →
      rowEstablished (importExamRowStep st sum idx row).1 row) := by
  unfold importExamRowStep
  rcases hp : buildExamPayload row with _ | payload
  · simp only []
    exact ⟨h, fun c i hi => hi, fun n hn => hn, fun i n hl => hl,
      fun hne => absurd rfl hne⟩
  · simp only []
    have hpc : payload.course_code = row.course_code :=
      buildExamPayload_code row payload hp
    rcases hfe : st.exams.filter (fun e => e.course_code = payload.course_code)
      with _ | ⟨exam0, tl⟩
    · rw [hfe]
      have hfc : ∀ c i, firstExamIdByCode st c = some i →
          firstExamIdByCode { st with exams := st.exams ++ [{ exam_id := st.next_exam_id, course_code := payload.course_code, exam_name := payload.exam_name, exam_type := payload.exam_type, no_students := payload.no_students, exam_school := payload.exam_school, school_contact := payload.school_contact }], next_exam_id := st.next_exam_id + 1 } c = some i :=
        fun c i hi => firstExamIdByCode_append_mono st { exam_id := st.next_exam_id, course_code := payload.course_code, exam_name := payload.exam_name, exam_type := payload.exam_type, no_students := payload.no_students, exam_school := payload.exam_school, school_contact := payload.school_contact } (st.next_exam_id + 1) c i hi
      have hself : firstExamIdByCode { st with exams := st.exams ++ [{ exam_id := st.next_exam_id, course_code := payload.course_code, exam_name := payload.exam_name, exam_type := payload.exam_type, no_students := payload.no_students, exam_school := payload.exam_school, school_contact := payload.school_contact }], next_exam_id := st.next_exam_id + 1 } (ExamPayload.course_code payload) = some st.next_exam_id :=
        firstExamIdByCode_append_self st { exam_id := st.next_exam_id, course_code := payload.course_code, exam_name := payload.exam_name, exam_type := payload.exam_type, no_students := payload.no_students, exam_school := payload.exam_school, school_contact := payload.school_contact } (st.next_exam_id + 1) hfe
      obtain ⟨hs1, hs2, hs3, hs4, hs5, hs6⟩ := examStage_pres st _ { exam_id := st.next_exam_id, course_code := payload.course_code, exam_name := payload.exam_name, exam_type := payload.exam_type, no_students := payload.no_students, exam_school := payload.exam_school, school_contact := payload.school_contact } row.venue_names payload.start_time payload.exam_length (dbIdsOk_exam_append st { exam_id := st.next_exam_id, course_code := payload.course_code, exam_name := payload.exam_name, exam_type := payload.exam_type, no_students := payload.no_students, exam_school := payload.exam_school, school_contact := payload.school_contact } rfl h) hfc rfl rfl hself
      exact ⟨hs1, hs2, hs3, hs4, fun _ =>
        ⟨st.next_exam_id, by rw [← hpc]; exact hs5, hs6⟩⟩
    · rw [hfe]
      have hmem0 : exam0 ∈ st.exams := by
        have hmf := hfe ▸ List.mem_cons_self exam0 tl
        exact (List.mem_filter.mp hmf).1
      have hcc0 : exam0.course_code = payload.course_code := by
        have hmf := hfe ▸ List.mem_cons_self exam0 tl
        have := (List.mem_filter.mp hmf).2
        simpa using this
      have hfpt := exam_update_pointwise st exam0 { exam0 with exam_name := payload.exam_name, exam_type := payload.exam_type, no_students := payload.no_students, exam_school := payload.exam_school, school_contact := payload.school_contact } h.1 hmem0 rfl rfl
      have hmapfc : ∀ c, firstExamIdByCode { st with exams := st.exams.map (fun x => if x.exam_id = exam0.exam_id then { exam0 with exam_name := payload.exam_name, exam_type := payload.exam_type, no_students := payload.no_students, exam_school := payload.exam_school, school_contact := payload.school_contact } else x) } c = firstExamIdByCode st c := by
        intro c
        unfold firstExamIdByCode
        simp only []
        exact filter_map_exams _ c st.exams hfpt
      have hself2 : firstExamIdByCode { st with exams := st.exams.map (fun x => if x.exam_id = exam0.exam_id then { exam0 with exam_name := payload.exam_name, exam_type := payload.exam_type, no_students := payload.no_students, exam_school := payload.exam_school, school_contact := payload.school_contact } else x) } (Exam.course_code exam0) = some exam0.exam_id := by
        rw [hmapfc]
        rw [hcc0]
        unfold firstExamIdByCode
        rw [hfe]
        rfl
      obtain ⟨hs1, hs2, hs3, hs4, hs5, hs6⟩ := examStage_pres st _ { exam0 with exam_name := payload.exam_name, exam_type := payload.exam_type, no_students := payload.no_students, exam_school := payload.exam_school, school_contact := payload.school_contact } row.venue_names payload.start_time payload.exam_length (dbIdsOk_exam_map st (fun x => if x.exam_id = exam0.exam_id then { exam0 with exam_name := payload.exam_name, exam_type := payload.exam_type, no_students := payload.no_students, exam_school := payload.exam_school, school_contact := payload.school_contact } else x) (fun e he => (hfpt e he).2) h) (fun c i hi => by rw [hmapfc]; exact hi) rfl rfl hself2
      refine ⟨hs1, hs2, hs3, hs4, fun _ => ⟨exam0.exam_id, ?_, hs6⟩⟩
      rw [← hpc, ← hcc0]
      exact hs5

end Timetabling

namespace Timetabling

theorem examRowStep_second (st : DB) (sum : Summary) (idx : Nat)
    (row : ExamRow) (h : dbIdsOk st)
    (hr : buildExamPayload row = none ∨ rowEstablished st row) :
    (importExamRowStep st sum idx row).2.created = sum.created ∧
    (importExamRowStep st sum idx row).1.exams.length = st.exams.length ∧
    (importExamRowStep st sum idx row).1.venues.length = st.venues.length ∧
    (importExamRowStep st sum idx row).1.examVenues.length
      = st.examVenues.length := by
  unfold importExamRowStep
  rcases hp : buildExamPayload row with _ | payload
  · exact ⟨rfl, rfl, rfl, rfl⟩
  · simp only []
    rcases hr with hr | hr
    · rw [hp] at hr
      cases hr
    have hpc : payload.course_code = row.course_code :=
      buildExamPayload_code row payload hp
    obtain ⟨i, hi, hall⟩ := hr
    rcases hfe : st.exams.filter (fun e => e.course_code = payload.course_code)
      with _ | ⟨exam0, tl⟩
    · unfold firstExamIdByCode at hi
      rw [← hpc] at hi
      rw [hfe] at hi
      cases hi
    · rw [hfe]
      have hie : i = exam0.exam_id := by
        unfold firstExamIdByCode at hi
        rw [← hpc] at hi
        rw [hfe] at hi
        simp only [List.head?_cons, Option.map_some'] at hi
        injection hi with hii
        rw [hii]
      have hmem0 : exam0 ∈ st.exams := by
        have hmf := hfe ▸ List.mem_cons_self exam0 tl
        exact (List.mem_filter.mp hmf).1
      have hfpt := exam_update_pointwise st exam0 { exam0 with exam_name := payload.exam_name, exam_type := payload.exam_type, no_students := payload.no_students, exam_school := payload.exam_school, school_contact := payload.school_contact } h.1 hmem0 rfl rfl
      have hok1 : dbIdsOk { st with exams := st.exams.map (fun x => if x.exam_id = exam0.exam_id then { exam0 with exam_name := payload.exam_name, exam_type := payload.exam_type, no_students := payload.no_students, exam_school := payload.exam_school, school_contact := payload.school_contact } else x) } :=
        dbIdsOk_exam_map st (fun x => if x.exam_id = exam0.exam_id then { exam0 with exam_name := payload.exam_name, exam_type := payload.exam_type, no_students := payload.no_students, exam_school := payload.exam_school, school_contact := payload.school_contact } else x) (fun e he => (hfpt e he).2) h
      have hlens := createLinks_length (Exam.exam_id exam0) row.venue_names
        payload.start_time payload.exam_length
        { st with exams := st.exams.map (fun x => if x.exam_id = exam0.exam_id then { exam0 with exam_name := payload.exam_name, exam_type := payload.exam_type, no_students := payload.no_students, exam_school := payload.exam_school, school_contact := payload.school_contact } else x) } hok1
        (fun n hn => by
          have := hall n hn
          rw [hie] at this
          exact this)
      obtain ⟨hc1, hc2, hc3, hc4, hc5⟩ := createLinks_pres (Exam.exam_id exam0)
        row.venue_names payload.start_time payload.exam_length
        { st with exams := st.exams.map (fun x => if x.exam_id = exam0.exam_id then { exam0 with exam_name := payload.exam_name, exam_type := payload.exam_type, no_students := payload.no_students, exam_school := payload.exam_school, school_contact := payload.school_contact } else x) } hok1
      refine ⟨?_, ?_, hlens.1, hlens.2.1⟩
      · by_cases hre : tl.isEmpty = true <;> simp [hre]
      · rw [hlens.2.2]
        simp only []
        rw [List.length_map]

end Timetabling

namespace Timetabling

theorem examRowsFold_pres :
    ∀ (rows : List ExamRow) (idx : Nat) (st : DB) (sum : Summary),
      dbIdsOk st →
      dbIdsOk (examRowsFold idx st sum rows).1 ∧
      (∀ c i, firstExamIdByCode st c = some i →
        firstExamIdByCode (examRowsFold idx st sum rows).1 c = some i) ∧
      (∀ n, (lookupVenue st n).isSome = true →
        (lookupVenue (examRowsFold idx st sum rows).1 n).isSome = true) ∧
      (∀ i n, hasEVLink st i n = true →
        hasEVLink (examRowsFold idx st sum rows).1 i n = true) ∧
      (∀ r ∈ rows, buildExamPayload r = none ∨
        rowEstablished (examRowsFold idx st sum rows).1 r)
  | [], idx, st, sum, h =>
    ⟨h, fun _ _ hi => hi, fun _ hn => hn, fun _ _ hl => hl,
      fun r hr => absurd hr (List.not_mem_nil r)⟩
  | row :: rows, idx, st, sum, h => by
    obtain ⟨hs1, hs2, hs3, hs4, hs5⟩ := examRowStep_pres st sum idx row h
    obtain ⟨hf1, hf2, hf3, hf4, hf5⟩ := examRowsFold_pres rows (idx + 1)
      (importExamRowStep st sum idx row).1
      (importExamRowStep st sum idx row).2 hs1
    unfold examRowsFold
    simp only []
    refine ⟨hf1, fun c i hi => hf2 c i (hs2 c i hi),
      fun n hn => hf3 n (hs3 n hn), fun i n hl => hf4 i n (hs4 i n hl), ?_⟩
    intro r hr
    rcases List.mem_cons.mp hr with hr | hr
    · subst hr
      rcases hq : buildExamPayload r with _ | q
      · exact Or.inl rfl
      · refine Or.inr (rowEstablished_mono hf2 hf3 hf4 ?_)
        exact hs5 (fun hc => by rw [hq] at hc; cases hc)
    · exact hf5 r hr

theorem examRowsFold_second :
    ∀ (rows : List ExamRow) (idx : Nat) (st : DB) (sum : Summary),
      dbIdsOk st →
      (∀ r ∈ rows, buildExamPayload r = none ∨ rowEstablished st r) →
      (examRowsFold idx st sum rows).2.created = sum.created ∧
      (examRowsFold idx st sum rows).1.exams.length = st.exams.length ∧
      (examRowsFold idx st sum rows).1.venues.length = st.venues.length ∧
      (examRowsFold idx st sum rows).1.examVenues.length
        = st.examVenues.length
  | [], idx, st, sum, _, _ => ⟨rfl, rfl, rfl, rfl⟩
  | row :: rows, idx, st, sum, h, hall => by
    obtain ⟨hs1, hs2, hs3, hs4, hs5⟩ := examRowStep_pres st sum idx row h
    obtain ⟨hc1, hc2, hc3, hc4⟩ := examRowStep_second st sum idx row h
      (hall row (List.mem_cons_self _ _))
    obtain ⟨hf1, hf2, hf3, hf4⟩ := examRowsFold_second rows (idx + 1)
      (importExamRowStep st sum idx row).1
      (importExamRowStep st sum idx row).2 hs1
      (fun r hr => by
        rcases hall r (List.mem_cons_of_mem _ hr) with hrr | hrr
        · exact Or.inl hrr
        · exact Or.inr (rowEstablished_mono hs2 hs3 hs4 hrr))
    unfold examRowsFold
    simp only []
    exact ⟨hf1.trans hc1, hf2.trans hc2, hf3.trans hc3, hf4.trans hc4⟩

/-- Claim C8 (amended, exam importer): from any state with well-formed
primary keys, running `_import_exam_rows` twice on the same rows yields a
second summary with `created = 0`, and the second run adds no Exam, Venue or
ExamVenue row: everything it needs already exists, so it only updates in
place.  The claim's stronger form is false: the second run reports every
valid row as `updated` (never `unchanged`), and `_import_provision_rows` can
even create a fresh placeholder ExamVenue on its second run (see the
counterexample). -/
theorem import_exam_rows_second_run (rows : List ExamRow) (s : DB)
    (h : dbIdsOk s) :
    (importExamRows rows (importExamRows rows s).1).2.created = 0 ∧
    (importExamRows rows (importExamRows rows s).1).1.exams.length =
      (importExamRows rows s).1.exams.length ∧
    (importExamRows rows (importExamRows rows s).1).1.venues.length =
      (importExamRows rows s).1.venues.length ∧
    (importExamRows rows (importExamRows rows s).1).1.examVenues.length =
      (importExamRows rows s).1.examVenues.length := by
  obtain ⟨h1, _, _, _, h5⟩ :=
    examRowsFold_pres rows 1 s (baseSummary rows.length) h
  exact examRowsFold_second rows 1 (importExamRows rows s).1
    (baseSummary rows.length) h1 h5

end Timetabling

namespace Timetabling

/-- Exam upload for the C8 scenario: one exam in "Hall" at 09:00 for 60
minutes. -/
def c8ExamRows : List ExamRow :=
  [{ course_code := "E1", exam_name := "Exam One", exam_type := "Exam"
     no_students := some 10, school := "Sci", school_contact := "c@x"
     start_time := some 32400, exam_length := some 60
     venue_names := ["Hall"] }]

/-- Provision upload for the C8 scenario: one separate-room student and one
100%-extra-time student on the same exam. -/
def c8Rows : List ProvRow :=
  [{ student_id := "S1", student_name := "Ann", exam_code := "E1"
     provisions := [pSepRoomOwn], notes := "" },
   { student_id := "S2", student_name := "Bob", exam_code := "E1"
     provisions := [pExtraTime100], notes := "" }]

def c8S1 : DB := (importExamRows c8ExamRows emptyDB).1

def c8AfterFirst : DB := importProvisionRowsState c8Rows c8S1

/-- Claim C8 counterexample: after a successful first provision import, a
second import of the identical rows succeeds with `updated = 2` (not 0, and
nothing counted `unchanged`), and it grows the ExamVenue table by one row:
S2's lookup starts from the exam's first placeholder, which is S1's reserved
separate room, so the code gives up on reuse and creates a fresh
placeholder.  The second exam import likewise reports `updated = 1`. -/
theorem import_reingestion_counterexample :
    (match importProvisionRows c8Rows c8AfterFirst with
      | .ok r => some (r.2.created, r.2.updated, r.2.unchanged,
          r.1.examVenues.length)
      | .error _ => none) =
      some (0, 2, 0, c8AfterFirst.examVenues.length + 1) ∧
    (importExamRows c8ExamRows c8S1).2.updated = 1 ∧
    (importExamRows c8ExamRows c8S1).2.unchanged = 0 := by
  decide

/-- Claim C8, witnessed: the amended theorem applied to the concrete exam
upload from the empty state. -/
theorem import_exam_rows_second_run_witness :
    (importExamRows c8ExamRows (importExamRows c8ExamRows emptyDB).1).2.created
      = 0 ∧
    (importExamRows c8ExamRows
        (importExamRows c8ExamRows emptyDB).1).1.exams.length =
      (importExamRows c8ExamRows emptyDB).1.exams.length ∧
    (importExamRows c8ExamRows
        (importExamRows c8ExamRows emptyDB).1).1.venues.length =
      (importExamRows c8ExamRows emptyDB).1.venues.length ∧
    (importExamRows c8ExamRows
        (importExamRows c8ExamRows emptyDB).1).1.examVenues.length =
      (importExamRows c8ExamRows emptyDB).1.examVenues.length :=
  import_exam_rows_second_run c8ExamRows emptyDB
    (by unfold dbIdsOk; decide)

end Timetabling
